import Mathlib

/-!
Shallow embedding of the `agentic-mesh` kernel (Rust) in Lean 4.

Conventions of the embedding:
* Rust `f64` values are modelled as rationals (`ℚ`): the code under
  verification performs only additions, comparisons and max on finite
  doubles, so the rational model tracks the same branch decisions.
* Rust `u64`/`u32`/`usize` are modelled as `ℕ`; the one saturating
  addition in the source (`total_tokens`) is modelled explicitly
  against the `u64` ceiling.
* `HashMap<String, V>` is modelled as an association list with
  first-match lookup and replace-on-insert; `HashSet<String>` as a
  duplicate-free list.  Iteration order of Rust hash containers is
  unspecified, so nothing proved below depends on it in an essential way.
* External effects (HTTP tool invocations, the memory service, wall
  clock latencies, ToolSpec fetches) are modelled by an explicit
  environment (`Env`) consumed by the scheduler, plus a record of the
  write requests actually issued.
* External library functions whose exact behaviour is irrelevant to the
  claims (float `Display`/`{:.2}`/`{:.4}` formatting, serde JSON
  decoding into `Evidence`/`VerificationResult` values, serde encoding
  of summaries) are parameters, collected in `ExtFuns`; theorems hold
  for every instantiation.
* Wall-clock timestamps and the random `plan_id` UUID of traces are
  omitted from the `Trace` model: no verified property inspects them.
-/

namespace AgenticMesh

/-- Single-quote character, used when building source-level error messages. -/
def squote : String := String.singleton (Char.ofNat 39)

/-- The largest `u64` value; `total_tokens` saturates here. -/
def u64Max : ℕ := 2 ^ 64 - 1

/-- Saturating `u64` addition (`u64::saturating_add`). -/
def satAdd (a b : ℕ) : ℕ := min (a + b) u64Max

/-- The value of `f64::MAX`, used by the plan optimizer as a sentinel cost. -/
def f64Max : ℚ := 2 ^ 1024 - 2 ^ 971

/-- Substring test, as Rust `str::contains` with a string pattern. -/
def strContainsSub (haystack needle : String) : Bool :=
  haystack.data.tails.any (fun t => needle.data.isPrefixOf t)

/-- Rust `str::to_lowercase` (character-wise, as the policy check uses it). -/
def strToLower (s : String) : String := ⟨s.data.map Char.toLower⟩

/-- Rust `str::to_uppercase` (character-wise). -/
def strToUpper (s : String) : String := ⟨s.data.map Char.toUpper⟩

/-- Rust `str::trim`: strip leading and trailing whitespace. -/
def strTrim (s : String) : String :=
  ⟨((s.data.dropWhile Char.isWhitespace).reverse.dropWhile Char.isWhitespace).reverse⟩

/-- Rust `str::starts_with` with a string pattern. -/
def strStartsWith (s pre : String) : Bool := pre.data.isPrefixOf s.data

/-- Rust `str::ends_with` with a string pattern. -/
def strEndsWith (s suf : String) : Bool := suf.data.isSuffixOf s.data

/-- Drop the first `n` characters (Rust `&s[1..]` on ASCII data). -/
def strDropChars (s : String) (n : ℕ) : String := ⟨s.data.drop n⟩

/-- Association-list model of `HashMap<String, V>`. -/
abbrev SMap (α : Type) : Type := List (String × α)

namespace SMap

/-- Lookup (`HashMap::get`). -/
def find? (m : SMap α) (k : String) : Option α :=
  match m with
  | [] => none
  | (k₀, v₀) :: rest => if k₀ = k then some v₀ else find? rest k

/-- Insert, replacing an existing binding (`HashMap::insert`). -/
def insert (m : SMap α) (k : String) (v : α) : SMap α :=
  match m with
  | [] => [(k, v)]
  | (k₀, v₀) :: rest => if k₀ = k then (k, v) :: rest else (k₀, v₀) :: insert rest k v

/-- Key membership (`HashMap::contains_key`). -/
def containsKey (m : SMap α) (k : String) : Bool :=
  (find? m k).isSome

/-- The key list (`HashMap::keys`). -/
def keysOf (m : SMap α) : List String := m.map (·.1)

/-- Emptiness (`HashMap::is_empty`). -/
def isEmpty (m : SMap α) : Bool :=
  match m with
  | [] => true
  | _ :: _ => false

end SMap

/-- Duplicate-free list model of `HashSet<String>`. -/
abbrev SSet : Type := List String

namespace SSet

/-- `HashSet::contains`. -/
def mem (s : SSet) (x : String) : Bool := s.contains x

/-- `HashSet::insert`. -/
def insert (s : SSet) (x : String) : SSet := if s.contains x then s else x :: s

/-- `HashSet::remove`. -/
def remove (s : SSet) (x : String) : SSet := s.erase x

end SSet

/-- `serde_json::Value`.  Numbers are rationals (see the header note). -/
inductive Json where
  | null : Json
  | bool (b : Bool) : Json
  | num (q : ℚ) : Json
  | str (s : String) : Json
  | arr (items : List Json) : Json
  | obj (fields : List (String × Json)) : Json

namespace Json

/-- `Value::as_str`. -/
def asStr : Json → Option String
  | .str s => some s
  | _ => none

/-- `Value::as_f64` (every number in the model is a finite double). -/
def asF64 : Json → Option ℚ
  | .num q => some q
  | _ => none

/-- `Value::as_bool`. -/
def asBool : Json → Option Bool
  | .bool b => some b
  | _ => none

/-- `Value::as_array`. -/
def asArray : Json → Option (List Json)
  | .arr items => some items
  | _ => none

/-- `Value::get` with a string key (object member lookup). -/
def get (v : Json) (k : String) : Option Json :=
  match v with
  | .obj fields => SMap.find? fields k
  | _ => none

end Json

/-! ### `internal/tools/spec.rs` -/

/-- `Schema` (JSON-schema fragment carried by `ToolSpec.io`). -/
inductive Schema where
  | mk (schema_type : String)
       (properties : Option (List (String × Schema)))
       (required : Option (List String))
       (items : Option Schema) : Schema

/-- `IoSpec`. -/
structure IoSpec where
  input : Schema
  output : Schema

/-- `Constraints`. -/
structure Constraints where
  input_tokens_max : Option ℕ
  latency_p50_ms : Option ℕ
  cost_per_call_usd : Option ℚ
  rate_limit_qps : Option ℕ
  side_effects : Option Bool

/-- `Provenance`. -/
structure Provenance where
  attribution_required : Option Bool

/-- `Policy` (the per-tool deny-list policy in `spec.rs`). -/
structure ToolPolicy where
  deny_if : Option (List String)

/-- `ToolSpec`. -/
structure ToolSpec where
  name : String
  description : Option String
  io : IoSpec
  capabilities : Option (List String)
  constraints : Option Constraints
  provenance : Option Provenance
  quality : Option (Option String × Option (List String))
  policy : Option ToolPolicy

/-! ### `internal/plan/ir.rs` -/

/-- `Signals`. -/
structure Signals where
  latency_budget_ms : Option ℕ
  cost_cap_usd : Option ℚ
  risk : Option ℚ

/-- `Operation`. -/
inductive Operation where
  | Call | Map | Reduce | Branch | Assert | Spawn
  | MemRead | MemWrite | Verify | Retry
deriving DecidableEq

/-- `Node`. -/
structure Node where
  id : String
  op : Operation
  tool : Option String
  capability : Option String
  args : Option (SMap Json)
  bind : Option (SMap String)
  out : Option (SMap String)

/-- `Edge`. -/
structure Edge where
  src : String  -- `from` in the source (a Lean keyword)
  dst : String  -- `to` in the source

/-- `StopConditions`. -/
structure StopConditions where
  max_nodes : Option ℕ
  min_confidence : Option ℚ

/-- `Plan`. -/
structure Plan where
  signals : Option Signals
  nodes : List Node
  edges : Option (List Edge)
  stop_conditions : Option StopConditions

/-- `PlanValidationError`. -/
inductive PlanValidationError where
  | EmptyPlan
  | DuplicateNodeId (id : String)
  | InvalidEdge (msg : String)
  | UnknownTool (tool : String)
  | MissingOutputBinding (id : String)
  | MissingToolOrCapability (id : String)
deriving DecidableEq

/-- `PlanValidationError`'s `Display` impl (`thiserror` templates). -/
def PlanValidationError.toMessage : PlanValidationError → String
  | .EmptyPlan => "Plan cannot be empty"
  | .DuplicateNodeId id => "Duplicate node ID: " ++ id
  | .InvalidEdge m => "Invalid edge: " ++ m
  | .UnknownTool t => "Unknown tool referenced: " ++ t
  | .MissingOutputBinding id => "Node " ++ id ++ " is missing output bindings"
  | .MissingToolOrCapability id => "Node " ++ id ++ " requires either a tool or capability"

/-- First node id (scanning in order) already seen earlier in the list. -/
def findDuplicateId : List Node → SSet → Option String
  | [], _ => none
  | n :: rest, seen =>
      if seen.contains n.id then some n.id else findDuplicateId rest (n.id :: seen)

/-- First edge (in order) referencing a node id outside `ids`; checks
`from` before `to`, as the source loop does. -/
def findBadEdge (ids : List String) : List Edge → Option (Bool × String)
  | [] => none
  | e :: rest =>
      if ¬ ids.contains e.src then some (true, e.src)
      else if ¬ ids.contains e.dst then some (false, e.dst)
      else findBadEdge ids rest

/-- `Plan::validate`. -/
def Plan.validate (p : Plan) : Except PlanValidationError Unit :=
  if p.nodes.isEmpty then .error .EmptyPlan
  else
    match findDuplicateId p.nodes [] with
    | some id => .error (.DuplicateNodeId id)
    | none =>
        match p.edges with
        | none => .ok ()
        | some edges =>
            match findBadEdge (p.nodes.map (·.id)) edges with
            | some (true, id) =>
                .error (.InvalidEdge ("Edge references non-existent " ++ squote ++ "from"
                  ++ squote ++ " node: " ++ id))
            | some (false, id) =>
                .error (.InvalidEdge ("Edge references non-existent " ++ squote ++ "to"
                  ++ squote ++ " node: " ++ id))
            | none => .ok ()

/-- `Plan::operation_requires_tool`. -/
def operationRequiresTool : Operation → Bool
  | .Call | .Map | .Reduce | .Verify | .MemRead | .MemWrite | .Retry => true
  | _ => false

/-- `Plan::operation_requires_output`. -/
def operationRequiresOutput : Operation → Bool
  | .Call | .Map | .Reduce | .Verify | .MemRead | .Retry => true
  | _ => false

/-- The per-node output-binding check inside `validate_with_tools`
(lines 136-147 of `ir.rs`): `out` must be present, non-empty, and
without any whitespace-only key. -/
def outputBindingCheck (n : Node) : Except PlanValidationError Unit :=
  match n.out with
  | some m =>
      if ¬ (SMap.isEmpty m) then
        if (SMap.keysOf m).any (fun k => strTrim k = "") then
          .error (.MissingOutputBinding n.id)
        else .ok ()
      else .error (.MissingOutputBinding n.id)
  | none => .error (.MissingOutputBinding n.id)

/-- The per-node body of the `validate_with_tools` loop. -/
def validateNodeWithTools (available : List String) (n : Node) :
    Except PlanValidationError Unit := do
  if operationRequiresTool n.op then
    if n.tool.isNone ∧ n.capability.isNone then
      throw (.MissingToolOrCapability n.id)
    else
      match n.tool with
      | some t => if ¬ available.contains t then throw (.UnknownTool t) else pure ()
      | none => pure ()
  -- the source repeats the unknown-tool check outside the requires-tool branch
  match n.tool with
  | some t => if ¬ available.contains t then throw (.UnknownTool t) else pure ()
  | none => pure ()
  if operationRequiresOutput n.op then outputBindingCheck n else pure ()

/-- The node loop of `validate_with_tools`. -/
def validateNodesWithTools (available : List String) :
    List Node → Except PlanValidationError Unit
  | [] => .ok ()
  | n :: rest =>
      match validateNodeWithTools available n with
      | .error e => .error e
      | .ok () => validateNodesWithTools available rest

/-- `Plan::validate_with_tools`. -/
def Plan.validateWithTools (p : Plan) (available : List String) :
    Except PlanValidationError Unit :=
  match p.validate with
  | .error e => .error e
  | .ok () => validateNodesWithTools available p.nodes

/-! ### `internal/trace/trace.rs` -/

/-- `Trace`.  The random `plan_id` UUID and the `ts` wall-clock stamp of
the source struct are omitted (see the header note); all remaining
fields are modelled. -/
structure Trace where
  step_id : String
  event_type : String
  cost_usd : Option ℚ
  tokens_in : Option ℕ
  tokens_out : Option ℕ
  citations : Option (List String)
  signature : Option String
  data : Option Json

/-- `Trace::new`. -/
def Trace.new (event_type step_id description : String) : Trace :=
  { step_id := step_id
    event_type := event_type
    cost_usd := none
    tokens_in := none
    tokens_out := none
    citations := none
    signature := none
    data := some (.obj [("description", .str description)]) }

/-! ### `internal/evidence/verify.rs` -/

/-- `Support`. -/
structure Support where
  claim_id : String
  source : String
  confidence : ℚ
  explanation : Option String

/-- `Contradiction`. -/
structure Contradiction where
  claim_id : String
  source : String
  confidence : ℚ
  explanation : Option String

/-- `VerdictType`. -/
inductive VerdictType where
  | Supported | Contradicted | Neutral
deriving DecidableEq

/-- `Verdict`. -/
structure Verdict where
  claim_id : String
  verdict : VerdictType
  confidence : ℚ
  needs_citation : Bool

/-- `Evidence`. -/
structure Evidence where
  claims : Option (List String)
  supports : Option (List Support)
  contradicts : Option (List Contradiction)
  verdicts : Option (List Verdict)

/-- `ClaimSummary`. -/
structure ClaimSummary where
  supports : ℕ
  contradictions : ℕ
  average_confidence : Option ℚ
  max_confidence : Option ℚ
  min_confidence : Option ℚ

/-- `VerificationResult`. -/
structure VerificationResult where
  total_claims : ℕ
  supported_claims : ℕ
  contradicted_claims : ℕ
  mean_confidence : ℚ
  needs_citation_count : ℕ
  max_confidence : ℚ
  min_confidence : ℚ
  per_claim : SMap ClaimSummary

/-- `ClaimAccumulator` (with its `Default`; the `f64::INFINITY` initial
minimum is represented by the `confidence_count = 0` convention the
source itself uses in `add_confidence`/`into_summary`). -/
structure ClaimAccumulator where
  supports : ℕ
  contradictions : ℕ
  confidence_sum : ℚ
  confidence_count : ℕ
  min_confidence : ℚ
  max_confidence : ℚ

/-- `ClaimAccumulator::default`. -/
def ClaimAccumulator.dflt : ClaimAccumulator :=
  { supports := 0, contradictions := 0, confidence_sum := 0,
    confidence_count := 0, min_confidence := 0, max_confidence := 0 }

/-- `ClaimAccumulator::add_confidence`.  On the first sample both
extrema become the sample, exactly as the source's `confidence_count == 1`
branches do (so the `f64::INFINITY` sentinel never escapes). -/
def ClaimAccumulator.addConfidence (a : ClaimAccumulator) (v : ℚ) : ClaimAccumulator :=
  let cnt := a.confidence_count + 1
  { a with
    confidence_sum := a.confidence_sum + v
    confidence_count := cnt
    max_confidence := if cnt = 1 then v else max a.max_confidence v
    min_confidence := if cnt = 1 then v else min a.min_confidence v }

/-- `ClaimAccumulator::into_summary`. -/
def ClaimAccumulator.intoSummary (a : ClaimAccumulator) : ClaimSummary :=
  { supports := a.supports
    contradictions := a.contradictions
    average_confidence :=
      if 0 < a.confidence_count then some (a.confidence_sum / a.confidence_count) else none
    max_confidence := if 0 < a.confidence_count then some a.max_confidence else none
    min_confidence := if 0 < a.confidence_count then some a.min_confidence else none }

/-- The `claim_accumulators` map: `entry(claim).or_default()` then apply
`f` to the entry (appends a fresh entry when the key is new, matching
insertion-order map semantics). -/
abbrev AccMap : Type := List (String × ClaimAccumulator)

/-- Entry update with default (`entry(k).or_default()` followed by `f`). -/
def AccMap.update (m : AccMap) (k : String) (f : ClaimAccumulator → ClaimAccumulator) :
    AccMap :=
  match m with
  | [] => [(k, f ClaimAccumulator.dflt)]
  | (k₀, a₀) :: rest =>
      if k₀ = k then (k₀, f a₀) :: rest else (k₀, a₀) :: AccMap.update rest k f

/-- Phase 1 of `verify_evidence`: seed accumulators from `claims`. -/
def accumClaims : List String → AccMap → AccMap
  | [], m => m
  | c :: rest, m => accumClaims rest (m.update c id)

/-- Phase 2: fold the `supports` list. -/
def accumSupports : List Support → AccMap → AccMap
  | [], m => m
  | s :: rest, m =>
      accumSupports rest
        (m.update s.claim_id fun a =>
          ({ a with supports := a.supports + 1 }).addConfidence s.confidence)

/-- Phase 3: fold the `contradicts` list. -/
def accumContradicts : List Contradiction → AccMap → AccMap
  | [], m => m
  | c :: rest, m =>
      accumContradicts rest
        (m.update c.claim_id fun a =>
          ({ a with contradictions := a.contradictions + 1 }).addConfidence c.confidence)

/-- Phase 4: fold the `verdicts` list (per-claim confidences only). -/
def accumVerdicts : List Verdict → AccMap → AccMap
  | [], m => m
  | v :: rest, m =>
      accumVerdicts rest (m.update v.claim_id (·.addConfidence v.confidence))

/-- Count of `Supported` verdicts. -/
def countSupported (vs : List Verdict) : ℕ :=
  (vs.filter (fun v => v.verdict = .Supported)).length

/-- Count of `Contradicted` verdicts. -/
def countContradicted (vs : List Verdict) : ℕ :=
  (vs.filter (fun v => v.verdict = .Contradicted)).length

/-- Sum of verdict confidences. -/
def verdictConfidenceSum (vs : List Verdict) : ℚ :=
  (vs.map (·.confidence)).sum

/-- Minimum verdict confidence (0 when there are none: the
`global_min_conf == f64::INFINITY` reset of the source). -/
def verdictMinConfidence (vs : List Verdict) : ℚ :=
  match vs.map (·.confidence) with
  | [] => 0
  | c :: cs => cs.foldl min c

/-- Maximum verdict confidence (starting from the source's `0.0`). -/
def verdictMaxConfidence (vs : List Verdict) : ℚ :=
  (vs.map (·.confidence)).foldl max 0

/-- `EvidenceVerifier::verify_evidence`. -/
def verifyEvidence (evidence : Evidence) : VerificationResult :=
  let m₀ : AccMap := []
  let m₁ := accumClaims (evidence.claims.getD []) m₀
  let m₂ := accumSupports (evidence.supports.getD []) m₁
  let m₃ := accumContradicts (evidence.contradicts.getD []) m₂
  let verdicts := evidence.verdicts.getD []
  let m₄ := accumVerdicts verdicts m₃
  let totalClaims := verdicts.length
  { total_claims := totalClaims
    supported_claims := countSupported verdicts
    contradicted_claims := countContradicted verdicts
    mean_confidence :=
      if 0 < totalClaims then verdictConfidenceSum verdicts / totalClaims else 0
    needs_citation_count := (verdicts.filter (·.needs_citation)).length
    max_confidence := verdictMaxConfidence verdicts
    min_confidence := verdictMinConfidence verdicts
    per_claim := m₄.map (fun kv => (kv.1, kv.2.intoSummary)) }

/-- `EvidenceValidationError`. -/
inductive EvidenceValidationError where
  | InsufficientConfidence (mean_confidence min_required : ℚ)
  | TooManyContradictions (contradictionShare threshold : ℚ)
  | MissingSupport (claim_id : String)
deriving DecidableEq

/-- First claim (in accumulator order) whose summary has zero supports. -/
def findMissingSupport : SMap ClaimSummary → Option String
  | [] => none
  | (claim, s) :: rest =>
      if s.supports = 0 then some claim else findMissingSupport rest

/-- `EvidenceVerifier::validate_evidence_for_storage`. -/
def validateEvidenceForStorage (evidence : Evidence) (min_confidence : ℚ) :
    Except EvidenceValidationError Unit :=
  let vr := verifyEvidence evidence
  if vr.mean_confidence < min_confidence then
    .error (.InsufficientConfidence vr.mean_confidence min_confidence)
  else
    match findMissingSupport vr.per_claim with
    | some claim => .error (.MissingSupport claim)
    | none =>
        match evidence.verdicts with
        | some verdicts =>
            let contradictionCount := countContradicted verdicts
            let totalVerdicts := verdicts.length
            if 0 < totalVerdicts then
              if (1 : ℚ) / 2 < (contradictionCount : ℚ) / (totalVerdicts : ℚ) then
                .error (.TooManyContradictions
                  ((contradictionCount : ℚ) / (totalVerdicts : ℚ)) ((1 : ℚ) / 2))
              else .ok ()
            else .ok ()
        | none => .ok ()

/-! ### `internal/mem/store.rs` -/

/-- `MemoryEntry`. -/
structure MemoryEntry where
  key : String
  value : Json
  provenance : Option (List String)
  confidence : ℚ
  ttl : String
  timestamp : String
  expires_at : Option String
  evidence_summary : Option Json

/-- `MemoryError`. -/
inductive MemoryError where
  | Communication (msg : String)
  | StorageError (msg : String)
  | InsufficientConfidence (c : ℚ)
  | EvidenceValidation (msg : String)
  | MissingProvenance
  | InvalidTtl (ttl : String)
deriving DecidableEq

/-- Maximal ASCII-digit prefix (`\d+` of the TTL regex). -/
def takeDigits : List Char → List Char × List Char
  | [] => ([], [])
  | c :: cs =>
      if c.isDigit then
        let (ds, rest) := takeDigits cs
        (c :: ds, rest)
      else ([], c :: cs)

/-- Try to consume an optional `(\d+)u` group; on failure the input is
returned unchanged (the regex group simply does not participate). -/
def tryNumUnit (u : Char) (cs : List Char) : List Char :=
  match takeDigits cs with
  | (ds, rest) =>
      match rest with
      | c :: rest₁ => if ds ≠ [] ∧ c = u then rest₁ else cs
      | [] => cs

/-- Matcher for the anchored TTL regex
`^P(?:(\d+)D)?(?:T(?:(\d+)H)?(?:(\d+)M)?(?:(\d+)S)?)?$`. -/
def ttlRegexMatch (s : String) : Bool :=
  match s.data with
  | 'P' :: cs =>
      let cs₁ := tryNumUnit 'D' cs
      let cs₂ :=
        match cs₁ with
        | 'T' :: cs' => tryNumUnit 'S' (tryNumUnit 'M' (tryNumUnit 'H' cs'))
        | _ => cs₁
      cs₂.isEmpty
  | _ => false

/-- The canonical form `validate_ttl` gives a provided TTL string
(trim, uppercase, default to `P90D` when empty). -/
def canonicalTtl (s : String) : String :=
  let t := strToUpper (strTrim s)
  if t = "" then "P90D" else t

/-- `validate_ttl`. -/
def validateTtl (ttl : Option String) : Except MemoryError String :=
  let canonical :=
    match ttl with
    | some s => canonicalTtl s
    | none => "P90D"
  if ¬ ttlRegexMatch canonical then .error (.InvalidTtl canonical)
  else if canonical = "P0D" ∨ canonical = "PT0S" then .error (.InvalidTtl canonical)
  else .ok canonical

/-! ### External library functions abstracted as parameters -/

/-- External (library) functions the kernel calls whose exact behaviour
no claim depends on: float formatting (`Display`, `{:.2}`, `{:.4}`) and
serde encoders/decoders for `Evidence` and `VerificationResult`.
All theorems below hold for every instantiation. -/
structure ExtFuns where
  fmtFloat : ℚ → String
  fmt2 : ℚ → String
  fmt4 : ℚ → String
  parseEvidenceStr : String → Except String Evidence
  parseEvidenceJson : Json → Option Evidence
  encodeSummary : VerificationResult → Json
  decodeSummary : Json → Except String VerificationResult

/-- A trivial instantiation of `ExtFuns`, used by concrete witnesses. -/
def ExtFuns.triv : ExtFuns :=
  { fmtFloat := fun _ => ""
    fmt2 := fun _ => ""
    fmt4 := fun _ => ""
    parseEvidenceStr := fun _ => .error ""
    parseEvidenceJson := fun _ => none
    encodeSummary := fun _ => .null
    decodeSummary := fun _ => .error "" }

/-- Two lowercase hex digits of a byte (for JSON control-char escapes). -/
def hexByte (n : ℕ) : String :=
  let digit := fun (d : ℕ) => String.singleton (Char.ofNat (if d < 10 then 48 + d else 87 + d))
  digit (n / 16 % 16) ++ digit (n % 16)

/-- serde_json escaping of a single character. -/
def escapeChar (c : Char) : String :=
  if c = '"' then "\\\""
  else if c = '\\' then "\\\\"
  else if c = Char.ofNat 8 then "\\b"
  else if c = Char.ofNat 12 then "\\f"
  else if c = '\n' then "\\n"
  else if c = '\r' then "\\r"
  else if c = '\t' then "\\t"
  else if c.toNat < 32 then "\\u00" ++ hexByte c.toNat
  else String.singleton c

/-- serde_json escaping of a string body. -/
def escapeString (s : String) : String :=
  s.data.foldl (fun acc c => acc ++ escapeChar c) ""

mutual

/-- Compact serialisation of a `Json` value (`Value::to_string`);
number formatting goes through `ExtFuns.fmtFloat`. -/
def Json.render (F : ExtFuns) : Json → String
  | .null => "null"
  | .bool true => "true"
  | .bool false => "false"
  | .num q => F.fmtFloat q
  | .str s => "\"" ++ escapeString s ++ "\""
  | .arr items => "[" ++ Json.renderItems F items ++ "]"
  | .obj fields => "\x7b" ++ Json.renderFields F fields ++ "\x7d"

/-- Comma-joined rendering of array elements. -/
def Json.renderItems (F : ExtFuns) : List Json → String
  | [] => ""
  | [x] => Json.render F x
  | x :: xs => Json.render F x ++ "," ++ Json.renderItems F xs

/-- Comma-joined rendering of object members. -/
def Json.renderFields (F : ExtFuns) : List (String × Json) → String
  | [] => ""
  | [(k, v)] => "\"" ++ escapeString k ++ "\":" ++ Json.render F v
  | (k, v) :: kvs =>
      "\"" ++ escapeString k ++ "\":" ++ Json.render F v ++ "," ++ Json.renderFields F kvs

end

/-! ### `internal/exec/scheduler.rs`: state and context -/

/-- `ExecutionError`. -/
inductive ExecutionError where
  | ValidationError (msg : String)
  | ToolExecutionError (msg : String)
  | TimeoutError (msg : String)
  | BudgetExceeded (msg : String)
deriving DecidableEq

/-- `UsageRecord`. -/
structure UsageRecord where
  tool_name : String
  latency_ms : ℚ
  cost_usd : ℚ
  tokens : ℕ
deriving DecidableEq

/-- `ExecutionContext` (the `tool_client` handle is subsumed by `Env`). -/
structure ExecutionContext where
  vars : SMap Json  -- `variables` in the source (a deprecated token in Lean)
  tool_specs : SMap ToolSpec
  tool_urls : SMap String
  capability_index : SMap (List String)
  signals : Option Signals
  trace_events : List Trace
  completed_nodes : SSet
  running_nodes : SSet
  total_latency_ms : ℚ
  total_cost_usd : ℚ
  total_tokens : ℕ

/-- `ExecutionContext::new`. -/
def ExecutionContext.new : ExecutionContext :=
  { vars := [], tool_specs := [], tool_urls := [], capability_index := []
    signals := none, trace_events := [], completed_nodes := [], running_nodes := []
    total_latency_ms := 0, total_cost_usd := 0, total_tokens := 0 }

/-- Outcome of one HTTP tool invocation, as decided by the environment
(`timeout` models the scheduler's 30s `tokio::time::timeout` firing). -/
inductive InvokeOutcome where
  | success (result : Json)
  | failure (msg : String)
  | timeout

/-- The external world: each effectful call consumes the head of the
matching stream (an exhausted stream yields a transport failure). -/
structure Env where
  invokeResults : List (InvokeOutcome × ℚ)
  specResults : List (Option ToolSpec)
  memReadResults : List (Except String (Option MemoryEntry) × ℚ)
  memWriteResults : List (Except MemoryError Unit × ℚ)

/-- The empty environment. -/
def Env.empty : Env :=
  { invokeResults := [], specResults := [], memReadResults := [], memWriteResults := [] }

/-- Full scheduler state: the Rust context, the environment, plus two
observation logs (write requests actually POSTed to the memory service,
and nodes whose per-operation handler was entered). -/
structure ExecState where
  ctx : ExecutionContext
  env : Env
  issuedMemWrites : List Json
  invokedNodes : List String

/-- Append a trace event. -/
def pushTrace (t : Trace) (s : ExecState) : ExecState :=
  { s with ctx := { s.ctx with trace_events := s.ctx.trace_events ++ [t] } }

/-- Consume the next tool-invocation outcome. -/
def popInvoke (s : ExecState) : (InvokeOutcome × ℚ) × ExecState :=
  match s.env.invokeResults with
  | [] => ((.failure "transport error", 0), s)
  | r :: rest => (r, { s with env := { s.env with invokeResults := rest } })

/-- Consume the next ToolSpec-fetch outcome. -/
def popSpec (s : ExecState) : Option ToolSpec × ExecState :=
  match s.env.specResults with
  | [] => (none, s)
  | r :: rest => (r, { s with env := { s.env with specResults := rest } })

/-- Consume the next memory-read outcome. -/
def popMemRead (s : ExecState) : (Except String (Option MemoryEntry) × ℚ) × ExecState :=
  match s.env.memReadResults with
  | [] => ((.error "transport error", 0), s)
  | r :: rest => (r, { s with env := { s.env with memReadResults := rest } })

/-- Consume the next memory-write outcome. -/
def popMemWrite (s : ExecState) : (Except MemoryError Unit × ℚ) × ExecState :=
  match s.env.memWriteResults with
  | [] => ((.error (.Communication "transport error"), 0), s)
  | r :: rest => (r, { s with env := { s.env with memWriteResults := rest } })

/-! ### Variable reference resolution (`resolve_reference` and friends) -/

/-- Scan characters of a path segment, stopping at `.` or `[`. -/
def scanSegment : List Char → List Char × List Char
  | [] => ([], [])
  | c :: cs =>
      if c = '.' ∨ c = '[' then ([], c :: cs)
      else
        let (seg, rest) := scanSegment cs
        (c :: seg, rest)

/-- The rest after scanning a segment is no longer than the input. -/
theorem scanSegment_length (cs : List Char) : (scanSegment cs).2.length ≤ cs.length := by
  induction cs with
  | nil => simp [scanSegment]
  | cons c cs ih =>
      simp only [scanSegment]
      split
      · simp
      · simpa using Nat.le_succ_of_le ih

/-- Scan characters of an index, stopping at `]`. -/
def scanIndex : List Char → List Char × List Char
  | [] => ([], [])
  | c :: cs =>
      if c = ']' then ([], c :: cs)
      else
        let (seg, rest) := scanIndex cs
        (c :: seg, rest)

/-- The rest after scanning an index is no longer than the input. -/
theorem scanIndex_length (cs : List Char) : (scanIndex cs).2.length ≤ cs.length := by
  induction cs with
  | nil => simp [scanIndex]
  | cons c cs ih =>
      simp only [scanIndex]
      split
      · simp
      · simpa using Nat.le_succ_of_le ih

/-- Decimal digits to a number (`none` on a non-digit or an empty list). -/
def charsToNat? (cs : List Char) : Option ℕ :=
  if cs.isEmpty then none
  else cs.foldl (fun acc c => acc.bind (fun n =>
    if c.isDigit then some (n * 10 + (c.toNat - 48)) else none)) (some 0)

/-- `usize::from_str` (an optional leading `+`, then decimal digits). -/
def parseUsize (s : String) : Option ℕ :=
  match s.data with
  | '+' :: rest => charsToNat? rest
  | _ => charsToNat? s.data

/-- The path-walking loop of `resolve_reference`. -/
def walkPath : Json → List Char → Option Json
  | current, [] => some current
  | current, '.' :: rest =>
      let key := (scanSegment rest).1
      if key.isEmpty then none
      else
        match current with
        | .obj fields =>
            match SMap.find? fields (String.mk key) with
            | some v => walkPath v (scanSegment rest).2
            | none => none
        | _ => none
  | current, '[' :: rest =>
      let idxChars := (scanIndex rest).1
      match h : (scanIndex rest).2 with
      | ']' :: rest₂ =>
          (match parseUsize (String.mk idxChars) with
           | some i =>
               match current with
               | .arr items =>
                   match items.get? i with
                   | some v => walkPath v rest₂
                   | none => none
               | _ => none
           | none => none)
      | _ => none
  | _, _ :: _ => none
termination_by _ cs => cs.length
decreasing_by
  · have := scanSegment_length rest
    simp only [List.length_cons]
    omega
  · have h1 := scanIndex_length rest
    rw [h] at h1
    simp only [List.length_cons] at h1 ⊢
    omega

/-- `ExecutionContext::resolve_reference`. -/
def resolveReference (c : ExecutionContext) (reference : String) : Option Json :=
  if reference = "" then none
  else
    let (root, rest) := scanSegment reference.data
    if root.isEmpty then none
    else
      match SMap.find? c.vars (String.mk root) with
      | none => none
      | some v => walkPath v rest

mutual

/-- `ExecutionContext::resolve_value`. -/
def resolveValue (c : ExecutionContext) : Json → Json
  | .str s =>
      if strStartsWith s "$" then (resolveReference c (strDropChars s 1)).getD (.str s)
      else .str s
  | .arr items => .arr (resolveItems c items)
  | .obj fields => .obj (resolveObjFields c fields)
  | v => v

/-- Element-wise resolution of an array. -/
def resolveItems (c : ExecutionContext) : List Json → List Json
  | [] => []
  | x :: xs => resolveValue c x :: resolveItems c xs

/-- Member-wise resolution of an object. -/
def resolveObjFields (c : ExecutionContext) : List (String × Json) → List (String × Json)
  | [] => []
  | (k, v) :: kvs => (k, resolveValue c v) :: resolveObjFields c kvs

end

/-- `ExecutionContext::resolve_map` (the serde map it builds is key-sorted
in Rust; entry order is irrelevant to every verified property). -/
def resolveMap (c : ExecutionContext) (m : SMap Json) : List (String × Json) :=
  m.map (fun kv => (kv.1, resolveValue c kv.2))

/-- `ExecutionContext::resolve_args`. -/
def resolveArgs (c : ExecutionContext) (args : Option (SMap Json)) : Option Json :=
  args.map (fun m => .obj (resolveMap c m))

/-! ### Budget bookkeeping -/

/-- `ExecutionContext::check_budget_overrun`. -/
def checkBudgetOverrun (F : ExtFuns) (c : ExecutionContext) : Except ExecutionError Unit :=
  match c.signals with
  | none => .ok ()
  | some sg =>
      let latCheck : Except ExecutionError Unit :=
        match sg.latency_budget_ms with
        | some lb =>
            if (lb : ℚ) < c.total_latency_ms then
              .error (.BudgetExceeded ("Latency budget exceeded: " ++ F.fmt2 c.total_latency_ms
                ++ "ms > " ++ toString lb ++ "ms"))
            else .ok ()
        | none => .ok ()
      match latCheck with
      | .error e => .error e
      | .ok () =>
          match sg.cost_cap_usd with
          | some cap =>
              if cap < c.total_cost_usd then
                .error (.BudgetExceeded ("Cost budget exceeded: $" ++ F.fmt4 c.total_cost_usd
                  ++ " > $" ++ F.fmt4 cap))
              else .ok ()
          | none => .ok ()

/-- The `data` payload of a `budget_summary` trace. -/
def budgetSummaryData (c : ExecutionContext) : Json :=
  .obj [("total_latency_ms", .num c.total_latency_ms),
        ("latency_budget_ms",
          match c.signals.bind (·.latency_budget_ms) with
          | some lb => .num lb
          | none => .null),
        ("total_cost_usd", .num c.total_cost_usd),
        ("cost_cap_usd",
          match c.signals.bind (·.cost_cap_usd) with
          | some cap => .num cap
          | none => .null),
        ("total_tokens", .num c.total_tokens)]

/-- The trace pushed by `push_budget_summary_trace`. -/
def mkBudgetSummaryTrace (c : ExecutionContext) : Trace :=
  { Trace.new "budget_summary" "plan" "Plan budget summary" with
    cost_usd := some c.total_cost_usd
    tokens_out := some c.total_tokens
    data := some (budgetSummaryData c) }

/-- `ExecutionContext::push_budget_summary_trace`. -/
def pushBudgetSummaryTrace (c : ExecutionContext) : ExecutionContext :=
  { c with trace_events := c.trace_events ++ [mkBudgetSummaryTrace c] }

/-- The `(consumed_latency, consumed_cost, consumed_tokens)` triple of
`record_tool_usage` (its spec/constraints `if let` chain). -/
def consumedTriple (spec : Option ToolSpec) (actual_latency_ms : ℚ)
    (tokens_used : Option ℕ) : ℚ × ℚ × ℕ :=
  let base := (actual_latency_ms, (0 : ℚ), tokens_used.getD 0)
  match spec with
  | none => base
  | some sp =>
      match sp.constraints with
      | none => base
      | some cons =>
          let cl :=
            match cons.latency_p50_ms with
            | some l => max actual_latency_ms (l : ℚ)
            | none => actual_latency_ms
          let cc :=
            match cons.cost_per_call_usd with
            | some cost => (0 : ℚ) + cost
            | none => 0
          let ct0 := tokens_used.getD 0
          let ct :=
            if ct0 = 0 then
              match cons.input_tokens_max with
              | some t => max ct0 t
              | none => ct0
            else ct0
          (cl, cc, ct)

/-- `ExecutionContext::record_tool_usage`. -/
def recordToolUsage (F : ExtFuns) (tool_name : String) (spec : Option ToolSpec)
    (actual_latency_ms : ℚ) (tokens_used : Option ℕ) (s : ExecState) :
    Except ExecutionError UsageRecord × ExecState :=
  let consumed := consumedTriple spec actual_latency_ms tokens_used
  let c := s.ctx
  let c :=
    { c with
      total_latency_ms := c.total_latency_ms + consumed.1
      total_cost_usd := c.total_cost_usd + consumed.2.1
      total_tokens := satAdd c.total_tokens consumed.2.2 }
  match checkBudgetOverrun F c with
  | .error e => (.error e, { s with ctx := pushBudgetSummaryTrace c })
  | .ok () =>
      (.ok { tool_name := tool_name, latency_ms := consumed.1,
             cost_usd := consumed.2.1, tokens := consumed.2.2 },
       { s with ctx := c })

/-! ### Capability routing and tool resolution -/

/-- `register_tool_spec`'s capability-index entry update. -/
def capIndexAddTool (idx : SMap (List String)) (cap tool : String) : SMap (List String) :=
  let entry := (idx.find? cap).getD []
  if entry.contains tool then idx else idx.insert cap (entry ++ [tool])

/-- Add one spec's capabilities to the index. -/
def addSpecCapabilities (idx : SMap (List String)) (tool : String) (spec : ToolSpec) :
    SMap (List String) :=
  match spec.capabilities with
  | none => idx
  | some caps => caps.foldl (fun acc cap => capIndexAddTool acc cap tool) idx

/-- `ExecutionContext::rebuild_capability_index`. -/
def rebuildCapabilityIndex (specs : SMap ToolSpec) : SMap (List String) :=
  specs.foldl (fun acc kv => addSpecCapabilities acc kv.1 kv.2) []

/-- `ExecutionContext::register_tool_spec`. -/
def registerToolSpec (c : ExecutionContext) (tool_name : String) (spec : ToolSpec) :
    ExecutionContext :=
  let specs := c.tool_specs.insert tool_name spec
  { c with tool_specs := specs, capability_index := rebuildCapabilityIndex specs }

/-- `CapabilityRouteDecision`. -/
structure CapabilityRouteDecision where
  tool_name : String
  rationale : Json

/-- The `(cost, latency)` read off a spec's constraints (0 when absent). -/
def toolCostLatency (spec : ToolSpec) : ℚ × ℚ :=
  match spec.constraints with
  | some cons =>
      ((cons.cost_per_call_usd).getD 0, (cons.latency_p50_ms.map (fun v => (v : ℚ))).getD 0)
  | none => (0, 0)

/-- Strict lexicographic order on `(cost, latency, tool_name)` — the
derived tuple `<` of Rust. -/
def lexLtKey (a b : ℚ × ℚ × String) : Bool :=
  if a.1 < b.1 then true
  else if b.1 < a.1 then false
  else if a.2.1 < b.2.1 then true
  else if b.2.1 < a.2.1 then false
  else a.2.2 < b.2.2

/-- The candidate loop of `select_tool_for_capability`: threads the
current best `(cost, latency, name)` and the rationale entries. -/
def rankCandidates (c : ExecutionContext) (remaining_cost remaining_latency : Option ℚ) :
    List String → Option (ℚ × ℚ × String) → List Json →
    Option (ℚ × ℚ × String) × List Json
  | [], ranked, dat => (ranked, dat)
  | tool :: rest, ranked, dat =>
      if ¬ c.tool_urls.containsKey tool then
        rankCandidates c remaining_cost remaining_latency rest ranked dat
      else
        match c.tool_specs.find? tool with
        | none => rankCandidates c remaining_cost remaining_latency rest ranked dat
        | some spec =>
            let cl := toolCostLatency spec
            let cost_headroom :=
              match remaining_cost with
              | some r => decide (cl.1 ≤ r)
              | none => true
            let latency_headroom :=
              match remaining_latency with
              | some r => decide (cl.2 ≤ r)
              | none => true
            let dat := dat ++ [Json.obj
              [("tool", .str tool),
               ("cost_per_call_usd", .num cl.1),
               ("latency_p50_ms", .num cl.2),
               ("budget_cost_headroom", .bool cost_headroom),
               ("budget_latency_headroom", .bool latency_headroom)]]
            let score : ℚ × ℚ × String := (cl.1, cl.2, tool)
            let ranked :=
              match ranked with
              | some cur => if lexLtKey score cur then some score else some cur
              | none => some score
            rankCandidates c remaining_cost remaining_latency rest ranked dat

/-- `ExecutionContext::select_tool_for_capability`. -/
def selectToolForCapability (c : ExecutionContext) (capability : String) :
    Option CapabilityRouteDecision :=
  match c.capability_index.find? capability with
  | none => none
  | some candidates =>
      if candidates.isEmpty then none
      else
        let remaining_cost :=
          (c.signals.bind (·.cost_cap_usd)).map (fun cap => max (cap - c.total_cost_usd) 0)
        let remaining_latency :=
          (c.signals.bind (·.latency_budget_ms)).map
            (fun b => max ((b : ℚ) - c.total_latency_ms) 0)
        match rankCandidates c remaining_cost remaining_latency candidates none [] with
        | (none, _) => none
        | (some best, dat) =>
            some { tool_name := best.2.2
                   rationale := Json.obj
                     [("capability", .str capability),
                      ("selected_tool", .str best.2.2),
                      ("candidates", .arr dat)] }

/-- `ToolResolution`. -/
structure ToolResolution where
  tool_name : String
  tool_url : String
  spec : Option ToolSpec
  capability : Option String

/-- `ExecutionContext::resolve_tool` (pushes a `capability_route` trace
when routing through a capability). -/
def resolveTool (node : Node) (s : ExecState) :
    Except ExecutionError ToolResolution × ExecState :=
  match node.tool with
  | some tool_name =>
      (match s.ctx.tool_urls.find? tool_name with
       | none =>
           (.error (.ValidationError ("Tool " ++ tool_name ++ " not found in tool URLs")), s)
       | some url =>
           (.ok { tool_name := tool_name, tool_url := url,
                  spec := s.ctx.tool_specs.find? tool_name, capability := none }, s))
  | none =>
      match node.capability with
      | none =>
          (.error (.ValidationError ("Node " ++ node.id ++ " requires a tool or capability")), s)
      | some capability =>
          match selectToolForCapability s.ctx capability with
          | none =>
              (.error (.ValidationError ("No tool available for capability " ++ capability)), s)
          | some decision =>
              match s.ctx.tool_urls.find? decision.tool_name with
              | none =>
                  (.error (.ValidationError
                    ("Tool " ++ decision.tool_name ++ " not found in tool URLs")), s)
              | some url =>
                  let trace :=
                    { Trace.new "capability_route" node.id
                        ("Capability " ++ capability ++ " routed to tool " ++ decision.tool_name)
                      with data := some decision.rationale }
                  (.ok { tool_name := decision.tool_name, tool_url := url,
                         spec := s.ctx.tool_specs.find? decision.tool_name,
                         capability := some capability },
                   pushTrace trace s)

/-! ### Tool policy enforcement -/

/-- Does `pattern` (lowercased, non-empty) occur in the serialised args? -/
def patternHits (serialised pattern : String) : Bool :=
  ¬ strToLower pattern = "" ∧ strContainsSub serialised (strToLower pattern)

/-- The message of a policy block. -/
def policyBlockMessage (tool_name pattern : String) : String :=
  "Tool " ++ tool_name ++ " invocation blocked by policy pattern " ++ squote ++ pattern ++ squote

/-- The `policy_violation` trace pushed on a block. -/
def policyViolationTrace (tool_name pattern : String) (args : Option Json) : Trace :=
  { Trace.new "policy_violation" tool_name (policyBlockMessage tool_name pattern) with
    data := some (Json.obj
      [("description", .str (policyBlockMessage tool_name pattern)),
       ("pattern", .str pattern),
       ("args", args.getD .null)]) }

/-- `ExecutionContext::enforce_tool_policy`. -/
def enforceToolPolicy (F : ExtFuns) (tool_name : String) (args : Option Json) (s : ExecState) :
    Except ExecutionError Unit × ExecState :=
  match s.ctx.tool_specs.find? tool_name with
  | none => (.ok (), s)
  | some spec =>
      match spec.policy with
      | none => (.ok (), s)
      | some pol =>
          match pol.deny_if with
          | none => (.ok (), s)
          | some deny_patterns =>
              if deny_patterns.isEmpty then (.ok (), s)
              else
                let args_serialised :=
                  match args with
                  | some v => strToLower (v.render F)
                  | none => "null"
                match deny_patterns.find? (patternHits args_serialised) with
                | some pattern =>
                    (.error (.ToolExecutionError (policyBlockMessage tool_name pattern)),
                     pushTrace (policyViolationTrace tool_name pattern args) s)
                | none => (.ok (), s)

/-! ### Memory store operations (`MemoryStore::{read, write}`) -/

/-- `MemoryStore::read`: one POST to the memory service; the HTTP and
payload-parsing layers are collapsed into the environment outcome. -/
def memStoreRead (s : ExecState) :
    (Except MemoryError (Option MemoryEntry) × ℚ) × ExecState :=
  let (r, s) := popMemRead s
  match r.1 with
  | .error msg => ((.error (.Communication msg), r.2), s)
  | .ok entry => ((.ok entry, r.2), s)

/-- The JSON payload `MemoryStore::write` POSTs. -/
def memWritePayload (key : String) (value : Json) (provenance : List String)
    (confidence : ℚ) (ttl_value : String) (evidence_summary : Option Json) : Json :=
  let base : List (String × Json) :=
    [("operation", .str "write"),
     ("key", .str key),
     ("value", value),
     ("provenance", .arr (provenance.map .str)),
     ("confidence", .num confidence),
     ("ttl", .str ttl_value)]
  match evidence_summary with
  | some summary => .obj (base ++ [("evidence_summary", summary)])
  | none => .obj base

/-- The request-issuing tail of `MemoryStore::write`: the POST happens
only here, after every validation has passed.  The issued payload is
logged; the outcome and the elapsed milliseconds come from the
environment. -/
def memStoreWriteIssue (payload : Json) (s : ExecState) :
    Except MemoryError ℚ × ExecState :=
  let pr := popMemWrite { s with issuedMemWrites := s.issuedMemWrites ++ [payload] }
  match pr.1.1 with
  | .error e => (.error e, pr.2)
  | .ok () => (.ok pr.1.2, pr.2)

/-- `MemoryStore::write`: validations happen before the request is
POSTed; an issued request is logged in `issuedMemWrites`.  Returns the
elapsed milliseconds the scheduler measures around the call. -/
def memStoreWrite (key : String) (value : Json) (provenance : Option (List String))
    (confidence : Option ℚ) (ttl : Option String) (evidence_summary : Option Json)
    (s : ExecState) : Except MemoryError ℚ × ExecState :=
  match provenance with
  | none => (.error .MissingProvenance, s)
  | some prov =>
      if prov.isEmpty then (.error .MissingProvenance, s)
      else
        match confidence with
        | none => (.error (.InsufficientConfidence 0), s)
        | some conf =>
            if conf < (8 : ℚ) / 10 then (.error (.InsufficientConfidence conf), s)
            else
              match validateTtl ttl with
              | .error e => (.error e, s)
              | .ok ttl_value =>
                  memStoreWriteIssue
                    (memWritePayload key value prov conf ttl_value evidence_summary) s

/-! ### Error message rendering (`thiserror` Display impls) -/

/-- `EvidenceValidationError`'s `Display`. -/
def evidenceValidationErrorMessage (F : ExtFuns) : EvidenceValidationError → String
  | .InsufficientConfidence mean req =>
      "Insufficient evidence confidence: " ++ F.fmt2 mean ++ " < required " ++ F.fmt2 req
  | .TooManyContradictions r t =>
      "Too many contradictions: ratio " ++ F.fmt2 r ++ " > threshold " ++ F.fmt2 t
  | .MissingSupport claim_id => "Claim " ++ claim_id ++ " is missing supporting evidence"

/-- `MemoryError`'s `Display`. -/
def memoryErrorMessage (F : ExtFuns) : MemoryError → String
  | .Communication m => "Communication error: " ++ m
  | .StorageError m => "Storage error: " ++ m
  | .InsufficientConfidence c => "Insufficient confidence: " ++ F.fmtFloat c
  | .EvidenceValidation m => "Evidence validation error: " ++ m
  | .MissingProvenance => "Memory writes require provenance"
  | .InvalidTtl t => "Invalid TTL: " ++ t

/-! ### Node handlers -/

/-- Store a result under each key of the node's `out` map. -/
def storeOut (out : Option (SMap String)) (v : Json) (s : ExecState) : ExecState :=
  match out with
  | none => s
  | some m =>
      { s with ctx :=
          { s.ctx with vars := m.foldl (fun acc kv => SMap.insert acc kv.1 v) s.ctx.vars } }

/-- Store a result under each `out` key with a suffix appended
(the `{var}_summary` bindings of `execute_verify`). -/
def storeOutSuffixed (out : Option (SMap String)) (suffix : String) (v : Json)
    (s : ExecState) : ExecState :=
  match out with
  | none => s
  | some m =>
      let newVars := m.foldl (fun acc kv => SMap.insert acc (kv.1 ++ suffix) v) s.ctx.vars
      { s with ctx := { s.ctx with vars := newVars } }

/-- The `data` payload of a `step_end` trace. -/
def stepEndData (usage : UsageRecord) (capability : Option String)
    (c : ExecutionContext) : Json :=
  .obj [("tool", .str usage.tool_name),
        ("capability", match capability with | some cap => .str cap | none => .null),
        ("latency_ms", .num usage.latency_ms),
        ("total_latency_ms", .num c.total_latency_ms),
        ("total_cost_usd", .num c.total_cost_usd),
        ("total_tokens", .num c.total_tokens)]

/-- The confidence-rejection message of `execute_mem_write`. -/
def memWriteRejectMessage (F : ExtFuns) (conf : ℚ) : String :=
  "Memory write rejected: confidence " ++ F.fmtFloat conf ++ " < 0.8 threshold"

/-- `Scheduler::execute_call`. -/
def executeCall (F : ExtFuns) (node : Node) (s : ExecState) :
    Except ExecutionError Unit × ExecState :=
  match resolveTool node s with
  | (.error e, s) => (.error e, s)
  | (.ok res, s) =>
      let args := resolveArgs s.ctx node.args
      match enforceToolPolicy F res.tool_name args s with
      | (.error e, s) => (.error e, s)
      | (.ok _, s) =>
          let s := pushTrace (Trace.new "step_start" node.id
            ("Calling tool: " ++ res.tool_name)) s
          let (outcome, s) := popInvoke s
          match outcome.1 with
          | .timeout =>
              (.error (.TimeoutError ("Tool call " ++ res.tool_name ++ " timed out")), s)
          | .failure msg => (.error (.ToolExecutionError msg), s)
          | .success result =>
              match recordToolUsage F res.tool_name res.spec outcome.2 none s with
              | (.error e, s) => (.error e, s)
              | (.ok usage, s) =>
                  let s := storeOut node.out result s
                  let s := pushTrace
                    ({ Trace.new "step_end" node.id
                         ("Tool " ++ usage.tool_name ++ " call completed") with
                       cost_usd := some usage.cost_usd
                       tokens_out := some usage.tokens
                       data := some (stepEndData usage res.capability s.ctx) }) s
                  (.ok (), s)

/-- The per-item argument map of `execute_map` (`node.args` plus `item`
and `index`). -/
def mapIterArgs (node : Node) (item : Json) (index : ℕ) : SMap Json :=
  SMap.insert (SMap.insert (node.args.getD []) "item" item) "index" (.num index)

/-- The item loop of `execute_map`. -/
def execMapItems (F : ExtFuns) (node : Node) (res : ToolResolution) :
    List Json → ℕ → List Json → ExecState →
    Except ExecutionError (List Json) × ExecState
  | [], _, acc, s => (.ok acc, s)
  | item :: rest, index, acc, s =>
      let resolved := resolveArgs s.ctx (some (mapIterArgs node item index))
      match enforceToolPolicy F res.tool_name resolved s with
      | (.error e, s) => (.error e, s)
      | (.ok _, s) =>
          let (outcome, s) := popInvoke s
          match outcome.1 with
          | .timeout =>
              (.error (.TimeoutError ("Map operation item " ++ toString index
                ++ " timed out")), s)
          | .failure msg => (.error (.ToolExecutionError msg), s)
          | .success result =>
              match recordToolUsage F res.tool_name res.spec outcome.2 none s with
              | (.error e, s) => (.error e, s)
              | (.ok _, s) => execMapItems F node res rest (index + 1) (acc ++ [result]) s

/-- `Scheduler::execute_map`. -/
def executeMap (F : ExtFuns) (node : Node) (s : ExecState) :
    Except ExecutionError Unit × ExecState :=
  match resolveTool node s with
  | (.error e, s) => (.error e, s)
  | (.ok res, s) =>
      match (node.args.bind (·.find? "collection")).map (resolveValue s.ctx) with
      | none =>
          (.error (.ValidationError ("Map operation requires a " ++ squote ++ "collection"
            ++ squote ++ " argument")), s)
      | some collection =>
          match collection with
          | .arr items =>
              (match execMapItems F node res items 0 [] s with
               | (.error e, s) => (.error e, s)
               | (.ok results, s) => (.ok (), storeOut node.out (.arr results) s))
          | _ => (.error (.ValidationError "Map operation requires an array input"), s)

/-- `Scheduler::execute_reduce`. -/
def executeReduce (F : ExtFuns) (node : Node) (s : ExecState) :
    Except ExecutionError Unit × ExecState :=
  match (node.args.bind (·.find? "collection")).map (resolveValue s.ctx) with
  | none =>
      (.error (.ValidationError ("Reduce operation requires a " ++ squote ++ "collection"
        ++ squote ++ " argument")), s)
  | some collection =>
      match collection with
      | .arr items =>
          let result := items.foldl (fun acc item => acc ++ Json.render F item ++ "\n") ""
          (.ok (), storeOut node.out (.str result) s)
      | _ => (.error (.ValidationError "Reduce operation requires an array input"), s)

/-- `Scheduler::execute_branch`. -/
def executeBranch (_node : Node) (s : ExecState) :
    Except ExecutionError Unit × ExecState :=
  (.ok (), s)

/-- The optional-evidence block of `execute_assert` (parse, verify,
validate against 0.8, and push the `evidence_summary` trace). -/
def assertEvidenceStep (F : ExtFuns) (node : Node) (s : ExecState) :
    Except ExecutionError Unit × ExecState :=
  match node.args.bind (·.find? "evidence") with
  | none => (.ok (), s)
  | some evidence_value =>
      match resolveValue s.ctx evidence_value with
      | .str evidence_str =>
          (match F.parseEvidenceStr evidence_str with
           | .error e =>
               (.error (.ValidationError ("Invalid evidence format: " ++ e)), s)
           | .ok evidence =>
               let summary := verifyEvidence evidence
               match validateEvidenceForStorage evidence ((8 : ℚ) / 10) with
               | .error e =>
                   (.error (.ValidationError (evidenceValidationErrorMessage F e)), s)
               | .ok () =>
                   (.ok (), pushTrace
                     ({ Trace.new "evidence_summary" node.id
                          ("Assertion evidence summary for " ++ node.id) with
                        data := some (F.encodeSummary summary) }) s))
      | _ => (.ok (), s)

/-- `Scheduler::execute_assert`. -/
def executeAssert (F : ExtFuns) (node : Node) (s : ExecState) :
    Except ExecutionError Unit × ExecState :=
  match (node.args.bind (·.find? "condition")).bind Json.asStr with
  | none =>
      (.error (.ValidationError ("Assert operation requires a " ++ squote ++ "condition"
        ++ squote ++ " argument")), s)
  | some condition =>
      match assertEvidenceStep F node s with
      | (.error e, s) => (.error e, s)
      | (.ok _, s) =>
          if condition = "true" then (.ok (), s)
          else (.error (.ValidationError ("Assertion failed: " ++ condition)), s)

/-- `Scheduler::execute_spawn`. -/
def executeSpawn (_node : Node) (s : ExecState) :
    Except ExecutionError Unit × ExecState :=
  (.ok (), s)

/-- `Scheduler::execute_mem_read`. -/
def executeMemRead (F : ExtFuns) (node : Node) (s : ExecState) :
    Except ExecutionError Unit × ExecState :=
  match (node.args.bind (·.find? "key")).map (resolveValue s.ctx) with
  | none =>
      (.error (.ValidationError ("Memory read operation requires a " ++ squote ++ "key"
        ++ squote ++ " argument")), s)
  | some key_value =>
      match key_value.asStr with
      | none => (.error (.ValidationError "Memory read key must resolve to a string"), s)
      | some _key =>
          match resolveTool node s with
          | (.error e, s) => (.error e, s)
          | (.ok res, s) =>
              let (r, s) := memStoreRead s
              match r.1 with
              | .error e =>
                  (.error (.ToolExecutionError
                    ("Memory read failed: " ++ memoryErrorMessage F e)), s)
              | .ok entry? =>
                  match recordToolUsage F res.tool_name res.spec r.2 none s with
                  | (.error e, s) => (.error e, s)
                  | (.ok _, s) =>
                      match entry? with
                      | some entry => (.ok (), storeOut node.out entry.value s)
                      | none => (.ok (), storeOut node.out .null s)

/-- The straight-line tail of `execute_mem_write` after the evidence /
confidence branch: provenance and confidence gates, the store write,
usage recording and the optional evidence trace. -/
def memWriteTail (F : ExtFuns) (node : Node) (res : ToolResolution) (key : String)
    (value : Json) (provenance : Option (List String)) (confidence : Option ℚ)
    (ttl : Option String) (evidence_summary_json : Option Json) (s : ExecState) :
    Except ExecutionError Unit × ExecState :=
  match provenance with
  | none =>
      (.error (.ValidationError "Memory write operation requires non-empty provenance"), s)
  | some prov =>
      if prov.isEmpty then
        (.error (.ValidationError "Memory write operation requires non-empty provenance"), s)
      else
        match confidence with
        | none =>
            (.error (.ValidationError "Memory write operation requires confidence >= 0.8"), s)
        | some conf =>
            if conf < (8 : ℚ) / 10 then
              (.error (.ValidationError (memWriteRejectMessage F conf)), s)
            else
              match memStoreWrite key value (some prov) (some conf) ttl
                  evidence_summary_json s with
              | (.error e, s) =>
                  (.error (.ToolExecutionError
                    ("Memory write failed: " ++ memoryErrorMessage F e)), s)
              | (.ok elapsed, s) =>
                  match recordToolUsage F res.tool_name res.spec elapsed none s with
                  | (.error e, s) => (.error e, s)
                  | (.ok _, s) =>
                      match evidence_summary_json with
                      | some json =>
                          (.ok (), pushTrace
                            ({ Trace.new "evidence_summary" node.id
                                 ("Memory write evidence summary for " ++ key) with
                               data := some json }) s)
                      | none => (.ok (), s)

/-- `Scheduler::execute_mem_write`. -/
def executeMemWrite (F : ExtFuns) (node : Node) (s : ExecState) :
    Except ExecutionError Unit × ExecState :=
  match (node.args.bind (·.find? "key")).map (resolveValue s.ctx) with
  | none =>
      (.error (.ValidationError ("Memory write operation requires a " ++ squote ++ "key"
        ++ squote ++ " argument")), s)
  | some key_value =>
      match key_value.asStr with
      | none => (.error (.ValidationError "Memory write key must resolve to a string"), s)
      | some key =>
          match (node.args.bind (·.find? "value")).map (resolveValue s.ctx) with
          | none =>
              (.error (.ValidationError ("Memory write operation requires a " ++ squote
                ++ "value" ++ squote ++ " argument")), s)
          | some value =>
              let provenance : Option (List String) :=
                ((node.args.bind (·.find? "provenance")).map (resolveValue s.ctx)).bind
                  (fun v => (v.asArray).map (fun arr => arr.filterMap Json.asStr))
              let confidence0 : Option ℚ :=
                ((node.args.bind (·.find? "confidence")).map (resolveValue s.ctx)).bind
                  Json.asF64
              let ttl : Option String :=
                ((node.args.bind (·.find? "ttl")).map (resolveValue s.ctx)).bind Json.asStr
              match resolveTool node s with
              | (.error e, s) => (.error e, s)
              | (.ok res, s) =>
                  let resolved_args := resolveArgs s.ctx node.args
                  match enforceToolPolicy F res.tool_name resolved_args s with
                  | (.error e, s) => (.error e, s)
                  | (.ok _, s) =>
                      match node.args.bind (·.find? "evidence") with
                      | some evidence_value =>
                          (match resolveValue s.ctx evidence_value with
                           | .str evidence_str =>
                               (match F.parseEvidenceStr evidence_str with
                                | .error e =>
                                    (.error (.ValidationError
                                      ("Invalid evidence format: " ++ e)), s)
                                | .ok evidence =>
                                    let summary := verifyEvidence evidence
                                    let summary_json := some (F.encodeSummary summary)
                                    match validateEvidenceForStorage evidence
                                        ((8 : ℚ) / 10) with
                                    | .error e =>
                                        (.error (.ValidationError
                                          ("Evidence validation failed: "
                                            ++ evidenceValidationErrorMessage F e)), s)
                                    | .ok () =>
                                        let confidence :=
                                          if 0 < summary.mean_confidence then
                                            some summary.mean_confidence
                                          else confidence0
                                        memWriteTail F node res key value provenance
                                          confidence ttl summary_json s)
                           | _ =>
                               memWriteTail F node res key value provenance confidence0
                                 ttl none s)
                      | none =>
                          match confidence0 with
                          | some conf =>
                              if conf < (8 : ℚ) / 10 then
                                (.error (.ValidationError (memWriteRejectMessage F conf)), s)
                              else
                                memWriteTail F node res key value provenance confidence0
                                  ttl none s
                          | none =>
                              memWriteTail F node res key value provenance confidence0
                                ttl none s

/-- `Scheduler::execute_verify`. -/
def executeVerify (F : ExtFuns) (node : Node) (s : ExecState) :
    Except ExecutionError Unit × ExecState :=
  match (node.args.bind (·.find? "claims")).map (resolveValue s.ctx) with
  | none =>
      (.error (.ValidationError ("Verify operation requires a " ++ squote ++ "claims"
        ++ squote ++ " argument")), s)
  | some claims_value =>
      match claims_value.asArray with
      | none => (.error (.ValidationError "Verify claims must resolve to an array"), s)
      | some claims_arr =>
          let claims := claims_arr.filterMap Json.asStr
          match (node.args.bind (·.find? "sources")).map (resolveValue s.ctx) with
          | none =>
              (.error (.ValidationError ("Verify operation requires a " ++ squote
                ++ "sources" ++ squote ++ " argument")), s)
          | some sources_value =>
              match sources_value.asArray with
              | none =>
                  (.error (.ValidationError "Verify sources must resolve to an array"), s)
              | some sources =>
                  match resolveTool node s with
                  | (.error e, s) => (.error e, s)
                  | (.ok res, s) =>
                      let verify_args := Json.obj
                        [("claims", .arr (claims.map .str)), ("sources", .arr sources)]
                      match enforceToolPolicy F res.tool_name (some verify_args) s with
                      | (.error e, s) => (.error e, s)
                      | (.ok _, s) =>
                          let s := pushTrace
                            (Trace.new "step_start" node.id "Verification step start") s
                          let (outcome, s) := popInvoke s
                          match outcome.1 with
                          | .timeout =>
                              (.error (.TimeoutError "Verification tool call timed out"), s)
                          | .failure msg =>
                              (.error (.ToolExecutionError ("Verification failed: " ++ msg)),
                               s)
                          | .success result =>
                              match recordToolUsage F res.tool_name res.spec outcome.2
                                  none s with
                              | (.error e, s) => (.error e, s)
                              | (.ok usage, s) =>
                                  let s :=
                                    match F.parseEvidenceJson result with
                                    | some parsed =>
                                        let summary := verifyEvidence parsed
                                        let json := F.encodeSummary summary
                                        let s := storeOutSuffixed node.out "_summary" json s
                                        pushTrace
                                          ({ Trace.new "evidence_summary" node.id
                                               ("Verification summary for " ++ node.id) with
                                             data := some json }) s
                                    | none => s
                                  let s := storeOut node.out result s
                                  let s := pushTrace
                                    ({ Trace.new "step_end" node.id
                                         "Verification step complete" with
                                       cost_usd := some usage.cost_usd
                                       tokens_out := some usage.tokens
                                       data := some (stepEndData usage res.capability s.ctx) })
                                    s
                                  (.ok (), s)

/-- The attempt loop of `execute_retry` (up to three attempts; the
argument counts attempts still available). -/
def retryLoop (F : ExtFuns) (node : Node) (tool_name : String) (spec : Option ToolSpec) :
    ℕ → ExecState → Except ExecutionError Unit × ExecState
  | 0, s => (.ok (), s)
  | attemptsLeft + 1, s =>
      let (outcome, s) := popInvoke s
      match outcome.1 with
      | .success result =>
          (match recordToolUsage F tool_name spec outcome.2 none s with
           | (.error e, s) => (.error e, s)
           | (.ok _, s) => (.ok (), storeOut node.out result s))
      | .failure msg =>
          (match recordToolUsage F tool_name spec outcome.2 none s with
           | (.error e, s) => (.error e, s)
           | (.ok _, s) =>
               if attemptsLeft = 0 then (.error (.ToolExecutionError msg), s)
               else retryLoop F node tool_name spec attemptsLeft s)
      | .timeout =>
          match recordToolUsage F tool_name spec outcome.2 none s with
          | (.error e, s) => (.error e, s)
          | (.ok _, s) =>
              if attemptsLeft = 0 then
                (.error (.TimeoutError
                  ("Tool call " ++ tool_name ++ " timed out after 3 attempts")), s)
              else retryLoop F node tool_name spec attemptsLeft s

/-- `Scheduler::execute_retry`. -/
def executeRetry (F : ExtFuns) (node : Node) (s : ExecState) :
    Except ExecutionError Unit × ExecState :=
  match resolveTool node s with
  | (.error e, s) => (.error e, s)
  | (.ok res, s) =>
      let args := resolveArgs s.ctx node.args
      match enforceToolPolicy F res.tool_name args s with
      | (.error e, s) => (.error e, s)
      | (.ok _, s) => retryLoop F node res.tool_name res.spec 3 s

/-- `Scheduler::execute_node` (operation dispatch). -/
def executeNode (F : ExtFuns) (node : Node) (s : ExecState) :
    Except ExecutionError Unit × ExecState :=
  match node.op with
  | .Call => executeCall F node s
  | .Map => executeMap F node s
  | .Reduce => executeReduce F node s
  | .Branch => executeBranch node s
  | .Assert => executeAssert F node s
  | .Spawn => executeSpawn node s
  | .MemRead => executeMemRead F node s
  | .MemWrite => executeMemWrite F node s
  | .Verify => executeVerify F node s
  | .Retry => executeRetry F node s

/-! ### Plan-level scheduling (`Scheduler::execute_plan`) -/

/-- `{:?}` rendering of an `Operation` (derived `Debug`). -/
def opDebugString : Operation → String
  | .Call => "Call"
  | .Map => "Map"
  | .Reduce => "Reduce"
  | .Branch => "Branch"
  | .Assert => "Assert"
  | .Spawn => "Spawn"
  | .MemRead => "MemRead"
  | .MemWrite => "MemWrite"
  | .Verify => "Verify"
  | .Retry => "Retry"

/-- `Option<String>` as a JSON value. -/
def optStrJson : Option String → Json
  | some s => .str s
  | none => .null

/-- `Scheduler::estimate_node_cost`. -/
def estimateNodeCost (c : ExecutionContext) (node : Node) : ℚ × ℚ × Option String :=
  if ¬ operationRequiresTool node.op then (0, 0, none)
  else
    let fromTool : Option ((ℚ × ℚ) × String) :=
      match node.tool with
      | some tool_name =>
          (c.tool_specs.find? tool_name).map (fun spec => (toolCostLatency spec, tool_name))
      | none => none
    match fromTool with
    | some (cl, tname) => (cl.1, cl.2, some tname)
    | none =>
        match node.capability with
        | some capability =>
            (match selectToolForCapability c capability with
             | some decision =>
                 (match c.tool_specs.find? decision.tool_name with
                  | some spec =>
                      let cl := toolCostLatency spec
                      (cl.1, cl.2, some decision.tool_name)
                  | none => (f64Max, f64Max, none))
             | none => (f64Max, f64Max, none))
        | none => (f64Max, f64Max, none)

/-- `NodePriority`. -/
structure NodePriority where
  node : Node
  estimated_cost : ℚ
  estimated_latency : ℚ
  selected_tool : Option String
  original_index : ℕ

/-- The comparator of `optimized_node_order` (`cmp_f64` twice, then the
original index; rationals have no NaN so `partial_cmp` is total). -/
def npLe (a b : NodePriority) : Bool :=
  if a.estimated_cost < b.estimated_cost then true
  else if b.estimated_cost < a.estimated_cost then false
  else if a.estimated_latency < b.estimated_latency then true
  else if b.estimated_latency < a.estimated_latency then false
  else a.original_index ≤ b.original_index

/-- Ordered insertion for the stable sort. -/
def insertSorted (e : NodePriority) : List NodePriority → List NodePriority
  | [] => [e]
  | x :: xs => if npLe e x then e :: x :: xs else x :: insertSorted e xs

/-- Stable sort by `npLe` (the comparator is total and, thanks to the
distinct original indices, antisymmetric — so this computes the same
order as Rust's stable `sort_by`). -/
def sortPriorities (l : List NodePriority) : List NodePriority :=
  l.foldr insertSorted []

/-- The `plan_optimizer` trace payload. -/
def optimizerData (sorted : List NodePriority) : Json :=
  .obj [("ordered_nodes", .arr (sorted.map (fun p => Json.obj
    [("node", .str p.node.id),
     ("op", .str (opDebugString p.node.op)),
     ("capability", optStrJson p.node.capability),
     ("selected_tool", optStrJson p.selected_tool),
     ("estimated_cost_usd", .num p.estimated_cost),
     ("estimated_latency_ms", .num p.estimated_latency),
     ("original_index", .num p.original_index)])))]

/-- `Scheduler::optimized_node_order`. -/
def optimizedNodeOrder (plan : Plan) (s : ExecState) : List Node × ExecState :=
  let priorities := plan.nodes.enum.map (fun p =>
    let est := estimateNodeCost s.ctx p.2
    { node := p.2, estimated_cost := est.1, estimated_latency := est.2.1,
      selected_tool := est.2.2, original_index := p.1 : NodePriority })
  let sorted := sortPriorities priorities
  let s := pushTrace
    ({ Trace.new "plan_optimizer" "plan" "Plan optimizer determined execution order" with
       data := some (optimizerData sorted) }) s
  (sorted.map (·.node), s)

/-- Dependency check of the round loop: every edge into the node comes
from a completed node. -/
def canExecuteNode (c : ExecutionContext) (edges : Option (List Edge)) (node : Node) :
    Bool :=
  match edges with
  | some es =>
      (es.filter (fun e => e.dst = node.id)).all (fun e => c.completed_nodes.contains e.src)
  | none => true

/-- One pass over `remaining_nodes`: `(executable_nodes, remaining_next)`. -/
def partitionRound (c : ExecutionContext) (edges : Option (List Edge)) :
    List Node → List Node × List Node
  | [] => ([], [])
  | node :: rest =>
      let pr := partitionRound c edges rest
      if c.completed_nodes.contains node.id then pr
      else if c.running_nodes.contains node.id then (pr.1, node :: pr.2)
      else if canExecuteNode c edges node then (node :: pr.1, pr.2)
      else (pr.1, node :: pr.2)

/-- The per-round execution of all executable nodes; returns the updated
`processed_count`.  Each node is marked running before its handler and
moved to `completed_nodes` right after it, error or not. -/
def execNodesRound (F : ExtFuns) : List Node → ℕ → ExecState →
    Except ExecutionError ℕ × ExecState
  | [], processed, s => (.ok processed, s)
  | node :: rest, processed, s =>
      let s := { s with
        ctx := { s.ctx with running_nodes := SSet.insert s.ctx.running_nodes node.id }
        invokedNodes := s.invokedNodes ++ [node.id] }
      let r := executeNode F node s
      let s := { r.2 with
        ctx := { r.2.ctx with
          running_nodes := SSet.remove r.2.ctx.running_nodes node.id
          completed_nodes := SSet.insert r.2.ctx.completed_nodes node.id } }
      match r.1 with
      | .ok _ => execNodesRound F rest (processed + 1) s
      | .error e => (.error e, s)

/-- The `while` loop of `execute_plan`, with fuel.  Each productive round
strictly shrinks `remaining`, so with initial fuel `remaining.length + 1`
the fuel-exhaustion base case is unreachable. -/
def roundsLoop (F : ExtFuns) (plan : Plan) :
    ℕ → List Node → ℕ → ExecState → Except ExecutionError Unit × ExecState
  | 0, _, _, s => (.ok (), s)
  | fuel + 1, remaining, processed, s =>
      if remaining.isEmpty ∨ 100 ≤ processed then (.ok (), s)
      else
        let pr := partitionRound s.ctx plan.edges remaining
        if pr.1.isEmpty then
          (.error (.ValidationError
            "No executable nodes found - possible circular dependency"), s)
        else
          match execNodesRound F pr.1 processed s with
          | (.error e, s) => (.error e, s)
          | (.ok processedNext, s) =>
              match checkBudgetOverrun F s.ctx with
              | .error e => (.error e, s)
              | .ok () => roundsLoop F plan fuel pr.2 processedNext s

/-- The ToolSpec hydration pass over `tool_urls` entries. -/
def hydrateSpecs : List (String × String) → ExecState → ExecState
  | [], s => s
  | (tool_name, _url) :: rest, s =>
      if (s.ctx.tool_specs.find? tool_name).isSome then hydrateSpecs rest s
      else
        let (r, s) := popSpec s
        match r with
        | some spec => hydrateSpecs rest { s with ctx := registerToolSpec s.ctx tool_name spec }
        | none => hydrateSpecs rest s

/-- `Scheduler::execute_plan`.  Returns the result together with the
final state (the Rust function drops the context on error; the model
keeps it so that properties of the aborted context can be stated). -/
def executePlan (F : ExtFuns) (ctx : ExecutionContext) (plan : Plan) (env : Env) :
    Except ExecutionError Unit × ExecState :=
  let s : ExecState := { ctx := ctx, env := env, issuedMemWrites := [], invokedNodes := [] }
  let validation :=
    if SMap.isEmpty ctx.tool_urls then plan.validate
    else plan.validateWithTools (SMap.keysOf ctx.tool_urls)
  match validation with
  | .error e => (.error (.ValidationError e.toMessage), s)
  | .ok () =>
      let s :=
        if s.ctx.signals.isNone then
          { s with ctx := { s.ctx with signals := plan.signals } }
        else s
      let s := hydrateSpecs s.ctx.tool_urls s
      let ns := optimizedNodeOrder plan s
      match roundsLoop F plan (ns.1.length + 1) ns.1 0 ns.2 with
      | (.error e, s) => (.error e, s)
      | (.ok _, s) => (.ok (), { s with ctx := pushBudgetSummaryTrace s.ctx })

/-! ### `internal/policy/policy.rs` -/

/-- `PolicyContext`. -/
structure PolicyContext where
  evidence : Option Evidence
  tool_specs : List ToolSpec
  traces : List Trace
  vars : SMap Json  -- `variables` in the source

/-- `PolicySeverity`. -/
inductive PolicySeverity where
  | Warning | Error | Info
deriving DecidableEq

/-- `PolicyViolation`. -/
structure PolicyViolation where
  rule : String
  severity : PolicySeverity
  message : String
  details : Option Json

/-- `EnforcementAction`. -/
structure EnforcementAction where
  action : String
  target : String
  details : Option Json

/-- `PolicyResult`. -/
structure PolicyResult where
  violations : List PolicyViolation
  enforcement_actions : List EnforcementAction
  allowed : Bool

/-- `PolicyError`. -/
inductive PolicyError where
  | InsufficientEvidenceConfidence (mean_confidence required : ℚ)
  | Violation (msg : String)

/-- `MIN_EVIDENCE_CONFIDENCE`. -/
def minEvidenceConfidence : ℚ := (8 : ℚ) / 10

/-- `PolicyEngine::evaluate_summary_value`. -/
def evaluateSummaryValue (F : ExtFuns) (origin : String) (value : Json)
    (violations : List PolicyViolation) (actions : List EnforcementAction) :
    List PolicyViolation × List EnforcementAction × Bool :=
  match F.decodeSummary value with
  | .ok summary =>
      let c1 := summary.total_claims = 0
      let c2 := summary.mean_confidence < minEvidenceConfidence
      let c3 := summary.supported_claims = 0
      let v := if c1 then violations ++
        [{ rule := "evidence_missing_claims", severity := .Error,
           message := origin ++ " provided an evidence summary with no claims",
           details := some value }] else violations
      let v := if c2 then v ++
        [{ rule := "evidence_confidence", severity := .Error,
           message := origin ++ " mean confidence " ++ F.fmt2 summary.mean_confidence
             ++ " below " ++ F.fmt2 minEvidenceConfidence,
           details := some value }] else v
      let v := if c3 then v ++
        [{ rule := "evidence_missing_support", severity := .Error,
           message := origin ++ " verification summary has no supported claims",
           details := some value }] else v
      let valid := ¬ c1 ∧ ¬ c2 ∧ ¬ c3
      let a := if valid then actions ++
        [{ action := "evidence_summary_valid", target := origin, details := some value }]
        else actions
      (v, a, decide valid)
  | .error err =>
      (violations ++
        [{ rule := "invalid_evidence_summary", severity := .Error,
           message := origin ++ " evidence summary failed to parse: " ++ err,
           details := some value }], actions, false)

/-- The `latency_budget` violation a `budget_summary` trace can raise. -/
def latencyBudgetViolation (F : ExtFuns) (tl lb : ℚ) : PolicyViolation :=
  { rule := "latency_budget", severity := .Error,
    message := "Latency budget exceeded: " ++ F.fmt2 tl ++ "ms > " ++ F.fmt2 lb ++ "ms",
    details := some (.obj [("total_latency_ms", .num tl), ("latency_budget_ms", .num lb)]) }

/-- The `cost_cap` violation a `budget_summary` trace can raise. -/
def costCapViolation (F : ExtFuns) (tc cap : ℚ) : PolicyViolation :=
  { rule := "cost_cap", severity := .Error,
    message := "Cost budget exceeded: $" ++ F.fmt4 tc ++ " > $" ++ F.fmt4 cap,
    details := some (.obj [("total_cost_usd", .num tc), ("cost_cap_usd", .num cap)]) }

/-- The scan state threaded through the trace loop of `enforce_policies`:
violations, actions, `budget_summary_seen`, `evidence_summary_count`. -/
def PolicyScanState : Type :=
  List PolicyViolation × List EnforcementAction × Bool × ℕ

/-- One iteration of the trace loop of `enforce_policies`. -/
def scanTrace (F : ExtFuns) (st : PolicyScanState) (t : Trace) : PolicyScanState :=
  let viols := st.1
  let acts := st.2.1
  let seen := st.2.2.1
  let cnt := st.2.2.2
  if t.event_type = "policy_violation" then
    let message := (((t.data.bind (fun d => d.get "description")).bind Json.asStr)).getD
      "Tool policy violation detected"
    (viols ++ [{ rule := "tool_policy", severity := .Error, message := message,
                 details := t.data }], acts, seen, cnt)
  else if t.event_type = "budget_summary" then
    let viols₁ :=
      match t.data with
      | some data =>
          let v :=
            match (data.get "total_latency_ms").bind Json.asF64,
                (data.get "latency_budget_ms").bind Json.asF64 with
            | some tl, some lb =>
                if 0 < lb ∧ lb < tl then viols ++ [latencyBudgetViolation F tl lb] else viols
            | _, _ => viols
          match (data.get "total_cost_usd").bind Json.asF64,
              (data.get "cost_cap_usd").bind Json.asF64 with
          | some tc, some cap =>
              if 0 < cap ∧ cap < tc then v ++ [costCapViolation F tc cap] else v
          | _, _ => v
      | none => viols
    (viols₁, acts, true, cnt)
  else if t.event_type = "evidence_summary" then
    match t.data with
    | some data =>
        let r := evaluateSummaryValue F "trace:evidence_summary" data viols acts
        (r.1, r.2.1, seen, cnt + 1)
    | none =>
        (viols ++ [{ rule := "invalid_evidence_summary", severity := .Error,
                     message := "Evidence summary trace missing payload", details := none }],
         acts, seen, cnt + 1)
  else
    match t.cost_usd with
    | some cost =>
        if 1 < cost then
          (viols ++ [{ rule := "cost_limit", severity := .Warning,
                       message := "Trace cost $" ++ F.fmt4 cost ++ " exceeded threshold",
                       details := some (.obj [("cost", .num cost)]) }], acts, seen, cnt)
        else (viols, acts, seen, cnt)
    | none => (viols, acts, seen, cnt)

/-- The variable-bindings loop of `enforce_policies`. -/
def scanVariable (F : ExtFuns) (st : List PolicyViolation × List EnforcementAction × ℕ)
    (kv : String × Json) : List PolicyViolation × List EnforcementAction × ℕ :=
  if strEndsWith kv.1 "_summary" ∨ strContainsSub kv.1 "summary" then
    let r := evaluateSummaryValue F ("variable:" ++ kv.1) kv.2 st.1 st.2.1
    (r.1, r.2.1, st.2.2 + 1)
  else st

/-- The initial violation list of `enforce_policies` (its low-confidence
evidence warning). -/
def policyBaseViolations (F : ExtFuns) (ctx : PolicyContext) : List PolicyViolation :=
  match ctx.evidence with
  | some e =>
      let verification := verifyEvidence e
      if verification.mean_confidence < (7 : ℚ) / 10 then
        [{ rule := "minimum_confidence", severity := .Warning,
           message := "Mean evidence confidence " ++ F.fmt2 verification.mean_confidence
             ++ " is below threshold",
           details := none }]
      else []
  | none => []

/-- The initial enforcement actions of `enforce_policies` (per registered
tool spec). -/
def policyBaseActions (ctx : PolicyContext) : List EnforcementAction :=
  ctx.tool_specs.foldl (fun acc spec =>
    let acc :=
      match spec.policy with
      | some pol =>
          (match pol.deny_if with
           | some pats => acc ++ pats.map (fun pattern =>
               { action := "check_pattern", target := spec.name,
                 details := some (.obj [("pattern", .str pattern)]) })
           | none => acc)
      | none => acc
    match spec.provenance with
    | some prov =>
        if prov.attribution_required = some true then
          acc ++ [{ action := "verify_attribution", target := spec.name,
                    details := some (.obj [("attribution_required", .bool true)]) }]
        else acc
    | none => acc) []

/-- `PolicyEngine::enforce_policies`. -/
def enforcePolicies (F : ExtFuns) (ctx : PolicyContext) : Except PolicyError PolicyResult :=
  let violations := policyBaseViolations F ctx
  let actions := policyBaseActions ctx
  let scanned := ctx.traces.foldl (scanTrace F) (violations, actions, false, 0)
  let viols := scanned.1
  let acts := scanned.2.1
  let seen := scanned.2.2.1
  let cnt := scanned.2.2.2
  let acts :=
    if ¬ seen then
      acts ++ [{ action := "emit_budget_summary", target := "plan",
                 details := some (.obj [("note", .str "Missing budget summary trace")]) }]
    else acts
  let varScan := ctx.vars.foldl (scanVariable F) (viols, acts, cnt)
  let viols := varScan.1
  let acts := varScan.2.1
  let cnt := varScan.2.2
  let viols :=
    if ctx.evidence.isSome ∧ cnt = 0 then
      viols ++ [{ rule := "missing_evidence_summary", severity := .Error,
                  message := "Evidence supplied but no verification summary found",
                  details := none }]
    else viols
  .ok { violations := viols, enforcement_actions := acts, allowed := viols.isEmpty }

/-! ### State-evolution relations

Node handlers never touch the `running_nodes` / `completed_nodes` sets,
the signals, or the invocation log, and only ever append to the trace
log and the issued-write log (`ctxDataEq`).  All of them except
`record_tool_usage` also leave the three budget counters unchanged
(`PureStep`). -/

/-- Handler-invariant portion of the state. -/
def ctxDataEq (s s' : ExecState) : Prop :=
  s'.ctx.running_nodes = s.ctx.running_nodes ∧
  s'.ctx.completed_nodes = s.ctx.completed_nodes ∧
  s'.ctx.signals = s.ctx.signals ∧
  s'.invokedNodes = s.invokedNodes ∧
  (∃ l, s'.ctx.trace_events = s.ctx.trace_events ++ l) ∧
  (∃ l, s'.issuedMemWrites = s.issuedMemWrites ++ l)

/-- Budget counters unchanged. -/
def totalsEq (s s' : ExecState) : Prop :=
  s'.ctx.total_latency_ms = s.ctx.total_latency_ms ∧
  s'.ctx.total_cost_usd = s.ctx.total_cost_usd ∧
  s'.ctx.total_tokens = s.ctx.total_tokens

/-- A step that neither consumes budget nor touches the scheduler sets. -/
def PureStep (s s' : ExecState) : Prop := ctxDataEq s s' ∧ totalsEq s s'

theorem ctxDataEq_refl (s : ExecState) : ctxDataEq s s :=
  ⟨rfl, rfl, rfl, rfl, ⟨[], by simp⟩, ⟨[], by simp⟩⟩

theorem ctxDataEq_trans {s₁ s₂ s₃ : ExecState}
    (h₁ : ctxDataEq s₁ s₂) (h₂ : ctxDataEq s₂ s₃) : ctxDataEq s₁ s₃ := by
  obtain ⟨a₁, b₁, c₁, d₁, ⟨l₁, e₁⟩, ⟨m₁, f₁⟩⟩ := h₁
  obtain ⟨a₂, b₂, c₂, d₂, ⟨l₂, e₂⟩, ⟨m₂, f₂⟩⟩ := h₂
  exact ⟨a₂.trans a₁, b₂.trans b₁, c₂.trans c₁, d₂.trans d₁,
    ⟨l₁ ++ l₂, by rw [e₂, e₁, List.append_assoc]⟩,
    ⟨m₁ ++ m₂, by rw [f₂, f₁, List.append_assoc]⟩⟩

theorem PureStep.refl (s : ExecState) : PureStep s s :=
  ⟨ctxDataEq_refl s, rfl, rfl, rfl⟩

theorem PureStep.trans {s₁ s₂ s₃ : ExecState}
    (h₁ : PureStep s₁ s₂) (h₂ : PureStep s₂ s₃) : PureStep s₁ s₃ :=
  ⟨ctxDataEq_trans h₁.1 h₂.1,
   h₂.2.1.trans h₁.2.1, h₂.2.2.1.trans h₁.2.2.1, h₂.2.2.2.trans h₁.2.2.2⟩

/-- The budget check only reads signals and the latency/cost counters. -/
theorem checkBudget_congr_ctx (F : ExtFuns) {c c' : ExecutionContext}
    (h₁ : c'.signals = c.signals)
    (h₂ : c'.total_latency_ms = c.total_latency_ms)
    (h₃ : c'.total_cost_usd = c.total_cost_usd) :
    checkBudgetOverrun F c' = checkBudgetOverrun F c := by
  simp only [checkBudgetOverrun, h₁, h₂, h₃]

theorem checkBudget_congr (F : ExtFuns) {s s' : ExecState}
    (h₁ : s'.ctx.signals = s.ctx.signals)
    (h₂ : s'.ctx.total_latency_ms = s.ctx.total_latency_ms)
    (h₃ : s'.ctx.total_cost_usd = s.ctx.total_cost_usd) :
    checkBudgetOverrun F s'.ctx = checkBudgetOverrun F s.ctx :=
  checkBudget_congr_ctx F h₁ h₂ h₃

theorem checkBudget_of_pure (F : ExtFuns) {s s' : ExecState} (h : PureStep s s') :
    checkBudgetOverrun F s'.ctx = checkBudgetOverrun F s.ctx :=
  checkBudget_congr F h.1.2.2.1 h.2.1 h.2.2.1

/-- The last trace event is the budget summary of the current counters. -/
def lastIsBudgetSummary (c : ExecutionContext) : Prop :=
  ∃ pre, c.trace_events = pre ++ [mkBudgetSummaryTrace c]

/-- `lastIsBudgetSummary` only looks at traces, counters and signals. -/
theorem lastBS_congr {c c' : ExecutionContext}
    (ht : c'.trace_events = c.trace_events)
    (h₁ : c'.total_latency_ms = c.total_latency_ms)
    (h₂ : c'.total_cost_usd = c.total_cost_usd)
    (h₃ : c'.total_tokens = c.total_tokens)
    (h₄ : c'.signals = c.signals) :
    lastIsBudgetSummary c → lastIsBudgetSummary c' := by
  rintro ⟨pre, hpre⟩
  refine ⟨pre, ?_⟩
  have : mkBudgetSummaryTrace c' = mkBudgetSummaryTrace c := by
    simp only [mkBudgetSummaryTrace, budgetSummaryData, h₁, h₂, h₃, h₄]
  rw [ht, this, hpre]

/-! ### Per-primitive step lemmas -/

/-- Build a `PureStep` from plain (definitional) equalities. -/
theorem pureStep_of (s s' : ExecState)
    (h₁ : s'.ctx.running_nodes = s.ctx.running_nodes)
    (h₂ : s'.ctx.completed_nodes = s.ctx.completed_nodes)
    (h₃ : s'.ctx.signals = s.ctx.signals)
    (h₄ : s'.invokedNodes = s.invokedNodes)
    (h₅ : ∃ l, s'.ctx.trace_events = s.ctx.trace_events ++ l)
    (h₆ : s'.issuedMemWrites = s.issuedMemWrites)
    (h₇ : s'.ctx.total_latency_ms = s.ctx.total_latency_ms)
    (h₈ : s'.ctx.total_cost_usd = s.ctx.total_cost_usd)
    (h₉ : s'.ctx.total_tokens = s.ctx.total_tokens) : PureStep s s' :=
  ⟨⟨h₁, h₂, h₃, h₄, h₅, ⟨[], by rw [h₆, List.append_nil]⟩⟩, h₇, h₈, h₉⟩

theorem pushTrace_pure (t : Trace) (s : ExecState) : PureStep s (pushTrace t s) :=
  pureStep_of s _ rfl rfl rfl rfl ⟨[t], rfl⟩ rfl rfl rfl rfl

theorem popInvoke_pure (s : ExecState) : PureStep s (popInvoke s).2 := by
  unfold popInvoke
  cases s.env.invokeResults <;>
    exact pureStep_of s _ rfl rfl rfl rfl ⟨[], (List.append_nil _).symm⟩ rfl rfl rfl rfl

theorem popSpec_pure (s : ExecState) : PureStep s (popSpec s).2 := by
  unfold popSpec
  cases s.env.specResults <;>
    exact pureStep_of s _ rfl rfl rfl rfl ⟨[], (List.append_nil _).symm⟩ rfl rfl rfl rfl

theorem popMemRead_pure (s : ExecState) : PureStep s (popMemRead s).2 := by
  unfold popMemRead
  cases s.env.memReadResults <;>
    exact pureStep_of s _ rfl rfl rfl rfl ⟨[], (List.append_nil _).symm⟩ rfl rfl rfl rfl

theorem popMemWrite_pure (s : ExecState) : PureStep s (popMemWrite s).2 := by
  unfold popMemWrite
  cases s.env.memWriteResults <;>
    exact pureStep_of s _ rfl rfl rfl rfl ⟨[], (List.append_nil _).symm⟩ rfl rfl rfl rfl

theorem storeOut_pure (out : Option (SMap String)) (v : Json) (s : ExecState) :
    PureStep s (storeOut out v s) := by
  unfold storeOut
  cases out <;>
    exact pureStep_of s _ rfl rfl rfl rfl ⟨[], (List.append_nil _).symm⟩ rfl rfl rfl rfl

theorem storeOutSuffixed_pure (out : Option (SMap String)) (suffix : String) (v : Json)
    (s : ExecState) : PureStep s (storeOutSuffixed out suffix v s) := by
  unfold storeOutSuffixed
  cases out <;>
    exact pureStep_of s _ rfl rfl rfl rfl ⟨[], (List.append_nil _).symm⟩ rfl rfl rfl rfl

theorem memStoreRead_pure (s : ExecState) : PureStep s (memStoreRead s).2 := by
  have h2 := popMemRead_pure s
  unfold memStoreRead
  rcases he : popMemRead s with ⟨⟨r1, el⟩, s₁⟩
  rw [he] at h2
  cases r1 <;> exact h2

theorem memStoreWriteIssue_pure (payload : Json) (s : ExecState) :
    PureStep s (memStoreWriteIssue payload s).2 := by
  have base : PureStep s { s with issuedMemWrites := s.issuedMemWrites ++ [payload] } :=
    ⟨⟨rfl, rfl, rfl, rfl, ⟨[], (List.append_nil _).symm⟩, ⟨[payload], rfl⟩⟩, rfl, rfl, rfl⟩
  have h2 := popMemWrite_pure { s with issuedMemWrites := s.issuedMemWrites ++ [payload] }
  unfold memStoreWriteIssue
  rcases he : popMemWrite { s with issuedMemWrites := s.issuedMemWrites ++ [payload] }
    with ⟨⟨r1, el⟩, s₁⟩
  rw [he] at h2
  cases r1 <;> exact base.trans h2

theorem memStoreWrite_pure (key : String) (value : Json) (provenance : Option (List String))
    (confidence : Option ℚ) (ttl : Option String) (evidence_summary : Option Json)
    (s : ExecState) :
    PureStep s (memStoreWrite key value provenance confidence ttl evidence_summary s).2 := by
  unfold memStoreWrite
  repeat' split
  all_goals first
    | exact PureStep.refl s
    | exact memStoreWriteIssue_pure _ s

theorem resolveTool_pure (node : Node) (s : ExecState) :
    PureStep s (resolveTool node s).2 := by
  unfold resolveTool
  repeat' split
  all_goals first
    | exact PureStep.refl s
    | exact pushTrace_pure _ s

theorem resolveTool_no_budget (node : Node) (s : ExecState) (m : String) :
    (resolveTool node s).1 ≠ .error (.BudgetExceeded m) := by
  unfold resolveTool
  repeat' split
  all_goals simp

theorem enforceToolPolicy_pure (F : ExtFuns) (tool_name : String) (args : Option Json)
    (s : ExecState) : PureStep s (enforceToolPolicy F tool_name args s).2 := by
  unfold enforceToolPolicy
  repeat' split
  all_goals try exact PureStep.refl s
  all_goals try dsimp only
  all_goals try split
  all_goals first
    | exact PureStep.refl s
    | exact pushTrace_pure _ s

theorem enforceToolPolicy_no_budget (F : ExtFuns) (tool_name : String) (args : Option Json)
    (s : ExecState) (m : String) :
    (enforceToolPolicy F tool_name args s).1 ≠ .error (.BudgetExceeded m) := by
  unfold enforceToolPolicy
  repeat' split
  all_goals try simp
  all_goals try dsimp only
  all_goals try split
  all_goals simp

/-- `record_tool_usage` keeps the handler-invariant data. -/
theorem recordToolUsage_frame (F : ExtFuns) (tool_name : String) (spec : Option ToolSpec)
    (actual : ℚ) (tokens_used : Option ℕ) (s : ExecState) :
    ctxDataEq s (recordToolUsage F tool_name spec actual tokens_used s).2 := by
  unfold recordToolUsage
  dsimp only
  split
  · exact ⟨rfl, rfl, rfl, rfl, ⟨[_], rfl⟩, ⟨[], (List.append_nil _).symm⟩⟩
  · exact ⟨rfl, rfl, rfl, rfl, ⟨[], (List.append_nil _).symm⟩, ⟨[], (List.append_nil _).symm⟩⟩

/-- On success, the budget check holds on the updated counters. -/
theorem recordToolUsage_ok_budget (F : ExtFuns) (tool_name : String)
    (spec : Option ToolSpec) (actual : ℚ) (tokens_used : Option ℕ) (s : ExecState)
    (u : UsageRecord)
    (h : (recordToolUsage F tool_name spec actual tokens_used s).1 = .ok u) :
    checkBudgetOverrun F (recordToolUsage F tool_name spec actual tokens_used s).2.ctx
      = .ok () := by
  unfold recordToolUsage at h ⊢
  dsimp only at h ⊢
  split at h
  · simp at h
  · rename_i heq
    simp only [heq]

/-- Every error produced by the budget check is a `BudgetExceeded`. -/
theorem checkBudgetOverrun_err (F : ExtFuns) (c : ExecutionContext) (e : ExecutionError)
    (h : checkBudgetOverrun F c = .error e) : ∃ m, e = .BudgetExceeded m := by
  unfold checkBudgetOverrun at h
  repeat' split at h
  all_goals try exact ⟨_, (((Except.error.injEq _ _).mp h).symm)⟩
  all_goals simp_all

/-- Pushing the budget summary leaves the counters and signals alone, so
its own snapshot is indeed the last trace event. -/
theorem pushBudgetSummary_last (c : ExecutionContext) :
    lastIsBudgetSummary (pushBudgetSummaryTrace c) := by
  refine ⟨c.trace_events, ?_⟩
  have h : mkBudgetSummaryTrace (pushBudgetSummaryTrace c) = mkBudgetSummaryTrace c := by
    simp only [mkBudgetSummaryTrace, budgetSummaryData, pushBudgetSummaryTrace]
  rw [h]
  rfl

/-- On failure, the error is a budget overrun and the summary trace was
pushed last. -/
theorem recordToolUsage_err (F : ExtFuns) (tool_name : String) (spec : Option ToolSpec)
    (actual : ℚ) (tokens_used : Option ℕ) (s : ExecState) (e : ExecutionError)
    (h : (recordToolUsage F tool_name spec actual tokens_used s).1 = .error e) :
    (∃ m, e = .BudgetExceeded m) ∧
    lastIsBudgetSummary (recordToolUsage F tool_name spec actual tokens_used s).2.ctx := by
  unfold recordToolUsage at h ⊢
  dsimp only at h ⊢
  split at h
  · rename_i e' heq
    simp only [heq]
    obtain rfl : e' = e := by simpa using h
    exact ⟨checkBudgetOverrun_err F _ e' heq, pushBudgetSummary_last _⟩
  · simp at h

/-! ### The per-handler step relation

`StepRel F s r` packages the three facts each node handler guarantees:
the preserved state data, the preservation of the passing budget check
on success, and that every surfaced `BudgetExceeded` error was preceded
by a `budget_summary` trace (which is the last trace pushed). -/

def StepRel (F : ExtFuns) (s : ExecState) {α : Type}
    (r : Except ExecutionError α × ExecState) : Prop :=
  ctxDataEq s r.2 ∧
  (∀ a, r.1 = .ok a → checkBudgetOverrun F s.ctx = .ok () →
    checkBudgetOverrun F r.2.ctx = .ok ()) ∧
  (∀ m, r.1 = .error (.BudgetExceeded m) → lastIsBudgetSummary r.2.ctx)

theorem stepRel_ok (F : ExtFuns) {s s' : ExecState} {α : Type} {a : α}
    (h : PureStep s s') : StepRel F s (.ok a, s') := by
  refine ⟨h.1, ?_, ?_⟩
  · intro _ _ hb
    rw [checkBudget_of_pure F h]
    exact hb
  · intro m hm
    simp at hm

theorem stepRel_err (F : ExtFuns) {s s' : ExecState} {α : Type} {e : ExecutionError}
    (h : PureStep s s') (hne : ∀ m, e ≠ .BudgetExceeded m) :
    StepRel F s ((.error e : Except ExecutionError α), s') := by
  refine ⟨h.1, ?_, ?_⟩
  · intro a ha
    simp at ha
  · intro m hm
    exact absurd (by simpa using hm) (hne m)

theorem stepRel_record_err (F : ExtFuns) {s₀ s s' : ExecState} {tool : String}
    {spec : Option ToolSpec} {actual : ℚ} {toks : Option ℕ} {e : ExecutionError} {α : Type}
    (hpre : PureStep s₀ s)
    (hrec : recordToolUsage F tool spec actual toks s = (.error e, s')) :
    StepRel F s₀ ((.error e : Except ExecutionError α), s') := by
  refine ⟨?_, ?_, ?_⟩
  · refine ctxDataEq_trans hpre.1 ?_
    have h := recordToolUsage_frame F tool spec actual toks s
    rwa [hrec] at h
  · intro a ha
    simp at ha
  · intro m _
    have h := recordToolUsage_err F tool spec actual toks s e (by rw [hrec])
    have h2 := h.2
    rwa [hrec] at h2

theorem stepRel_after_record (F : ExtFuns) {s₀ s s' : ExecState} {tool : String}
    {spec : Option ToolSpec} {actual : ℚ} {toks : Option ℕ} {u : UsageRecord} {α : Type}
    {r : Except ExecutionError α × ExecState}
    (hpre : PureStep s₀ s)
    (hrec : recordToolUsage F tool spec actual toks s = (.ok u, s'))
    (hrest : StepRel F s' r) : StepRel F s₀ r := by
  have hframe : ctxDataEq s s' := by
    have h := recordToolUsage_frame F tool spec actual toks s
    rwa [hrec] at h
  have hbud : checkBudgetOverrun F s'.ctx = .ok () := by
    have h := recordToolUsage_ok_budget F tool spec actual toks s u (by rw [hrec])
    rwa [hrec] at h
  refine ⟨ctxDataEq_trans (ctxDataEq_trans hpre.1 hframe) hrest.1, ?_, hrest.2.2⟩
  intro a ha _
  exact hrest.2.1 a ha hbud

theorem stepRel_record_ok (F : ExtFuns) {s₀ s s' sf : ExecState} {tool : String}
    {spec : Option ToolSpec} {actual : ℚ} {toks : Option ℕ} {u : UsageRecord} {α : Type}
    {a : α}
    (hpre : PureStep s₀ s)
    (hrec : recordToolUsage F tool spec actual toks s = (.ok u, s'))
    (hpost : PureStep s' sf) : StepRel F s₀ (.ok a, sf) :=
  stepRel_after_record F hpre hrec (stepRel_ok F hpost)

theorem stepRel_pure_pre (F : ExtFuns) {s₀ s : ExecState} {α : Type}
    {r : Except ExecutionError α × ExecState}
    (hpre : PureStep s₀ s) (h : StepRel F s r) : StepRel F s₀ r := by
  refine ⟨ctxDataEq_trans hpre.1 h.1, ?_, h.2.2⟩
  intro a ha hb
  refine h.2.1 a ha ?_
  rw [checkBudget_of_pure F hpre]
  exact hb

/-! ### Handler step lemmas -/

theorem executeBranch_step (F : ExtFuns) (node : Node) (s : ExecState) :
    StepRel F s (executeBranch node s) :=
  stepRel_ok F (PureStep.refl s)

theorem executeSpawn_step (F : ExtFuns) (node : Node) (s : ExecState) :
    StepRel F s (executeSpawn node s) :=
  stepRel_ok F (PureStep.refl s)

theorem executeReduce_step (F : ExtFuns) (node : Node) (s : ExecState) :
    StepRel F s (executeReduce F node s) := by
  unfold executeReduce
  repeat' split
  all_goals first
    | exact stepRel_err F (PureStep.refl s) (by simp)
    | exact stepRel_ok F (storeOut_pure _ _ s)

theorem assertEvidenceStep_pure (F : ExtFuns) (node : Node) (s : ExecState) :
    PureStep s (assertEvidenceStep F node s).2 := by
  unfold assertEvidenceStep
  repeat' split
  all_goals first
    | exact PureStep.refl s
    | exact pushTrace_pure _ s

theorem assertEvidenceStep_no_budget (F : ExtFuns) (node : Node) (s : ExecState)
    (m : String) : (assertEvidenceStep F node s).1 ≠ .error (.BudgetExceeded m) := by
  unfold assertEvidenceStep
  repeat' split
  all_goals simp

theorem executeAssert_step (F : ExtFuns) (node : Node) (s : ExecState) :
    StepRel F s (executeAssert F node s) := by
  unfold executeAssert
  cases (node.args.bind (·.find? "condition")).bind Json.asStr with
  | none => exact stepRel_err F (PureStep.refl s) (by simp)
  | some condition =>
      dsimp only
      rcases hev : assertEvidenceStep F node s with ⟨r1, s1⟩
      have p1 : PureStep s s1 := by
        have h := assertEvidenceStep_pure F node s
        rwa [hev] at h
      cases r1 with
      | error e =>
          refine stepRel_err F p1 ?_
          intro m hm
          have h := assertEvidenceStep_no_budget F node s m
          rw [hev] at h
          exact h (by rw [hm])
      | ok u =>
          dsimp only
          split
          · exact stepRel_ok F p1
          · exact stepRel_err F p1 (by simp)

theorem executeCall_step (F : ExtFuns) (node : Node) (s : ExecState) :
    StepRel F s (executeCall F node s) := by
  unfold executeCall
  rcases hr : resolveTool node s with ⟨r1, s1⟩
  have p1 : PureStep s s1 := by
    have h := resolveTool_pure node s
    rwa [hr] at h
  cases r1 with
  | error e =>
      refine stepRel_err F p1 ?_
      intro m hm
      have h := resolveTool_no_budget node s m
      rw [hr] at h
      exact h (by rw [hm])
  | ok res =>
      dsimp only
      rcases hp : enforceToolPolicy F res.tool_name (resolveArgs s1.ctx node.args) s1
        with ⟨r2, s2⟩
      have p2 : PureStep s s2 := by
        refine p1.trans ?_
        have h := enforceToolPolicy_pure F res.tool_name (resolveArgs s1.ctx node.args) s1
        rwa [hp] at h
      cases r2 with
      | error e =>
          refine stepRel_err F p2 ?_
          intro m hm
          have h := enforceToolPolicy_no_budget F res.tool_name
            (resolveArgs s1.ctx node.args) s1 m
          rw [hp] at h
          exact h (by rw [hm])
      | ok u =>
          dsimp only
          rcases hq : popInvoke (pushTrace (Trace.new "step_start" node.id
              ("Calling tool: " ++ res.tool_name)) s2) with ⟨⟨out1, el⟩, s3⟩
          have p3 : PureStep s s3 := by
            have hmid := pushTrace_pure (Trace.new "step_start" node.id
              ("Calling tool: " ++ res.tool_name)) s2
            have h := popInvoke_pure (pushTrace (Trace.new "step_start" node.id
              ("Calling tool: " ++ res.tool_name)) s2)
            rw [hq] at h
            exact p2.trans (hmid.trans h)
          cases out1 with
          | timeout => exact stepRel_err F p3 (by simp)
          | failure msg => exact stepRel_err F p3 (by simp)
          | success result =>
              dsimp only
              rcases hrec : recordToolUsage F res.tool_name res.spec el none s3
                with ⟨r3, s4⟩
              cases r3 with
              | error e => exact stepRel_record_err F p3 hrec
              | ok usage =>
                  exact stepRel_record_ok F p3 hrec
                    ((storeOut_pure node.out result s4).trans (pushTrace_pure _ _))

theorem stepRel_err_cast (F : ExtFuns) {s : ExecState} {α β : Type} {e : ExecutionError}
    {s' : ExecState} (h : StepRel F s ((.error e : Except ExecutionError α), s')) :
    StepRel F s ((.error e : Except ExecutionError β), s') := by
  refine ⟨h.1, ?_, ?_⟩
  · intro a ha
    simp at ha
  · intro m hm
    exact h.2.2 m (by simpa using hm)

theorem stepRel_map_ok (F : ExtFuns) {s s2 sf : ExecState} {α : Type} {res : α}
    (h : StepRel F s ((.ok res : Except ExecutionError α), s2)) (hpost : PureStep s2 sf)
    {β : Type} {b : β} : StepRel F s ((.ok b : Except ExecutionError β), sf) := by
  refine ⟨ctxDataEq_trans h.1 hpost.1, ?_, ?_⟩
  · intro _ _ hb
    rw [checkBudget_of_pure F hpost]
    exact h.2.1 res rfl hb
  · intro m hm
    simp at hm

theorem executeMemRead_step (F : ExtFuns) (node : Node) (s : ExecState) :
    StepRel F s (executeMemRead F node s) := by
  unfold executeMemRead
  cases (node.args.bind (·.find? "key")).map (resolveValue s.ctx) with
  | none => exact stepRel_err F (PureStep.refl s) (by simp)
  | some key_value =>
      dsimp only
      cases key_value.asStr with
      | none => exact stepRel_err F (PureStep.refl s) (by simp)
      | some _key =>
          dsimp only
          rcases hr : resolveTool node s with ⟨r1, s1⟩
          have p1 : PureStep s s1 := by
            have h := resolveTool_pure node s
            rwa [hr] at h
          cases r1 with
          | error e =>
              refine stepRel_err F p1 ?_
              intro m hm
              have h := resolveTool_no_budget node s m
              rw [hr] at h
              exact h (by rw [hm])
          | ok res =>
              dsimp only
              rcases hm : memStoreRead s1 with ⟨⟨r2, el⟩, s2⟩
              have p2 : PureStep s s2 := by
                have h := memStoreRead_pure s1
                rw [hm] at h
                exact p1.trans h
              cases r2 with
              | error e => exact stepRel_err F p2 (by simp)
              | ok entry? =>
                  dsimp only
                  rcases hrec : recordToolUsage F res.tool_name res.spec el none s2
                    with ⟨r3, s3⟩
                  cases r3 with
                  | error e => exact stepRel_record_err F p2 hrec
                  | ok usage =>
                      cases entry? with
                      | some entry =>
                          exact stepRel_record_ok F p2 hrec (storeOut_pure _ _ s3)
                      | none =>
                          exact stepRel_record_ok F p2 hrec (storeOut_pure _ _ s3)

theorem memWriteTail_step (F : ExtFuns) (node : Node) (res : ToolResolution) (key : String)
    (value : Json) (prov : Option (List String)) (conf : Option ℚ) (ttl : Option String)
    (evj : Option Json) (s : ExecState) :
    StepRel F s (memWriteTail F node res key value prov conf ttl evj s) := by
  unfold memWriteTail
  cases prov with
  | none => exact stepRel_err F (PureStep.refl s) (by simp)
  | some pl =>
      dsimp only
      split
      · exact stepRel_err F (PureStep.refl s) (by simp)
      · cases conf with
        | none => exact stepRel_err F (PureStep.refl s) (by simp)
        | some c =>
            dsimp only
            split
            · exact stepRel_err F (PureStep.refl s) (by simp)
            · rcases hw : memStoreWrite key value (some pl) (some c) ttl evj s
                with ⟨r1, s1⟩
              have p1 : PureStep s s1 := by
                have h := memStoreWrite_pure key value (some pl) (some c) ttl evj s
                rwa [hw] at h
              cases r1 with
              | error e => exact stepRel_err F p1 (by simp)
              | ok elapsed =>
                  dsimp only
                  rcases hrec : recordToolUsage F res.tool_name res.spec elapsed none s1
                    with ⟨r2, s2⟩
                  cases r2 with
                  | error e => exact stepRel_record_err F p1 hrec
                  | ok usage =>
                      cases evj with
                      | some json => exact stepRel_record_ok F p1 hrec (pushTrace_pure _ s2)
                      | none => exact stepRel_record_ok F p1 hrec (PureStep.refl s2)

theorem executeMemWrite_step (F : ExtFuns) (node : Node) (s : ExecState) :
    StepRel F s (executeMemWrite F node s) := by
  unfold executeMemWrite
  cases (node.args.bind (·.find? "key")).map (resolveValue s.ctx) with
  | none => exact stepRel_err F (PureStep.refl s) (by simp)
  | some key_value =>
      dsimp only
      cases key_value.asStr with
      | none => exact stepRel_err F (PureStep.refl s) (by simp)
      | some key =>
          dsimp only
          cases (node.args.bind (·.find? "value")).map (resolveValue s.ctx) with
          | none => exact stepRel_err F (PureStep.refl s) (by simp)
          | some value =>
              dsimp only
              rcases hr : resolveTool node s with ⟨r1, s1⟩
              have p1 : PureStep s s1 := by
                have h := resolveTool_pure node s
                rwa [hr] at h
              cases r1 with
              | error e =>
                  refine stepRel_err F p1 ?_
                  intro m hm
                  have h := resolveTool_no_budget node s m
                  rw [hr] at h
                  exact h (by rw [hm])
              | ok res =>
                  dsimp only
                  rcases hp : enforceToolPolicy F res.tool_name
                      (resolveArgs s1.ctx node.args) s1 with ⟨r2, s2⟩
                  have p2 : PureStep s s2 := by
                    refine p1.trans ?_
                    have h := enforceToolPolicy_pure F res.tool_name
                      (resolveArgs s1.ctx node.args) s1
                    rwa [hp] at h
                  cases r2 with
                  | error e =>
                      refine stepRel_err F p2 ?_
                      intro m hm
                      have h := enforceToolPolicy_no_budget F res.tool_name
                        (resolveArgs s1.ctx node.args) s1 m
                      rw [hp] at h
                      exact h (by rw [hm])
                  | ok u =>
                      dsimp only
                      cases node.args.bind (·.find? "evidence") with
                      | some evidence_value =>
                          dsimp only
                          cases resolveValue s2.ctx evidence_value with
                          | str evidence_str =>
                              dsimp only
                              cases F.parseEvidenceStr evidence_str with
                              | error e => exact stepRel_err F p2 (by simp)
                              | ok evidence =>
                                  dsimp only
                                  cases validateEvidenceForStorage evidence ((8 : ℚ) / 10) with
                                  | error e => exact stepRel_err F p2 (by simp)
                                  | ok u2 =>
                                      exact stepRel_pure_pre F p2
                                        (memWriteTail_step F node res key value _ _ _ _ s2)
                          | null =>
                              exact stepRel_pure_pre F p2
                                (memWriteTail_step F node res key value _ _ _ _ s2)
                          | bool b =>
                              exact stepRel_pure_pre F p2
                                (memWriteTail_step F node res key value _ _ _ _ s2)
                          | num q =>
                              exact stepRel_pure_pre F p2
                                (memWriteTail_step F node res key value _ _ _ _ s2)
                          | arr items =>
                              exact stepRel_pure_pre F p2
                                (memWriteTail_step F node res key value _ _ _ _ s2)
                          | obj fields =>
                              exact stepRel_pure_pre F p2
                                (memWriteTail_step F node res key value _ _ _ _ s2)
                      | none =>
                          dsimp only
                          cases ((node.args.bind (·.find? "confidence")).map
                              (resolveValue s.ctx)).bind Json.asF64 with
                          | some conf =>
                              dsimp only
                              split
                              · exact stepRel_err F p2 (by simp)
                              · exact stepRel_pure_pre F p2
                                  (memWriteTail_step F node res key value _ _ _ _ s2)
                          | none =>
                              exact stepRel_pure_pre F p2
                                (memWriteTail_step F node res key value _ _ _ _ s2)

theorem executeVerify_step (F : ExtFuns) (node : Node) (s : ExecState) :
    StepRel F s (executeVerify F node s) := by
  unfold executeVerify
  cases (node.args.bind (·.find? "claims")).map (resolveValue s.ctx) with
  | none => exact stepRel_err F (PureStep.refl s) (by simp)
  | some claims_value =>
      dsimp only
      cases claims_value.asArray with
      | none => exact stepRel_err F (PureStep.refl s) (by simp)
      | some claims_arr =>
          dsimp only
          cases (node.args.bind (·.find? "sources")).map (resolveValue s.ctx) with
          | none => exact stepRel_err F (PureStep.refl s) (by simp)
          | some sources_value =>
              dsimp only
              cases sources_value.asArray with
              | none => exact stepRel_err F (PureStep.refl s) (by simp)
              | some sources =>
                  dsimp only
                  rcases hr : resolveTool node s with ⟨r1, s1⟩
                  have p1 : PureStep s s1 := by
                    have h := resolveTool_pure node s
                    rwa [hr] at h
                  cases r1 with
                  | error e =>
                      refine stepRel_err F p1 ?_
                      intro m hm
                      have h := resolveTool_no_budget node s m
                      rw [hr] at h
                      exact h (by rw [hm])
                  | ok res =>
                      dsimp only
                      rcases hp : enforceToolPolicy F res.tool_name
                          (some (Json.obj
                            [("claims", .arr ((claims_arr.filterMap Json.asStr).map .str)),
                             ("sources", .arr sources)])) s1 with ⟨r2, s2⟩
                      have p2 : PureStep s s2 := by
                        refine p1.trans ?_
                        have h := enforceToolPolicy_pure F res.tool_name
                          (some (Json.obj
                            [("claims", .arr ((claims_arr.filterMap Json.asStr).map .str)),
                             ("sources", .arr sources)])) s1
                        rwa [hp] at h
                      cases r2 with
                      | error e =>
                          refine stepRel_err F p2 ?_
                          intro m hm
                          have h := enforceToolPolicy_no_budget F res.tool_name
                            (some (Json.obj
                              [("claims", .arr ((claims_arr.filterMap Json.asStr).map .str)),
                               ("sources", .arr sources)])) s1 m
                          rw [hp] at h
                          exact h (by rw [hm])
                      | ok u =>
                          dsimp only
                          rcases hq : popInvoke (pushTrace (Trace.new "step_start" node.id
                              "Verification step start") s2) with ⟨⟨out1, el⟩, s3⟩
                          have p3 : PureStep s s3 := by
                            have hmid := pushTrace_pure (Trace.new "step_start" node.id
                              "Verification step start") s2
                            have h := popInvoke_pure (pushTrace (Trace.new "step_start"
                              node.id "Verification step start") s2)
                            rw [hq] at h
                            exact p2.trans (hmid.trans h)
                          cases out1 with
                          | timeout => exact stepRel_err F p3 (by simp)
                          | failure msg => exact stepRel_err F p3 (by simp)
                          | success result =>
                              dsimp only
                              rcases hrec : recordToolUsage F res.tool_name res.spec el
                                  none s3 with ⟨r3, s4⟩
                              cases r3 with
                              | error e => exact stepRel_record_err F p3 hrec
                              | ok usage =>
                                  dsimp only
                                  cases F.parseEvidenceJson result with
                                  | some parsed =>
                                      refine stepRel_record_ok F p3 hrec ?_
                                      exact ((storeOutSuffixed_pure node.out "_summary"
                                        _ s4).trans (pushTrace_pure _ _)).trans
                                        ((storeOut_pure _ _ _).trans (pushTrace_pure _ _))
                                  | none =>
                                      refine stepRel_record_ok F p3 hrec ?_
                                      exact (storeOut_pure _ _ s4).trans (pushTrace_pure _ _)

theorem execMapItems_step (F : ExtFuns) (node : Node) (res : ToolResolution) :
    ∀ (items : List Json) (index : ℕ) (acc : List Json) (s : ExecState),
    StepRel F s (execMapItems F node res items index acc s)
  | [], _, acc, s => stepRel_ok F (PureStep.refl s)
  | item :: rest, index, acc, s => by
      simp only [execMapItems]
      try dsimp only
      rcases hp : enforceToolPolicy F res.tool_name
          (resolveArgs s.ctx (some (mapIterArgs node item index))) s with ⟨r1, s1⟩
      have p1 : PureStep s s1 := by
        have h := enforceToolPolicy_pure F res.tool_name
          (resolveArgs s.ctx (some (mapIterArgs node item index))) s
        rwa [hp] at h
      cases r1 with
      | error e =>
          refine stepRel_err F p1 ?_
          intro m hm
          have h := enforceToolPolicy_no_budget F res.tool_name
            (resolveArgs s.ctx (some (mapIterArgs node item index))) s m
          rw [hp] at h
          exact h (by rw [hm])
      | ok u =>
          dsimp only
          rcases hq : popInvoke s1 with ⟨⟨out1, el⟩, s2⟩
          have p2 : PureStep s s2 := by
            have h := popInvoke_pure s1
            rw [hq] at h
            exact p1.trans h
          cases out1 with
          | timeout => exact stepRel_err F p2 (by simp)
          | failure msg => exact stepRel_err F p2 (by simp)
          | success result =>
              dsimp only
              rcases hrec : recordToolUsage F res.tool_name res.spec el none s2
                with ⟨r2, s3⟩
              cases r2 with
              | error e => exact stepRel_record_err F p2 hrec
              | ok usage =>
                  exact stepRel_after_record F p2 hrec
                    (execMapItems_step F node res rest (index + 1) (acc ++ [result]) s3)

theorem executeMap_step (F : ExtFuns) (node : Node) (s : ExecState) :
    StepRel F s (executeMap F node s) := by
  unfold executeMap
  rcases hr : resolveTool node s with ⟨r1, s1⟩
  have p1 : PureStep s s1 := by
    have h := resolveTool_pure node s
    rwa [hr] at h
  cases r1 with
  | error e =>
      refine stepRel_err F p1 ?_
      intro m hm
      have h := resolveTool_no_budget node s m
      rw [hr] at h
      exact h (by rw [hm])
  | ok res =>
      dsimp only
      cases (node.args.bind (·.find? "collection")).map (resolveValue s1.ctx) with
      | none => exact stepRel_err F p1 (by simp)
      | some collection =>
          dsimp only
          cases collection with
          | arr items =>
              dsimp only
              rcases hmi : execMapItems F node res items 0 [] s1 with ⟨r2, s2⟩
              have hstep := execMapItems_step F node res items 0 [] s1
              rw [hmi] at hstep
              cases r2 with
              | error e =>
                  exact stepRel_pure_pre F p1 (stepRel_err_cast F hstep)
              | ok results =>
                  exact stepRel_pure_pre F p1
                    (stepRel_map_ok F hstep (storeOut_pure _ _ s2))
          | null => exact stepRel_err F p1 (by simp)
          | bool b => exact stepRel_err F p1 (by simp)
          | num q => exact stepRel_err F p1 (by simp)
          | str st => exact stepRel_err F p1 (by simp)
          | obj fields => exact stepRel_err F p1 (by simp)

theorem retryLoop_step (F : ExtFuns) (node : Node) (tool : String)
    (spec : Option ToolSpec) :
    ∀ (fuel : ℕ) (s : ExecState), StepRel F s (retryLoop F node tool spec fuel s) := by
  intro fuel
  induction fuel with
  | zero => intro s; exact stepRel_ok F (PureStep.refl s)
  | succ n ih =>
      intro s
      simp only [retryLoop]
      rcases hq : popInvoke s with ⟨⟨out1, el⟩, s1⟩
      have p1 : PureStep s s1 := by
        have h := popInvoke_pure s
        rw [hq] at h
        exact h
      cases out1 with
      | success result =>
          dsimp only
          rcases hrec : recordToolUsage F tool spec el none s1 with ⟨r2, s2⟩
          cases r2 with
          | error e => exact stepRel_record_err F p1 hrec
          | ok usage => exact stepRel_record_ok F p1 hrec (storeOut_pure _ _ s2)
      | failure msg =>
          dsimp only
          rcases hrec : recordToolUsage F tool spec el none s1 with ⟨r2, s2⟩
          cases r2 with
          | error e => exact stepRel_record_err F p1 hrec
          | ok usage =>
              dsimp only
              split
              · exact stepRel_after_record F p1 hrec
                  (stepRel_err F (PureStep.refl s2) (by simp))
              · exact stepRel_after_record F p1 hrec (ih s2)
      | timeout =>
          dsimp only
          rcases hrec : recordToolUsage F tool spec el none s1 with ⟨r2, s2⟩
          cases r2 with
          | error e => exact stepRel_record_err F p1 hrec
          | ok usage =>
              dsimp only
              split
              · exact stepRel_after_record F p1 hrec
                  (stepRel_err F (PureStep.refl s2) (by simp))
              · exact stepRel_after_record F p1 hrec (ih s2)

theorem executeRetry_step (F : ExtFuns) (node : Node) (s : ExecState) :
    StepRel F s (executeRetry F node s) := by
  unfold executeRetry
  rcases hr : resolveTool node s with ⟨r1, s1⟩
  have p1 : PureStep s s1 := by
    have h := resolveTool_pure node s
    rwa [hr] at h
  cases r1 with
  | error e =>
      refine stepRel_err F p1 ?_
      intro m hm
      have h := resolveTool_no_budget node s m
      rw [hr] at h
      exact h (by rw [hm])
  | ok res =>
      dsimp only
      rcases hp : enforceToolPolicy F res.tool_name (resolveArgs s1.ctx node.args) s1
        with ⟨r2, s2⟩
      have p2 : PureStep s s2 := by
        refine p1.trans ?_
        have h := enforceToolPolicy_pure F res.tool_name (resolveArgs s1.ctx node.args) s1
        rwa [hp] at h
      cases r2 with
      | error e =>
          refine stepRel_err F p2 ?_
          intro m hm
          have h := enforceToolPolicy_no_budget F res.tool_name
            (resolveArgs s1.ctx node.args) s1 m
          rw [hp] at h
          exact h (by rw [hm])
      | ok u => exact stepRel_pure_pre F p2 (retryLoop_step F node res.tool_name res.spec 3 s2)

/-- Every node handler satisfies the step relation. -/
theorem executeNode_step (F : ExtFuns) (node : Node) (s : ExecState) :
    StepRel F s (executeNode F node s) := by
  unfold executeNode
  cases node.op
  · exact executeCall_step F node s
  · exact executeMap_step F node s
  · exact executeReduce_step F node s
  · exact executeBranch_step F node s
  · exact executeAssert_step F node s
  · exact executeSpawn_step F node s
  · exact executeMemRead_step F node s
  · exact executeMemWrite_step F node s
  · exact executeVerify_step F node s
  · exact executeRetry_step F node s

/-! ### Loop-level invariants -/

theorem sset_insert_nil (x : String) : SSet.insert [] x = [x] := rfl

theorem sset_remove_insert_nil (x : String) : SSet.remove (SSet.insert [] x) x = [] := by
  simp [SSet.insert, SSet.remove, List.contains]

theorem sset_mem_insert {l : SSet} {y : String} (x : String) (h : y ∈ l) :
    y ∈ SSet.insert l x := by
  unfold SSet.insert
  split
  · exact h
  · exact List.mem_cons_of_mem x h

theorem sset_self_mem_insert (l : SSet) (x : String) : x ∈ SSet.insert l x := by
  unfold SSet.insert
  split
  · next h => exact List.elem_iff.mp h
  · exact List.mem_cons_self x l

/-- The invariant bundle carried through the executable-node loop and
the round loop.  `r` is the loop's result, `s` its entry state. -/
def RoundRel (F : ExtFuns) (s : ExecState) {α : Type}
    (r : Except ExecutionError α × ExecState) : Prop :=
  r.2.ctx.signals = s.ctx.signals ∧
  (∃ l, r.2.ctx.trace_events = s.ctx.trace_events ++ l) ∧
  (s.ctx.running_nodes = [] → r.2.ctx.running_nodes = []) ∧
  (∀ x, x ∈ s.ctx.completed_nodes → x ∈ r.2.ctx.completed_nodes) ∧
  (∀ id, id ∈ r.2.invokedNodes → id ∈ s.invokedNodes ∨ id ∈ r.2.ctx.completed_nodes) ∧
  (∀ a, r.1 = .ok a → checkBudgetOverrun F s.ctx = .ok () →
    checkBudgetOverrun F r.2.ctx = .ok ()) ∧
  (checkBudgetOverrun F s.ctx = .ok () → ∀ m, r.1 = .error (.BudgetExceeded m) →
    lastIsBudgetSummary r.2.ctx)

theorem execNodesRound_rel (F : ExtFuns) :
    ∀ (nodes : List Node) (processed : ℕ) (s : ExecState),
    RoundRel F s (execNodesRound F nodes processed s)
  | [], processed, s => by
      refine ⟨rfl, ⟨[], (List.append_nil _).symm⟩, fun h => h, fun x hx => hx,
        fun id hid => Or.inl hid, ?_, ?_⟩
      · intro a _ hb
        exact hb
      · intro _ m hm
        simp [execNodesRound] at hm
  | node :: rest, processed, s => by
      simp only [execNodesRound]
      -- s₁: node marked running and logged as invoked
      set s1 : ExecState := { s with
        ctx := { s.ctx with running_nodes := SSet.insert s.ctx.running_nodes node.id }
        invokedNodes := s.invokedNodes ++ [node.id] } with hs1
      have hstep := executeNode_step F node s1
      rcases hx : executeNode F node s1 with ⟨r0, sr⟩
      rw [hx] at hstep
      obtain ⟨⟨hrun, hcomp, hsig, hinv, ⟨ltr, htr⟩, hiss⟩, hokB, herrB⟩ := hstep
      dsimp only at hrun hcomp hsig hinv htr hokB herrB
      -- s₂: node moved from running to completed
      set s2 : ExecState := { sr with
        ctx := { sr.ctx with
          running_nodes := SSet.remove sr.ctx.running_nodes node.id
          completed_nodes := SSet.insert sr.ctx.completed_nodes node.id } } with hs2
      have hsig2 : s2.ctx.signals = s.ctx.signals := hsig
      have htr2 : ∃ l, s2.ctx.trace_events = s.ctx.trace_events ++ l := ⟨ltr, htr⟩
      have hrun2 : s.ctx.running_nodes = [] → s2.ctx.running_nodes = [] := by
        intro h0
        simp only [hs2]
        rw [hrun]
        simp only [hs1, h0]
        exact sset_remove_insert_nil node.id
      have hcomp2 : ∀ x, x ∈ s.ctx.completed_nodes → x ∈ s2.ctx.completed_nodes := by
        intro x hx2
        simp only [hs2]
        refine sset_mem_insert node.id ?_
        rw [hcomp]
        simpa [hs1] using hx2
      have hinv2 : s2.invokedNodes = s.invokedNodes ++ [node.id] := hinv
      have hnodemem : node.id ∈ s2.ctx.completed_nodes := by
        simp only [hs2]
        exact sset_self_mem_insert _ node.id
      have hcheck1 : checkBudgetOverrun F s1.ctx = checkBudgetOverrun F s.ctx :=
        checkBudget_congr F (by simp [hs1]) (by simp [hs1]) (by simp [hs1])
      have hcheck2 : checkBudgetOverrun F s2.ctx = checkBudgetOverrun F sr.ctx :=
        checkBudget_congr F (by simp [hs2]) (by simp [hs2]) (by simp [hs2])
      cases r0 with
      | error e =>
          refine ⟨hsig2, htr2, hrun2, hcomp2, ?_, ?_, ?_⟩
          · intro id hid
            rw [hinv2] at hid
            rcases List.mem_append.mp hid with h | h
            · exact Or.inl h
            · right
              obtain rfl : id = node.id := by simpa using h
              exact hnodemem
          · intro a ha
            simp at ha
          · intro _ m hm
            obtain rfl : e = .BudgetExceeded m := by simpa using hm
            have hbs := herrB m rfl
            refine lastBS_congr ?_ ?_ ?_ ?_ ?_ hbs <;> simp [hs2]
      | ok _ =>
          have ih := execNodesRound_rel F rest (processed + 1) s2
          rcases hrest : execNodesRound F rest (processed + 1) s2 with ⟨r1, s3⟩
          rw [hrest] at ih
          obtain ⟨isig, ⟨ltr3, itr⟩, irun, icomp, iinv, iokB, ierrB⟩ := ih
          have hbud12 : checkBudgetOverrun F s.ctx = .ok () →
              checkBudgetOverrun F s2.ctx = .ok () := by
            intro hb
            rw [hcheck2]
            exact hokB () rfl (by rw [hcheck1]; exact hb)
          obtain ⟨l2, hl2⟩ := htr2
          refine ⟨isig.trans hsig2, ?_, ?_, ?_, ?_, ?_, ?_⟩
          · exact ⟨l2 ++ ltr3, by rw [itr, hl2, List.append_assoc]⟩
          · intro h0
            exact irun (hrun2 h0)
          · intro x hx2
            exact icomp x (hcomp2 x hx2)
          · intro id hid
            rcases iinv id hid with h | h
            · rw [hinv2] at h
              rcases List.mem_append.mp h with h2 | h2
              · exact Or.inl h2
              · right
                obtain rfl : id = node.id := by simpa using h2
                exact icomp _ hnodemem
            · exact Or.inr h
          · intro a ha hb
            exact iokB a ha (hbud12 hb)
          · intro hb m hm
            exact ierrB (hbud12 hb) m hm

theorem roundsLoop_rel (F : ExtFuns) (plan : Plan) :
    ∀ (fuel : ℕ) (remaining : List Node) (processed : ℕ) (s : ExecState),
    RoundRel F s (roundsLoop F plan fuel remaining processed s)
  | 0, remaining, processed, s => by
      refine ⟨rfl, ⟨[], (List.append_nil _).symm⟩, fun h => h, fun x hx => hx,
        fun id hid => Or.inl hid, fun a _ hb => hb, ?_⟩
      intro _ m hm
      simp [roundsLoop] at hm
  | fuel + 1, remaining, processed, s => by
      simp only [roundsLoop]
      split
      · exact ⟨rfl, ⟨[], (List.append_nil _).symm⟩, fun h => h, fun x hx => hx,
          fun id hid => Or.inl hid, fun a _ hb => hb, fun _ m hm => by simp at hm⟩
      · split
        · exact ⟨rfl, ⟨[], (List.append_nil _).symm⟩, fun h => h, fun x hx => hx,
            fun id hid => Or.inl hid, fun a ha => by simp at ha,
            fun _ m hm => by simp at hm⟩
        · have hround := execNodesRound_rel F
            (partitionRound s.ctx plan.edges remaining).1 processed s
          rcases hx : execNodesRound F (partitionRound s.ctx plan.edges remaining).1
            processed s with ⟨r0, sr⟩
          rw [hx] at hround
          obtain ⟨rsig, ⟨ltr, rtr⟩, rrun, rcomp, rinv, rokB, rerrB⟩ := hround
          cases r0 with
          | error e =>
              exact ⟨rsig, ⟨ltr, rtr⟩, rrun, rcomp, rinv,
                fun a ha => by simp at ha, fun hb m hm => rerrB hb m (by simpa using hm)⟩
          | ok processedNext =>
              dsimp only
              cases hc : checkBudgetOverrun F sr.ctx with
              | error e =>
                  refine ⟨rsig, ⟨ltr, rtr⟩, rrun, rcomp, rinv,
                    fun a ha => by simp at ha, ?_⟩
                  intro hb m _
                  have : checkBudgetOverrun F sr.ctx = .ok () := rokB _ rfl hb
                  rw [hc] at this
                  simp at this
              | ok u =>
                  cases u
                  have ih := roundsLoop_rel F plan fuel
                    (partitionRound s.ctx plan.edges remaining).2 processedNext sr
                  rcases hrest : roundsLoop F plan fuel
                      (partitionRound s.ctx plan.edges remaining).2 processedNext sr
                    with ⟨r1, s3⟩
                  rw [hrest] at ih
                  obtain ⟨isig, ⟨ltr3, itr⟩, irun, icomp, iinv, iokB, ierrB⟩ := ih
                  refine ⟨isig.trans rsig, ⟨ltr ++ ltr3, by
                      rw [itr, rtr, List.append_assoc]⟩, fun h0 => irun (rrun h0),
                    fun x hx2 => icomp x (rcomp x hx2), ?_, ?_, ?_⟩
                  · intro id hid
                    rcases iinv id hid with h | h
                    · rcases rinv id h with h2 | h2
                      · exact Or.inl h2
                      · exact Or.inr (icomp _ h2)
                    · exact Or.inr h
                  · intro a ha hb
                    exact iokB a ha hc
                  · intro hb m hm
                    exact ierrB hc m hm

/-! ### Pre-loop phases of `execute_plan` -/

/-- What the ToolSpec-hydration pass leaves untouched. -/
def SpecsPhaseEq (s s' : ExecState) : Prop :=
  s'.ctx.signals = s.ctx.signals ∧
  s'.ctx.trace_events = s.ctx.trace_events ∧
  s'.ctx.running_nodes = s.ctx.running_nodes ∧
  s'.ctx.completed_nodes = s.ctx.completed_nodes ∧
  s'.invokedNodes = s.invokedNodes ∧
  s'.ctx.total_latency_ms = s.ctx.total_latency_ms ∧
  s'.ctx.total_cost_usd = s.ctx.total_cost_usd ∧
  s'.ctx.total_tokens = s.ctx.total_tokens

theorem specsPhaseEq_refl (s : ExecState) : SpecsPhaseEq s s :=
  ⟨rfl, rfl, rfl, rfl, rfl, rfl, rfl, rfl⟩

theorem specsPhaseEq_trans {s₁ s₂ s₃ : ExecState} (h₁ : SpecsPhaseEq s₁ s₂)
    (h₂ : SpecsPhaseEq s₂ s₃) : SpecsPhaseEq s₁ s₃ :=
  ⟨h₂.1.trans h₁.1, h₂.2.1.trans h₁.2.1, h₂.2.2.1.trans h₁.2.2.1,
   h₂.2.2.2.1.trans h₁.2.2.2.1, h₂.2.2.2.2.1.trans h₁.2.2.2.2.1,
   h₂.2.2.2.2.2.1.trans h₁.2.2.2.2.2.1, h₂.2.2.2.2.2.2.1.trans h₁.2.2.2.2.2.2.1,
   h₂.2.2.2.2.2.2.2.trans h₁.2.2.2.2.2.2.2⟩

theorem popSpec_phase (s : ExecState) : SpecsPhaseEq s (popSpec s).2 := by
  unfold popSpec
  cases s.env.specResults <;> exact specsPhaseEq_refl _

theorem hydrateSpecs_phase : ∀ (entries : List (String × String)) (s : ExecState),
    SpecsPhaseEq s (hydrateSpecs entries s)
  | [], s => specsPhaseEq_refl s
  | (tool_name, url) :: rest, s => by
      unfold hydrateSpecs
      split
      · exact hydrateSpecs_phase rest s
      · rcases hp : popSpec s with ⟨r, s₁⟩
        have hph : SpecsPhaseEq s s₁ := by
          have h := popSpec_phase s
          rwa [hp] at h
        cases r with
        | some spec =>
            refine specsPhaseEq_trans hph (specsPhaseEq_trans ?_
              (hydrateSpecs_phase rest _))
            exact ⟨rfl, rfl, rfl, rfl, rfl, rfl, rfl, rfl⟩
        | none => exact specsPhaseEq_trans hph (hydrateSpecs_phase rest s₁)

theorem specsPhaseEq_check (F : ExtFuns) {s s' : ExecState} (h : SpecsPhaseEq s s') :
    checkBudgetOverrun F s'.ctx = checkBudgetOverrun F s.ctx :=
  checkBudget_congr F h.1 h.2.2.2.2.2.1 h.2.2.2.2.2.2.1

/-- The optimizer pass only pushes the `plan_optimizer` trace. -/
theorem optimizedNodeOrder_pure (plan : Plan) (s : ExecState) :
    PureStep s (optimizedNodeOrder plan s).2 :=
  pushTrace_pure _ s

/-- The optimizer trace is appended, with its event type. -/
theorem optimizedNodeOrder_trace (plan : Plan) (s : ExecState) :
    ∃ t : Trace, t.event_type = "plan_optimizer" ∧
      (optimizedNodeOrder plan s).2.ctx.trace_events = s.ctx.trace_events ++ [t] :=
  ⟨_, rfl, rfl⟩

/-- The final-summary push changes only the trace log. -/
theorem pushBudgetSummary_state (s : ExecState) :
    ({ s with ctx := pushBudgetSummaryTrace s.ctx } : ExecState).ctx.running_nodes
        = s.ctx.running_nodes ∧
    ({ s with ctx := pushBudgetSummaryTrace s.ctx } : ExecState).ctx.completed_nodes
        = s.ctx.completed_nodes ∧
    ({ s with ctx := pushBudgetSummaryTrace s.ctx } : ExecState).invokedNodes
        = s.invokedNodes ∧
    ({ s with ctx := pushBudgetSummaryTrace s.ctx } : ExecState).ctx.trace_events
        = s.ctx.trace_events ++ [mkBudgetSummaryTrace s.ctx] :=
  ⟨rfl, rfl, rfl, rfl⟩

/-- Everything `execute_plan` guarantees, in one bundle: the emptied
`running_nodes` set and the invoked-implies-completed invariant, the
budget-summary-before-abort property under an in-budget entry, and the
fact that a validated plan reaches the optimizer (execution begins). -/
theorem executePlan_master (F : ExtFuns) (ctx : ExecutionContext) (plan : Plan)
    (env : Env) :
    (ctx.running_nodes = [] →
      (executePlan F ctx plan env).2.ctx.running_nodes = []) ∧
    (∀ id, id ∈ (executePlan F ctx plan env).2.invokedNodes →
      id ∈ (executePlan F ctx plan env).2.ctx.completed_nodes) ∧
    (checkBudgetOverrun F { ctx with
        signals := if ctx.signals.isNone then plan.signals else ctx.signals } = .ok () →
      ∀ m s', executePlan F ctx plan env = (.error (.BudgetExceeded m), s') →
        lastIsBudgetSummary s'.ctx) ∧
    ((if SMap.isEmpty ctx.tool_urls then plan.validate
      else plan.validateWithTools (SMap.keysOf ctx.tool_urls)) = .ok () →
      ∃ t ∈ (executePlan F ctx plan env).2.ctx.trace_events,
        t.event_type = "plan_optimizer") := by
  unfold executePlan
  cases hv : (if SMap.isEmpty ctx.tool_urls then plan.validate
      else plan.validateWithTools (SMap.keysOf ctx.tool_urls)) with
  | error e =>
      refine ⟨fun h => h, ?_, ?_, ?_⟩
      · intro id hid
        simp at hid
      · intro _ m s' hm
        simp at hm
      · intro hok
        simp at hok
  | ok u =>
      cases u
      dsimp only
      -- signals adoption
      set s0 : ExecState :=
        { ctx := ctx, env := env, issuedMemWrites := [], invokedNodes := [] } with hs0
      set s1 : ExecState :=
        (if s0.ctx.signals.isNone then
          { s0 with ctx := { s0.ctx with signals := plan.signals } } else s0) with hs1
      have h1sig : s1.ctx.signals =
          (if ctx.signals.isNone then plan.signals else ctx.signals) := by
        by_cases hn : ctx.signals.isNone
        · simp [hs1, hs0, hn]
        · simp [hs1, hs0, hn]
      have h1run : s1.ctx.running_nodes = ctx.running_nodes := by
        by_cases hn : ctx.signals.isNone
        · simp [hs1, hs0, hn]
        · simp [hs1, hs0, hn]
      have h1inv : s1.invokedNodes = [] := by
        by_cases hn : ctx.signals.isNone
        · simp [hs1, hs0, hn]
        · simp [hs1, hs0, hn]
      have h1lat : s1.ctx.total_latency_ms = ctx.total_latency_ms := by
        by_cases hn : ctx.signals.isNone
        · simp [hs1, hs0, hn]
        · simp [hs1, hs0, hn]
      have h1cost : s1.ctx.total_cost_usd = ctx.total_cost_usd := by
        by_cases hn : ctx.signals.isNone
        · simp [hs1, hs0, hn]
        · simp [hs1, hs0, hn]
      -- hydration
      have hphase := hydrateSpecs_phase s1.ctx.tool_urls s1
      set s2 : ExecState := hydrateSpecs s1.ctx.tool_urls s1 with hs2
      -- optimizer
      have hopt := optimizedNodeOrder_pure plan s2
      obtain ⟨topt, htope, htopt⟩ := optimizedNodeOrder_trace plan s2
      set ns := optimizedNodeOrder plan s2 with hns
      -- the loop
      have hloop := roundsLoop_rel F plan (ns.1.length + 1) ns.1 0 ns.2
      rcases hl : roundsLoop F plan (ns.1.length + 1) ns.1 0 ns.2 with ⟨r1, s4⟩
      rw [hl] at hloop
      obtain ⟨lsig, ⟨ltr, ltrh⟩, lrun, lcomp, linv, lokB, lerrB⟩ := hloop
      have hrun3 : ctx.running_nodes = [] → ns.2.ctx.running_nodes = [] := by
        intro h0
        have : s2.ctx.running_nodes = [] := by
          rw [hphase.2.2.1, h1run]
          exact h0
        rw [hopt.1.1, this]
      have hinv3 : ns.2.invokedNodes = [] := by
        rw [hopt.1.2.2.2.1, hphase.2.2.2.2.1, h1inv]
      have hcheck3 : checkBudgetOverrun F ns.2.ctx = checkBudgetOverrun F
          { ctx with signals := if ctx.signals.isNone then plan.signals else ctx.signals } := by
        rw [checkBudget_of_pure F hopt, specsPhaseEq_check F hphase]
        exact checkBudget_congr_ctx F (by rw [h1sig]) (by rw [h1lat]) (by rw [h1cost])
      have htrmem : topt ∈ ns.2.ctx.trace_events := by
        rw [htopt]
        exact List.mem_append_right _ (List.mem_singleton.mpr rfl)
      cases r1 with
      | error e =>
          refine ⟨fun h0 => lrun (hrun3 h0), ?_, ?_, ?_⟩
          · intro id hid
            rcases linv id hid with h | h
            · rw [hinv3] at h
              simp at h
            · exact h
          · intro hb m s' hm
            have hpair : e = ExecutionError.BudgetExceeded m ∧ s4 = s' := by
              have := Prod.mk.injEq (α := Except ExecutionError Unit)
                (β := ExecState) (Except.error e) s4 (Except.error
                  (ExecutionError.BudgetExceeded m)) s' ▸ hm
              constructor
              · have h1 := congrArg Prod.fst hm
                simpa using h1
              · have h2 := congrArg Prod.snd hm
                simpa using h2
            obtain ⟨rfl, rfl⟩ := hpair
            refine lerrB ?_ m rfl
            rw [hcheck3]
            exact hb
          · intro _
            exact ⟨topt, by
              rw [ltrh]
              exact List.mem_append_left _ htrmem, htope⟩
      | ok u2 =>
          refine ⟨?_, ?_, ?_, ?_⟩
          · intro h0
            exact lrun (hrun3 h0)
          · intro id hid
            rcases linv id hid with h | h
            · rw [hinv3] at h
              simp at h
            · exact h
          · intro _ m s' hm
            have := congrArg Prod.fst hm
            simp at this
          · intro _
            refine ⟨topt, ?_, htope⟩
            show topt ∈ s4.ctx.trace_events ++ [mkBudgetSummaryTrace s4.ctx]
            refine List.mem_append_left _ ?_
            rw [ltrh]
            exact List.mem_append_left _ htrmem

/-! ### Claim vocabulary -/

/-- The consumed latency as the spec describes it:
`max(actual_latency_ms, spec.latency_p50_ms)` when the spec provides a
latency, `actual_latency_ms` otherwise. -/
def consumedLatency (spec : Option ToolSpec) (actual : ℚ) : ℚ :=
  match (spec.bind (·.constraints)).bind (·.latency_p50_ms) with
  | some l => max actual (l : ℚ)
  | none => actual

/-- The consumed cost: `spec.cost_per_call_usd or 0`. -/
def consumedCost (spec : Option ToolSpec) : ℚ :=
  (((spec.bind (·.constraints)).bind (·.cost_per_call_usd))).getD 0

/-- The consumed tokens: the caller's count when non-zero, otherwise
`spec.input_tokens_max` when provided (0 otherwise). -/
def consumedTokens (spec : Option ToolSpec) (tokens_used : Option ℕ) : ℕ :=
  if tokens_used.getD 0 = 0 then
    (((spec.bind (·.constraints)).bind (·.input_tokens_max))).getD 0
  else tokens_used.getD 0

theorem consumedTriple_eq (spec : Option ToolSpec) (actual : ℚ) (toks : Option ℕ) :
    consumedTriple spec actual toks =
      (consumedLatency spec actual, consumedCost spec, consumedTokens spec toks) := by
  unfold consumedTriple consumedLatency consumedCost consumedTokens
  cases spec with
  | none => by_cases ht : toks.getD 0 = 0 <;> simp [ht]
  | some sp =>
      cases hc : sp.constraints with
      | none => by_cases ht : toks.getD 0 = 0 <;> simp [hc, ht]
      | some cons =>
          cases hl : cons.latency_p50_ms <;> cases hco : cons.cost_per_call_usd <;>
            cases hi : cons.input_tokens_max <;> by_cases ht : toks.getD 0 = 0 <;>
            simp [hc, hl, hco, hi, ht, Nat.zero_max]

/-- C1: `record_tool_usage` adds exactly `max(actual, latency_p50)` (or
`actual` with no spec latency) to `total_latency_ms`, exactly
`cost_per_call_usd or 0` to `total_cost_usd`, and — when the caller's
token count is absent or zero — `input_tokens_max` (when provided) to
`total_tokens`, saturating; the returned `UsageRecord` carries exactly
these consumed amounts. -/
theorem c1_record_tool_usage (F : ExtFuns) (s : ExecState) (tool_name : String)
    (spec : Option ToolSpec) (actual : ℚ) (tokens_used : Option ℕ) :
    (recordToolUsage F tool_name spec actual tokens_used s).2.ctx.total_latency_ms
      = s.ctx.total_latency_ms + consumedLatency spec actual ∧
    (recordToolUsage F tool_name spec actual tokens_used s).2.ctx.total_cost_usd
      = s.ctx.total_cost_usd + consumedCost spec ∧
    (recordToolUsage F tool_name spec actual tokens_used s).2.ctx.total_tokens
      = satAdd s.ctx.total_tokens (consumedTokens spec tokens_used) ∧
    (∀ u, (recordToolUsage F tool_name spec actual tokens_used s).1 = .ok u →
      u.tool_name = tool_name ∧ u.latency_ms = consumedLatency spec actual ∧
      u.cost_usd = consumedCost spec ∧ u.tokens = consumedTokens spec tokens_used) := by
  unfold recordToolUsage
  dsimp only
  rw [consumedTriple_eq]
  split
  · refine ⟨rfl, rfl, rfl, ?_⟩
    intro u hu
    simp at hu
  · refine ⟨rfl, rfl, rfl, ?_⟩
    intro u hu
    dsimp only at hu
    injection hu with h
    subst h
    exact ⟨rfl, rfl, rfl, rfl⟩

/-- Decidable equality on `Except`, for evaluating concrete results. -/
instance {ε α : Type} [DecidableEq ε] [DecidableEq α] : DecidableEq (Except ε α) := fun a b =>
  match a, b with
  | .error e, .error f =>
      if h : e = f then .isTrue (by rw [h]) else .isFalse (fun hc => h (by injection hc))
  | .error _, .ok _ => .isFalse (fun hc => by injection hc)
  | .ok _, .error _ => .isFalse (fun hc => by injection hc)
  | .ok x, .ok y =>
      if h : x = y then .isTrue (by rw [h]) else .isFalse (fun hc => h (by injection hc))

attribute [local semireducible] Rat.add Rat.mul Rat.sub Rat.inv

/-- A minimal schema value for sample specs. -/
def schema0 : Schema := .mk "object" none none none

/-- A sample tool spec with constraints, used by witnesses. -/
def spec0 : ToolSpec :=
  { name := "t", description := none, io := { input := schema0, output := schema0 }
    capabilities := none
    constraints := some
      { input_tokens_max := some 100, latency_p50_ms := some 5,
        cost_per_call_usd := some ((1 : ℚ) / 4), rate_limit_qps := none,
        side_effects := none }
    provenance := none, quality := none, policy := none }

/-- A fresh scheduler state, used by witnesses. -/
def stInit : ExecState :=
  { ctx := ExecutionContext.new, env := Env.empty, issuedMemWrites := [],
    invokedNodes := [] }

/-- The usage record C1's witness expects. -/
def uRec0 : UsageRecord :=
  { tool_name := "t", latency_ms := 5, cost_usd := (1 : ℚ) / 4, tokens := 100 }

/-- Witness for C1 at a concrete call. -/
theorem c1_record_tool_usage_witness :
    (recordToolUsage ExtFuns.triv "t" (some spec0) 3 none stInit).2.ctx.total_latency_ms
      = stInit.ctx.total_latency_ms + consumedLatency (some spec0) 3 ∧
    (uRec0.tool_name = "t" ∧ uRec0.latency_ms = consumedLatency (some spec0) 3 ∧
     uRec0.cost_usd = consumedCost (some spec0) ∧
     uRec0.tokens = consumedTokens (some spec0) none) := by
  have h := c1_record_tool_usage ExtFuns.triv stInit "t" (some spec0) 3 none
  exact ⟨h.1, h.2.2.2 uRec0 (by decide)⟩

/-- The deny-list the spec's policy registers for a tool (empty when the
tool, its policy or its deny list is absent). -/
def denyPatterns (c : ExecutionContext) (tool_name : String) : List String :=
  ((((c.tool_specs.find? tool_name)).bind (·.policy)).bind (·.deny_if)).getD []

/-- The lowercased JSON serialisation of the resolved args (`"null"`
when absent). -/
def serialisedArgs (F : ExtFuns) (args : Option Json) : String :=
  match args with
  | some v => strToLower (v.render F)
  | none => "null"

/-- C3: `enforce_tool_policy` blocks — with the documented message and
exactly one `policy_violation` trace carrying description, pattern and
args — precisely when some non-empty deny pattern's lowercased form
occurs in the lowercased JSON serialisation of the args, and the first
such pattern is reported; otherwise it returns Ok and pushes nothing. -/
theorem c3_enforce_tool_policy (F : ExtFuns) (s : ExecState) (tool_name : String)
    (args : Option Json) :
    (∀ p, (denyPatterns s.ctx tool_name).find?
        (patternHits (serialisedArgs F args)) = some p →
      enforceToolPolicy F tool_name args s =
        (.error (.ToolExecutionError (policyBlockMessage tool_name p)),
         pushTrace (policyViolationTrace tool_name p args) s)) ∧
    ((denyPatterns s.ctx tool_name).find? (patternHits (serialisedArgs F args)) = none →
      enforceToolPolicy F tool_name args s = (.ok (), s)) ∧
    ((∃ p ∈ denyPatterns s.ctx tool_name,
        patternHits (serialisedArgs F args) p = true) ↔
      ∃ p, (denyPatterns s.ctx tool_name).find?
        (patternHits (serialisedArgs F args)) = some p) := by
  refine ⟨?_, ?_, ?_⟩
  · intro p hp
    unfold enforceToolPolicy
    cases hf : s.ctx.tool_specs.find? tool_name with
    | none =>
        exfalso
        simp [denyPatterns, hf] at hp
    | some spec =>
        dsimp only
        cases hpol : spec.policy with
        | none =>
            exfalso
            simp [denyPatterns, hf, hpol] at hp
        | some pol =>
            dsimp only
            cases hd : pol.deny_if with
            | none =>
                exfalso
                simp [denyPatterns, hf, hpol, hd] at hp
            | some pats =>
                dsimp only
                have hpats : denyPatterns s.ctx tool_name = pats := by
                  simp [denyPatterns, hf, hpol, hd]
                rw [hpats] at hp
                have hne : pats.isEmpty = false := by
                  cases pats with
                  | nil => simp at hp
                  | cons a l => rfl
                rw [hne]
                simp only [Bool.false_eq_true, if_false]
                cases args <;> simp only [serialisedArgs] at hp <;>
                  dsimp only <;> rw [hp]
  · intro hnone
    unfold enforceToolPolicy
    cases hf : s.ctx.tool_specs.find? tool_name with
    | none => rfl
    | some spec =>
        dsimp only
        cases hpol : spec.policy with
        | none => rfl
        | some pol =>
            dsimp only
            cases hd : pol.deny_if with
            | none => rfl
            | some pats =>
                dsimp only
                have hpats : denyPatterns s.ctx tool_name = pats := by
                  simp [denyPatterns, hf, hpol, hd]
                rw [hpats] at hnone
                cases hne : pats.isEmpty with
                | true => rfl
                | false =>
                    simp only [Bool.false_eq_true, if_false]
                    cases args <;> simp only [serialisedArgs] at hnone <;>
                      dsimp only <;> rw [hnone]
  · constructor
    · rintro ⟨p, hmem, hhit⟩
      have : ((denyPatterns s.ctx tool_name).find?
          (patternHits (serialisedArgs F args))).isSome := by
        rw [List.find?_isSome]
        exact ⟨p, hmem, hhit⟩
      exact Option.isSome_iff_exists.mp this
    · rintro ⟨p, hp⟩
      exact ⟨p, List.mem_of_find?_eq_some hp, List.find?_some hp⟩

/-- A tool spec with a deny pattern, for the policy witness. -/
def spec3 : ToolSpec :=
  { spec0 with policy := some { deny_if := some ["drop"] } }

/-- A state whose context registers `spec3` under `"t"`. -/
def st3 : ExecState :=
  { stInit with ctx := { stInit.ctx with tool_specs := [("t", spec3)] } }

/-- Witness for C3: a matching deny pattern blocks with the documented
message and a single `policy_violation` trace. -/
theorem c3_enforce_tool_policy_witness :
    enforceToolPolicy ExtFuns.triv "t" (some (Json.str "DROP x")) st3 =
      (.error (.ToolExecutionError (policyBlockMessage "t" "drop")),
       pushTrace (policyViolationTrace "t" "drop" (some (Json.str "DROP x"))) st3) :=
  (c3_enforce_tool_policy ExtFuns.triv st3 "t" (some (Json.str "DROP x"))).1 "drop" (by decide)

/-- A node that passes the per-node loop implies its output-binding check
passed (when its operation requires an output). -/
theorem validateNodeWithTools_ok {available : List String} {n : Node}
    (h : validateNodeWithTools available n = .ok ())
    (hreq : operationRequiresOutput n.op = true) :
    outputBindingCheck n = .ok () := by
  unfold validateNodeWithTools at h
  simp only [hreq, if_true, bind, Except.bind, throw, throwThe, MonadExceptOf.throw,
    pure, Except.pure] at h
  repeat' split at h
  all_goals first
    | exact h
    | cases h

/-- A node list that passes the loop passes node by node. -/
theorem validateNodesWithTools_ok_mem {available : List String} {ns : List Node}
    (h : validateNodesWithTools available ns = .ok ()) :
    ∀ n ∈ ns, validateNodeWithTools available n = .ok () := by
  induction ns with
  | nil => intro n hn; cases hn
  | cons a l ih =>
      intro n hn
      unfold validateNodesWithTools at h
      cases ha : validateNodeWithTools available a with
      | error e => rw [ha] at h; cases h
      | ok u =>
          cases u
          rw [ha] at h
          rcases List.mem_cons.mp hn with rfl | hn
          · exact ha
          · exact ih h n hn

/-- C5: the output-binding check of `validate_with_tools` accepts a node
iff its `out` map is present, non-empty and has no whitespace-only key
(the spec asks only for one non-whitespace key); a failing check reports
`MissingOutputBinding` for the node, and a plan that passes
`validate_with_tools` passes the check at every output-requiring node. -/
theorem c5_output_binding (n : Node) :
    (outputBindingCheck n = .ok () ↔
      ∃ m, n.out = some m ∧ SMap.isEmpty m = false ∧
        ∀ k ∈ SMap.keysOf m, ¬ strTrim k = "") ∧
    (¬ outputBindingCheck n = .ok () →
      outputBindingCheck n = .error (.MissingOutputBinding n.id)) ∧
    (∀ p available, Plan.validateWithTools p available = .ok () →
      n ∈ p.nodes → operationRequiresOutput n.op = true →
      outputBindingCheck n = .ok ()) := by
  refine ⟨?_, ?_, ?_⟩
  · unfold outputBindingCheck
    cases ho : n.out with
    | none =>
        simp only [ho]
        constructor
        · intro h; cases h
        · rintro ⟨m, hm, -⟩; cases hm
    | some m =>
        simp only [ho]
        cases hm : SMap.isEmpty m with
        | true =>
            simp only [hm]
            constructor
            · intro h; cases h
            · rintro ⟨m₂, hm₂, hne, -⟩
              injection hm₂ with hm₂
              subst hm₂
              rw [hm] at hne
              cases hne
        | false =>
            simp only [hm, Bool.false_eq_true, not_false_iff, if_true]
            cases ha : (SMap.keysOf m).any (fun k => strTrim k = "") with
            | true =>
                simp only [ha, if_true]
                constructor
                · intro h; cases h
                · rintro ⟨m₂, hm₂, -, hall⟩
                  injection hm₂ with hm₂
                  subst hm₂
                  rcases List.any_eq_true.mp ha with ⟨k, hk, hk2⟩
                  exact absurd (of_decide_eq_true hk2) (hall k hk)
            | false =>
                simp only [ha, Bool.false_eq_true, if_false]
                constructor
                · intro _
                  refine ⟨m, rfl, hm, ?_⟩
                  intro k hk hk2
                  have hno := List.any_eq_true.not.mp (by rw [ha]; simp)
                  exact hno ⟨k, hk, decide_eq_true hk2⟩
                · intro _; trivial
  · intro h
    unfold outputBindingCheck at h ⊢
    cases ho : n.out with
    | none => rfl
    | some m =>
        rw [ho] at h
        dsimp only at h ⊢
        cases hm : SMap.isEmpty m with
        | true => rfl
        | false =>
            by_cases ha : (SMap.keysOf m).any (fun k => strTrim k = "") = true
            · simp [ha, hm]
            · exact absurd (by simp [ha, hm]) h
  · intro p available hp hn hreq
    unfold Plan.validateWithTools at hp
    cases hv : p.validate with
    | error e => rw [hv] at hp; cases hp
    | ok u =>
        cases u
        rw [hv] at hp
        exact validateNodeWithTools_ok (validateNodesWithTools_ok_mem hp n hn) hreq

/-- The node of C5's counterexample: its `out` map has the non-whitespace
key "x" next to the whitespace-only key " ". -/
def node5 : Node :=
  { id := "n1", op := .Call, tool := some "t", capability := none,
    args := none, bind := none, out := some [("x", "r"), (" ", "r")] }

/-- The one-node plan around `node5`. -/
def plan5 : Plan :=
  { signals := none, nodes := [node5], edges := none, stop_conditions := none }

/-- Counterexample to C5 as stated: `node5.out` has the non-whitespace key
"x", yet `validate_with_tools` rejects the plan with `MissingOutputBinding`
(the code requires every key to be non-whitespace, not just one). -/
theorem c5_output_binding_counterexample :
    (node5.out = some [("x", "r"), (" ", "r")] ∧ (strTrim "x" = "") = false) ∧
    Plan.validateWithTools plan5 ["t"] = .error (.MissingOutputBinding "n1") := by
  refine ⟨⟨rfl, by decide⟩, by decide⟩


/-- C2 (amended): whenever `execute_plan` returns `BudgetExceeded` and the
budget check passes on the context as it stands at plan entry (its own
signals, or the plan's where the context had none), the final trace event
is a `budget_summary` snapshot. -/
theorem c2_budget_summary_before_abort (F : ExtFuns) (ctx : ExecutionContext)
    (plan : Plan) (env : Env)
    (hok : checkBudgetOverrun F { ctx with
      signals := if ctx.signals.isNone then plan.signals else ctx.signals } = .ok ())
    (m : String) (s' : ExecState)
    (herr : executePlan F ctx plan env = (.error (.BudgetExceeded m), s')) :
    lastIsBudgetSummary s'.ctx :=
  (executePlan_master F ctx plan env).2.2.1 hok m s' herr

/-- A no-op branch node. -/
def branchNode : Node :=
  { id := "b", op := .Branch, tool := none, capability := none, args := none,
    bind := none, out := none }

/-- A plan whose cost cap is negative: the budget is blown before the
first round ever runs. -/
def plan2 : Plan :=
  { signals := some ⟨none, some (-1), none⟩,
    nodes := [branchNode], edges := none, stop_conditions := none }

/-- Counterexample to C2 as stated: with a negative cost cap the
end-of-round check aborts with `BudgetExceeded`, yet no `budget_summary`
trace was ever pushed (the only trace is the optimizer's). -/
theorem c2_budget_summary_counterexample :
    (executePlan ExtFuns.triv ExecutionContext.new plan2 Env.empty).1 =
      .error (.BudgetExceeded "Cost budget exceeded: $ > $") ∧
    ((executePlan ExtFuns.triv ExecutionContext.new plan2 Env.empty).2.ctx.trace_events.all
      (fun t => t.event_type != "budget_summary")) = true := by
  exact ⟨by decide, by decide⟩

/-- A tool spec whose per-call cost (5) exceeds `plan2w`'s cap (1). -/
def spec2w : ToolSpec :=
  { spec0 with constraints := some ⟨none, none, some 5, none, none⟩ }

/-- A context that registers a URL for tool "t". -/
def ctx2w : ExecutionContext := { ExecutionContext.new with tool_urls := [("t", "u")] }

/-- A call node on tool "t" with an output binding. -/
def callNode2 : Node :=
  { id := "c", op := .Call, tool := some "t", capability := none, args := none,
    bind := none, out := some [("r", "x")] }

/-- A one-call plan with cost cap 1. -/
def plan2w : Plan :=
  { signals := some ⟨none, some 1, none⟩,
    nodes := [callNode2], edges := none, stop_conditions := none }

/-- An environment where the spec fetch yields `spec2w` and the invocation
succeeds at zero latency. -/
def env2w : Env :=
  { Env.empty with specResults := [some spec2w], invokeResults := [(.success .null, 0)] }

/-- Witness for C2's amended theorem: a mid-run overrun (call cost 5
against cap 1) aborts with the `budget_summary` snapshot pushed last. -/
theorem c2_budget_summary_before_abort_witness :
    checkBudgetOverrun ExtFuns.triv { ctx2w with
      signals := if ctx2w.signals.isNone then plan2w.signals else ctx2w.signals } = .ok () ∧
    lastIsBudgetSummary (executePlan ExtFuns.triv ctx2w plan2w env2w).2.ctx :=
  ⟨by decide,
   c2_budget_summary_before_abort ExtFuns.triv ctx2w plan2w env2w (by decide)
     "Cost budget exceeded: $ > $" (executePlan ExtFuns.triv ctx2w plan2w env2w).2 (by rfl)⟩

/-- C9: once `execute_plan` returns — Ok or Err — `running_nodes` is empty
again (starting from a context where it is empty), and every node whose
per-operation handler was entered is in `completed_nodes`, the node whose
handler raised the aborting error included. -/
theorem c9_running_completed (F : ExtFuns) (ctx : ExecutionContext) (plan : Plan)
    (env : Env) (hrun : ctx.running_nodes = []) :
    (executePlan F ctx plan env).2.ctx.running_nodes = [] ∧
    ∀ id ∈ (executePlan F ctx plan env).2.invokedNodes,
      id ∈ (executePlan F ctx plan env).2.ctx.completed_nodes :=
  ⟨(executePlan_master F ctx plan env).1 hrun,
   (executePlan_master F ctx plan env).2.1⟩

/-- Witness for C9 on a plan whose single call aborts the run mid-flight. -/
theorem c9_running_completed_witness :
    ctx2w.running_nodes = [] ∧
    ((executePlan ExtFuns.triv ctx2w plan2w env2w).2.ctx.running_nodes = [] ∧
     ∀ id ∈ (executePlan ExtFuns.triv ctx2w plan2w env2w).2.invokedNodes,
       id ∈ (executePlan ExtFuns.triv ctx2w plan2w env2w).2.ctx.completed_nodes) :=
  ⟨rfl, c9_running_completed ExtFuns.triv ctx2w plan2w env2w rfl⟩

/-- C10: with an empty `tool_urls` map, `execute_plan` runs only the
structural `Plan::validate` check and skips `validate_with_tools`
entirely, so any structurally sound plan — tool-level problems included —
begins execution (the optimizer pushes its `plan_optimizer` trace). -/
theorem c10_empty_tool_urls (F : ExtFuns) (ctx : ExecutionContext) (plan : Plan)
    (env : Env) (hempty : SMap.isEmpty ctx.tool_urls = true)
    (hval : plan.validate = .ok ()) :
    ∃ t ∈ (executePlan F ctx plan env).2.ctx.trace_events,
      t.event_type = "plan_optimizer" := by
  apply (executePlan_master F ctx plan env).2.2.2
  rw [hempty]
  simpa using hval

/-- C10's sample plan: a tool-requiring node with neither tool nor
capability, a node naming an unknown tool, and an output-producing node
with no `out` binding. -/
def plan10 : Plan :=
  { signals := none,
    nodes :=
      [{ id := "a", op := .Call, tool := none, capability := none, args := none,
         bind := none, out := none },
       { id := "b", op := .Call, tool := some "zzz", capability := none, args := none,
         bind := none, out := some [("r", "x")] },
       { id := "c", op := .Call, tool := some "t", capability := none, args := none,
         bind := none, out := none }],
    edges := none, stop_conditions := none }

/-- Witness for C10: `plan10` fails tool-level validation, yet with empty
`tool_urls` it passes the structural check and begins execution. -/
theorem c10_empty_tool_urls_witness :
    SMap.isEmpty ExecutionContext.new.tool_urls = true ∧
    plan10.validate = .ok () ∧
    plan10.validateWithTools ["t"] = .error (.MissingToolOrCapability "a") ∧
    ∃ t ∈ (executePlan ExtFuns.triv ExecutionContext.new plan10 Env.empty).2.ctx.trace_events,
      t.event_type = "plan_optimizer" :=
  ⟨rfl, by decide, by decide,
   c10_empty_tool_urls ExtFuns.triv ExecutionContext.new plan10 Env.empty rfl (by decide)⟩


/-- `evaluate_summary_value` only appends to the violation list. -/
theorem evaluateSummaryValue_mono {F : ExtFuns} {origin : String} {value : Json}
    {violations : List PolicyViolation} {actions : List EnforcementAction}
    {x : PolicyViolation} (hx : x ∈ violations) :
    x ∈ (evaluateSummaryValue F origin value violations actions).1 := by
  unfold evaluateSummaryValue
  cases hds : F.decodeSummary value with
  | ok summary =>
      dsimp only
      repeat' split
      all_goals simp [List.mem_append, hx]
  | error err =>
      dsimp only
      simp [List.mem_append, hx]

/-- One trace-scan step only appends to the violation list. -/
theorem scanTrace_mono {F : ExtFuns} {st : PolicyScanState} {t : Trace}
    {x : PolicyViolation} (hx : x ∈ st.1) : x ∈ (scanTrace F st t).1 := by
  unfold scanTrace
  dsimp only
  repeat' split
  all_goals first
    | exact evaluateSummaryValue_mono hx
    | simp [List.mem_append, hx]

/-- The whole trace fold only appends to the violation list. -/
theorem foldl_scanTrace_mono {F : ExtFuns} {ts : List Trace} {st : PolicyScanState}
    {x : PolicyViolation} (hx : x ∈ st.1) : x ∈ (ts.foldl (scanTrace F) st).1 := by
  induction ts generalizing st with
  | nil => exact hx
  | cons a l ih => exact ih (scanTrace_mono hx)

/-- One variable-scan step only appends to the violation list. -/
theorem scanVariable_mono {F : ExtFuns}
    {st : List PolicyViolation × List EnforcementAction × ℕ} {kv : String × Json}
    {x : PolicyViolation} (hx : x ∈ st.1) : x ∈ (scanVariable F st kv).1 := by
  unfold scanVariable
  split
  · exact evaluateSummaryValue_mono hx
  · exact hx

/-- The variable fold only appends to the violation list. -/
theorem foldl_scanVariable_mono {F : ExtFuns} {kvs : List (String × Json)}
    {st : List PolicyViolation × List EnforcementAction × ℕ}
    {x : PolicyViolation} (hx : x ∈ st.1) : x ∈ (kvs.foldl (scanVariable F) st).1 := by
  induction kvs generalizing st with
  | nil => exact hx
  | cons a l ih => exact ih (scanVariable_mono hx)

/-- Scanning a `budget_summary` trace raises the two budget violations when
the respective budget is positive and exceeded. -/
theorem scanTrace_budget (F : ExtFuns) (st : PolicyScanState) (t : Trace) (data : Json)
    (he : t.event_type = "budget_summary") (hd : t.data = some data) :
    (∀ tl lb, (data.get "total_latency_ms").bind Json.asF64 = some tl →
      (data.get "latency_budget_ms").bind Json.asF64 = some lb →
      0 < lb → lb < tl → latencyBudgetViolation F tl lb ∈ (scanTrace F st t).1) ∧
    (∀ tc cap, (data.get "total_cost_usd").bind Json.asF64 = some tc →
      (data.get "cost_cap_usd").bind Json.asF64 = some cap →
      0 < cap → cap < tc → costCapViolation F tc cap ∈ (scanTrace F st t).1) := by
  have hne : ¬ t.event_type = "policy_violation" := by rw [he]; decide
  unfold scanTrace
  rw [if_neg hne, if_pos he, hd]
  dsimp only
  constructor
  · intro tl lb htl hlb hpos hlt
    rw [htl, hlb]
    dsimp only
    rw [if_pos ⟨hpos, hlt⟩]
    split
    · split
      · simp [List.mem_append]
      · simp [List.mem_append]
    · simp [List.mem_append]
  · intro tc cap htc hcap hpos hct
    rw [htc, hcap]
    dsimp only
    rw [if_pos ⟨hpos, hct⟩]
    split
    all_goals simp [List.mem_append]

/-- `enforce_policies` always succeeds, and every violation collected by
its trace scan survives into the result. -/
theorem enforcePolicies_result (F : ExtFuns) (ctx : PolicyContext) :
    ∃ r, enforcePolicies F ctx = .ok r ∧
      ∀ x, x ∈ (ctx.traces.foldl (scanTrace F)
          (policyBaseViolations F ctx, policyBaseActions ctx, false, 0)).1 →
        x ∈ r.violations := by
  unfold enforcePolicies
  dsimp only
  refine ⟨_, rfl, ?_⟩
  intro x hx
  dsimp only
  repeat' split
  all_goals first
    | (apply List.mem_append_left; apply foldl_scanVariable_mono; exact hx)
    | (apply foldl_scanVariable_mono; exact hx)

/-- C8 (amended: the source guards each check with a strictly positive
budget, `latency_budget > 0.0` and `cost_cap > 0.0`): for every
`budget_summary` trace in the policy context, `enforce_policies` emits the
error violation `latency_budget` whenever the trace's `total_latency_ms`
exceeds its positive `latency_budget_ms`, and the error violation
`cost_cap` whenever its `total_cost_usd` exceeds its positive
`cost_cap_usd`. -/
theorem c8_budget_summary_violations (F : ExtFuns) (ctx : PolicyContext)
    (t : Trace) (data : Json)
    (ht : t ∈ ctx.traces) (he : t.event_type = "budget_summary")
    (hd : t.data = some data) :
    ∃ r, enforcePolicies F ctx = .ok r ∧
      (∀ tl lb, (data.get "total_latency_ms").bind Json.asF64 = some tl →
        (data.get "latency_budget_ms").bind Json.asF64 = some lb →
        0 < lb → lb < tl → latencyBudgetViolation F tl lb ∈ r.violations) ∧
      (∀ tc cap, (data.get "total_cost_usd").bind Json.asF64 = some tc →
        (data.get "cost_cap_usd").bind Json.asF64 = some cap →
        0 < cap → cap < tc → costCapViolation F tc cap ∈ r.violations) := by
  obtain ⟨r, hr, hmem⟩ := enforcePolicies_result F ctx
  obtain ⟨l₁, l₂, hsplit⟩ := List.append_of_mem ht
  refine ⟨r, hr, ?_, ?_⟩
  · intro tl lb htl hlb hpos hlt
    apply hmem
    rw [hsplit, List.foldl_append, List.foldl_cons]
    apply foldl_scanTrace_mono
    exact (scanTrace_budget F _ t data he hd).1 tl lb htl hlb hpos hlt
  · intro tc cap htc hcap hpos hct
    apply hmem
    rw [hsplit, List.foldl_append, List.foldl_cons]
    apply foldl_scanTrace_mono
    exact (scanTrace_budget F _ t data he hd).2 tc cap htc hcap hpos hct

/-- A `budget_summary` trace whose budgets are zero while the totals read 5. -/
def trace8 : Trace :=
  { Trace.new "budget_summary" "plan" "Budget summary" with
    data := some (Json.obj
      [("total_latency_ms", .num 5), ("latency_budget_ms", .num 0),
       ("total_cost_usd", .num 5), ("cost_cap_usd", .num 0)]) }

/-- The policy context holding only `trace8`. -/
def ctx8 : PolicyContext :=
  { evidence := none, tool_specs := [], traces := [trace8], vars := [] }

/-- Counterexample to C8 as stated: `trace8`'s totals (5) exceed its
budgets (0), yet `enforce_policies` emits no violation at all — the source
requires each budget to be strictly positive before comparing. -/
theorem c8_budget_summary_counterexample :
    (trace8.event_type = "budget_summary" ∧
     (trace8.data.bind (fun d => d.get "total_latency_ms")).bind Json.asF64 = some 5 ∧
     (trace8.data.bind (fun d => d.get "latency_budget_ms")).bind Json.asF64 = some 0 ∧
     (trace8.data.bind (fun d => d.get "total_cost_usd")).bind Json.asF64 = some 5 ∧
     (trace8.data.bind (fun d => d.get "cost_cap_usd")).bind Json.asF64 = some 0 ∧
     (0 : ℚ) < 5) ∧
    (match enforcePolicies ExtFuns.triv ctx8 with
     | .ok r => r.violations.isEmpty
     | .error _ => false) = true := by
  exact ⟨by decide, by decide⟩

/-- A `budget_summary` trace with positive budgets (1) exceeded by its totals (5). -/
def trace8w : Trace :=
  { Trace.new "budget_summary" "plan" "Budget summary" with
    data := some (Json.obj
      [("total_latency_ms", .num 5), ("latency_budget_ms", .num 1),
       ("total_cost_usd", .num 5), ("cost_cap_usd", .num 1)]) }

/-- The data payload of `trace8w`. -/
def data8w : Json :=
  Json.obj
    [("total_latency_ms", .num 5), ("latency_budget_ms", .num 1),
     ("total_cost_usd", .num 5), ("cost_cap_usd", .num 1)]

/-- The policy context holding only `trace8w`. -/
def ctx8w : PolicyContext :=
  { evidence := none, tool_specs := [], traces := [trace8w], vars := [] }

/-- Witness for C8's amended theorem at `trace8w`. -/
theorem c8_budget_summary_violations_witness :
    ∃ r, enforcePolicies ExtFuns.triv ctx8w = .ok r ∧
      (∀ tl lb, (data8w.get "total_latency_ms").bind Json.asF64 = some tl →
        (data8w.get "latency_budget_ms").bind Json.asF64 = some lb →
        0 < lb → lb < tl → latencyBudgetViolation ExtFuns.triv tl lb ∈ r.violations) ∧
      (∀ tc cap, (data8w.get "total_cost_usd").bind Json.asF64 = some tc →
        (data8w.get "cost_cap_usd").bind Json.asF64 = some cap →
        0 < cap → cap < tc → costCapViolation ExtFuns.triv tc cap ∈ r.violations) :=
  c8_budget_summary_violations ExtFuns.triv ctx8w trace8w data8w
    (List.mem_singleton_self trace8w) rfl rfl


/-- Association lookup on the accumulator map. -/
def AccMap.find? : AccMap → String → Option ClaimAccumulator
  | [], _ => none
  | (k₀, a₀) :: rest, k => if k₀ = k then some a₀ else AccMap.find? rest k

/-- The supports count a key carries in the accumulator map (0 when absent). -/
def suppCount (m : AccMap) (k : String) : ℕ :=
  ((AccMap.find? m k).getD ClaimAccumulator.dflt).supports

/-- A claim id occurring anywhere in an `Evidence` value. -/
def claimMentioned (ev : Evidence) (cid : String) : Prop :=
  cid ∈ ev.claims.getD [] ∨
  cid ∈ (ev.supports.getD []).map (·.claim_id) ∨
  cid ∈ (ev.contradicts.getD []).map (·.claim_id) ∨
  cid ∈ (ev.verdicts.getD []).map (·.claim_id)

/-- `entry(k).or_default()` then `f`: the looked-up entry. -/
theorem accFind_update (m : AccMap) (k : String) (f : ClaimAccumulator → ClaimAccumulator) :
    AccMap.find? (m.update k f) k =
      some (f ((AccMap.find? m k).getD ClaimAccumulator.dflt)) := by
  induction m with
  | nil => simp [AccMap.update, AccMap.find?]
  | cons p rest ih =>
      obtain ⟨k₀, a₀⟩ := p
      by_cases h : k₀ = k
      · simp [AccMap.update, AccMap.find?, h]
      · simp [AccMap.update, AccMap.find?, h, ih]

/-- Updating one key leaves every other lookup unchanged. -/
theorem accFind_update_ne (m : AccMap) {k k' : String}
    (f : ClaimAccumulator → ClaimAccumulator) (h : ¬ k = k') :
    AccMap.find? (m.update k f) k' = AccMap.find? m k' := by
  induction m with
  | nil => simp [AccMap.update, AccMap.find?, h]
  | cons p rest ih =>
      obtain ⟨k₀, a₀⟩ := p
      by_cases h₀ : k₀ = k
      · subst h₀; simp [AccMap.update, AccMap.find?, h]
      · simp [AccMap.update, AccMap.find?, h₀, ih]

/-- A lookup hit is a membership. -/
theorem accFind_mem {m : AccMap} {k : String} {a : ClaimAccumulator}
    (h : AccMap.find? m k = some a) : (k, a) ∈ m := by
  induction m with
  | nil => cases h
  | cons p rest ih =>
      obtain ⟨k₀, a₀⟩ := p
      unfold AccMap.find? at h
      split at h
      · injection h with h₂
        subst h₂
        rename_i h₁
        subst h₁
        exact List.mem_cons_self _ _
      · exact List.mem_cons_of_mem _ (ih h)

/-- An update whose function keeps `supports` keeps every supports count. -/
theorem suppCount_update_preserve (m : AccMap) (c k : String)
    (f : ClaimAccumulator → ClaimAccumulator)
    (hf : ∀ a, (f a).supports = a.supports) :
    suppCount (m.update c f) k = suppCount m k := by
  by_cases h : c = k
  · subst h; simp [suppCount, accFind_update, hf]
  · simp [suppCount, accFind_update_ne m f h]

/-- An update whose function bumps `supports` bumps exactly its key. -/
theorem suppCount_update_succ (m : AccMap) (c k : String)
    (f : ClaimAccumulator → ClaimAccumulator)
    (hf : ∀ a, (f a).supports = a.supports + 1) :
    suppCount (m.update c f) k = suppCount m k + (if c = k then 1 else 0) := by
  by_cases h : c = k
  · subst h; simp [suppCount, accFind_update, hf]
  · simp [suppCount, accFind_update_ne m f h, h]

/-- Phase 1 keeps every supports count. -/
theorem suppCount_accumClaims (cs : List String) (m : AccMap) (k : String) :
    suppCount (accumClaims cs m) k = suppCount m k := by
  induction cs generalizing m with
  | nil => rfl
  | cons c rest ih =>
      simp only [accumClaims]
      rw [ih, suppCount_update_preserve]
      intro a; rfl

/-- Phase 2 adds one support per matching `Support` entry. -/
theorem suppCount_accumSupports (ss : List Support) (m : AccMap) (k : String) :
    suppCount (accumSupports ss m) k =
      suppCount m k + ss.countP (fun s => s.claim_id == k) := by
  induction ss generalizing m with
  | nil => simp [accumSupports]
  | cons s rest ih =>
      simp only [accumSupports]
      rw [ih, suppCount_update_succ _ _ _ _ (fun a => rfl), List.countP_cons]
      by_cases h : s.claim_id = k
      · simp [h]; omega
      · simp [h]

/-- Phase 3 keeps every supports count. -/
theorem suppCount_accumContradicts (cs : List Contradiction) (m : AccMap) (k : String) :
    suppCount (accumContradicts cs m) k = suppCount m k := by
  induction cs generalizing m with
  | nil => rfl
  | cons c rest ih =>
      simp only [accumContradicts]
      rw [ih, suppCount_update_preserve]
      intro a; rfl

/-- Phase 4 keeps every supports count. -/
theorem suppCount_accumVerdicts (vs : List Verdict) (m : AccMap) (k : String) :
    suppCount (accumVerdicts vs m) k = suppCount m k := by
  induction vs generalizing m with
  | nil => rfl
  | cons v rest ih =>
      simp only [accumVerdicts]
      rw [ih, suppCount_update_preserve]
      intro a; rfl

/-- An update keeps a present key present. -/
theorem hasKey_update {m : AccMap} {k : String} (c : String)
    (f : ClaimAccumulator → ClaimAccumulator)
    (h : (AccMap.find? m k).isSome) : (AccMap.find? (m.update c f) k).isSome := by
  by_cases hc : c = k
  · subst hc; simp [accFind_update]
  · rwa [accFind_update_ne m f hc]

/-- The updated key is present afterwards. -/
theorem hasKey_update_self (m : AccMap) (c : String)
    (f : ClaimAccumulator → ClaimAccumulator) :
    (AccMap.find? (m.update c f) c).isSome := by
  simp [accFind_update]

/-- Phase 1 keeps keys. -/
theorem hasKey_accumClaims_of (cs : List String) {m : AccMap} {k : String}
    (h : (AccMap.find? m k).isSome) :
    (AccMap.find? (accumClaims cs m) k).isSome := by
  induction cs generalizing m with
  | nil => exact h
  | cons c rest ih => exact ih (hasKey_update c id h)

/-- Phase 1 introduces the keys of `claims`. -/
theorem hasKey_accumClaims_mem {cs : List String} (m : AccMap) {k : String}
    (h : k ∈ cs) : (AccMap.find? (accumClaims cs m) k).isSome := by
  induction cs generalizing m with
  | nil => cases h
  | cons c rest ih =>
      rcases List.mem_cons.mp h with rfl | h
      · exact hasKey_accumClaims_of rest (hasKey_update_self m k id)
      · exact ih _ h

/-- Phase 2 keeps keys. -/
theorem hasKey_accumSupports_of (ss : List Support) {m : AccMap} {k : String}
    (h : (AccMap.find? m k).isSome) :
    (AccMap.find? (accumSupports ss m) k).isSome := by
  induction ss generalizing m with
  | nil => exact h
  | cons s rest ih => exact ih (hasKey_update _ _ h)

/-- Phase 2 introduces the claim ids of `supports`. -/
theorem hasKey_accumSupports_mem {ss : List Support} (m : AccMap) {k : String}
    (h : k ∈ ss.map (·.claim_id)) :
    (AccMap.find? (accumSupports ss m) k).isSome := by
  induction ss generalizing m with
  | nil => cases h
  | cons s rest ih =>
      rcases List.mem_cons.mp h with h₁ | h
      · subst h₁
        exact hasKey_accumSupports_of rest (hasKey_update_self m _ _)
      · exact ih _ h

/-- Phase 3 keeps keys. -/
theorem hasKey_accumContradicts_of (cs : List Contradiction) {m : AccMap} {k : String}
    (h : (AccMap.find? m k).isSome) :
    (AccMap.find? (accumContradicts cs m) k).isSome := by
  induction cs generalizing m with
  | nil => exact h
  | cons c rest ih => exact ih (hasKey_update _ _ h)

/-- Phase 3 introduces the claim ids of `contradicts`. -/
theorem hasKey_accumContradicts_mem {cs : List Contradiction} (m : AccMap) {k : String}
    (h : k ∈ cs.map (·.claim_id)) :
    (AccMap.find? (accumContradicts cs m) k).isSome := by
  induction cs generalizing m with
  | nil => cases h
  | cons c rest ih =>
      rcases List.mem_cons.mp h with h₁ | h
      · subst h₁
        exact hasKey_accumContradicts_of rest (hasKey_update_self m _ _)
      · exact ih _ h

/-- Phase 4 keeps keys. -/
theorem hasKey_accumVerdicts_of (vs : List Verdict) {m : AccMap} {k : String}
    (h : (AccMap.find? m k).isSome) :
    (AccMap.find? (accumVerdicts vs m) k).isSome := by
  induction vs generalizing m with
  | nil => exact h
  | cons v rest ih => exact ih (hasKey_update _ _ h)

/-- Phase 4 introduces the claim ids of `verdicts`. -/
theorem hasKey_accumVerdicts_mem {vs : List Verdict} (m : AccMap) {k : String}
    (h : k ∈ vs.map (·.claim_id)) :
    (AccMap.find? (accumVerdicts vs m) k).isSome := by
  induction vs generalizing m with
  | nil => cases h
  | cons v rest ih =>
      rcases List.mem_cons.mp h with h₁ | h
      · subst h₁
        exact hasKey_accumVerdicts_of rest (hasKey_update_self m _ _)
      · exact ih _ h

/-- `find_missing_support` returning `none` means every summary has a
support. -/
theorem findMissingSupport_none {m : SMap ClaimSummary}
    (h : findMissingSupport m = none) :
    ∀ p ∈ m, ¬ p.2.supports = 0 := by
  induction m with
  | nil => intro p hp; cases hp
  | cons q rest ih =>
      intro p hp
      unfold findMissingSupport at h
      split at h
      · cases h
      · rename_i hq
        rcases List.mem_cons.mp hp with rfl | hp
        · exact hq
        · exact ih h p hp

/-- C7: a stored-evidence validation pass guarantees the mean confidence
meets the threshold, every claim id mentioned anywhere in the evidence has
at least one support, and contradicted verdicts are at most half of all
verdicts. -/
theorem c7_validate_evidence (evidence : Evidence) (τ : ℚ)
    (hok : validateEvidenceForStorage evidence τ = .ok ()) :
    τ ≤ (verifyEvidence evidence).mean_confidence ∧
    (∀ cid, claimMentioned evidence cid →
      ∃ sp ∈ evidence.supports.getD [], sp.claim_id = cid) ∧
    (countContradicted (evidence.verdicts.getD []) : ℚ) /
      ((evidence.verdicts.getD []).length : ℚ) ≤ 1 / 2 := by
  unfold validateEvidenceForStorage at hok
  dsimp only at hok
  split at hok
  · cases hok
  · rename_i hconf
    cases hms : findMissingSupport (verifyEvidence evidence).per_claim with
    | some claim => rw [hms] at hok; cases hok
    | none =>
        rw [hms] at hok
        refine ⟨le_of_not_lt hconf, ?_, ?_⟩
        · intro cid hmen
          have hkey : (AccMap.find? (accumVerdicts (evidence.verdicts.getD [])
              (accumContradicts (evidence.contradicts.getD [])
                (accumSupports (evidence.supports.getD [])
                  (accumClaims (evidence.claims.getD []) [])))) cid).isSome := by
            rcases hmen with h | h | h | h
            · exact hasKey_accumVerdicts_of _ (hasKey_accumContradicts_of _
                (hasKey_accumSupports_of _ (hasKey_accumClaims_mem _ h)))
            · exact hasKey_accumVerdicts_of _ (hasKey_accumContradicts_of _
                (hasKey_accumSupports_mem _ h))
            · exact hasKey_accumVerdicts_of _ (hasKey_accumContradicts_mem _ h)
            · exact hasKey_accumVerdicts_mem _ h
          obtain ⟨a, ha⟩ := Option.isSome_iff_exists.mp hkey
          have hmemP : (cid, a.intoSummary) ∈ (verifyEvidence evidence).per_claim := by
            unfold verifyEvidence
            dsimp only
            exact List.mem_map.mpr ⟨(cid, a), accFind_mem ha, rfl⟩
          have hne := findMissingSupport_none hms (cid, a.intoSummary) hmemP
          have hsupp : suppCount (accumVerdicts (evidence.verdicts.getD [])
              (accumContradicts (evidence.contradicts.getD [])
                (accumSupports (evidence.supports.getD [])
                  (accumClaims (evidence.claims.getD []) [])))) cid = a.supports := by
            simp [suppCount, ha]
          rw [suppCount_accumVerdicts, suppCount_accumContradicts,
            suppCount_accumSupports, suppCount_accumClaims] at hsupp
          have hzero : suppCount ([] : AccMap) cid = 0 := rfl
          rw [hzero, Nat.zero_add] at hsupp
          have hpos : 0 < (evidence.supports.getD []).countP
              (fun s => s.claim_id == cid) := by
            have : ¬ a.supports = 0 := hne
            omega
          obtain ⟨sp, hsp, hc⟩ := List.countP_pos_iff.mp hpos
          exact ⟨sp, hsp, by simpa using hc⟩
        · cases hv : evidence.verdicts with
          | none => simp [countSupported, countContradicted]
          | some verdicts =>
              rw [hv] at hok
              dsimp only at hok
              split at hok
              · rename_i hlen
                split at hok
                · cases hok
                · rename_i hlt
                  simpa using le_of_not_lt hlt
              · rename_i hlen
                have h0 : verdicts.length = 0 := by omega
                simp [h0, countContradicted, List.length_eq_zero.mp h0]


/-- A small evidence value that passes storage validation at threshold 0.8. -/
def ev7 : Evidence :=
  { claims := some ["c1"],
    supports := some [⟨"c1", "s", 9/10, none⟩],
    contradicts := none,
    verdicts := some [⟨"c1", .Supported, 9/10, false⟩] }

/-- Witness for C7 at `ev7` and threshold 0.8. -/
theorem c7_validate_evidence_witness :
    validateEvidenceForStorage ev7 (8/10) = .ok () ∧
    ((8 : ℚ)/10 ≤ (verifyEvidence ev7).mean_confidence ∧
     (∀ cid, claimMentioned ev7 cid → ∃ sp ∈ ev7.supports.getD [], sp.claim_id = cid) ∧
     (countContradicted (ev7.verdicts.getD []) : ℚ) /
       ((ev7.verdicts.getD []).length : ℚ) ≤ 1 / 2) :=
  ⟨by decide, c7_validate_evidence ev7 (8/10) (by decide)⟩


/-- The selection key as a lexicographic triple. -/
def keyLex (k : ℚ × ℚ × String) : Lex (ℚ × Lex (ℚ × String)) :=
  toLex (k.1, toLex (k.2.1, k.2.2))

/-- The boolean tuple comparison of the ranking loop is the lexicographic
strict order on `(cost, latency, name)`. -/
theorem lexLtKey_iff (a b : ℚ × ℚ × String) :
    lexLtKey a b = true ↔ keyLex a < keyLex b := by
  unfold lexLtKey keyLex
  rw [Prod.Lex.lt_iff]
  by_cases h1 : a.1 < b.1
  · simp [h1]
  · by_cases h2 : b.1 < a.1
    · simp [h1, h2, ne_of_gt h2]
    · have heq : a.1 = b.1 := le_antisymm (not_lt.mp h2) (not_lt.mp h1)
      rw [Prod.Lex.lt_iff]
      by_cases h3 : a.2.1 < b.2.1
      · simp [h1, h2, h3, heq]
      · by_cases h4 : b.2.1 < a.2.1
        · simp [h1, h2, h3, h4, heq, ne_of_gt h4]
        · have heq2 : a.2.1 = b.2.1 := le_antisymm (not_lt.mp h4) (not_lt.mp h3)
          simp [h1, h2, h3, h4, heq, heq2]

/-- A candidate's ranking key: present exactly when the tool has a URL in
`tool_urls` and a spec in `tool_specs` (the loop skips it otherwise). -/
def eligibleKey (c : ExecutionContext) (tool : String) : Option (ℚ × ℚ × String) :=
  if c.tool_urls.containsKey tool then
    match c.tool_specs.find? tool with
    | some spec => some ((toolCostLatency spec).1, (toolCostLatency spec).2, tool)
    | none => none
  else none

/-- The running-best update of the ranking loop. -/
def rankStep (cur : Option (ℚ × ℚ × String)) (score : ℚ × ℚ × String) :
    Option (ℚ × ℚ × String) :=
  match cur with
  | some cur => if lexLtKey score cur then some score else some cur
  | none => some score

/-- The ranking loop's best as a fold over keys. -/
def rankFold (r : Option (ℚ × ℚ × String)) (ks : List (ℚ × ℚ × String)) :
    Option (ℚ × ℚ × String) :=
  ks.foldl rankStep r

/-- The candidate loop's best equals the fold of `rankStep` over the
eligible keys. -/
theorem rankCandidates_spec (c : ExecutionContext) (rc rl : Option ℚ)
    (ts : List String) (ranked : Option (ℚ × ℚ × String)) (dat : List Json) :
    (rankCandidates c rc rl ts ranked dat).1 =
      rankFold ranked (ts.filterMap (eligibleKey c)) := by
  induction ts generalizing ranked dat with
  | nil => rfl
  | cons tool rest ih =>
      unfold rankCandidates
      by_cases hu : c.tool_urls.containsKey tool = true
      · rw [if_neg (by simp [hu])]
        cases hs : c.tool_specs.find? tool with
        | none =>
            rw [ih]
            simp [List.filterMap_cons, eligibleKey, hu, hs]
        | some spec =>
            dsimp only
            rw [ih]
            simp [List.filterMap_cons, eligibleKey, hu, hs, rankFold, rankStep]
      · rw [if_pos (by simp [hu])]
        rw [ih]
        simp only [Bool.not_eq_true] at hu
        simp [List.filterMap_cons, eligibleKey, hu]

/-- A fold that starts `some` stays `some`. -/
theorem rankFold_isSome (x : ℚ × ℚ × String) (ks : List (ℚ × ℚ × String)) :
    (rankFold (some x) ks).isSome := by
  induction ks generalizing x with
  | nil => rfl
  | cons k rest ih =>
      show (rankFold (rankStep (some x) k) rest).isSome
      unfold rankStep
      dsimp only
      split
      · exact ih k
      · exact ih x

/-- The fold's result comes from the seed or the list. -/
theorem rankFold_mem {r : Option (ℚ × ℚ × String)} {ks : List (ℚ × ℚ × String)}
    {m : ℚ × ℚ × String} (h : rankFold r ks = some m) : r = some m ∨ m ∈ ks := by
  induction ks generalizing r with
  | nil => exact Or.inl h
  | cons k rest ih =>
      have h₂ : rankFold (rankStep r k) rest = some m := h
      rcases ih h₂ with hstep | hmem
      · cases hr : r with
        | none =>
            rw [hr] at hstep
            have hk : k = m := by
              have : some k = some m := hstep
              injection this
            exact Or.inr (hk ▸ List.mem_cons_self _ _)
        | some cur =>
            rw [hr] at hstep
            by_cases hlt : lexLtKey k cur = true
            · have hk : k = m := by
                have : some k = some m := by
                  rw [← hstep]
                  simp [rankStep, hlt]
                injection this
              exact Or.inr (hk ▸ List.mem_cons_self _ _)
            · have hc : cur = m := by
                have : some cur = some m := by
                  rw [← hstep]
                  simp [rankStep, hlt]
                injection this
              exact Or.inl (by rw [hc])
      · exact Or.inr (List.mem_cons_of_mem _ hmem)

/-- The fold's result is lexicographically minimal among everything it saw. -/
theorem rankFold_min {r : Option (ℚ × ℚ × String)} {ks : List (ℚ × ℚ × String)}
    {m : ℚ × ℚ × String} (h : rankFold r ks = some m) :
    (∀ x, r = some x → keyLex m ≤ keyLex x) ∧
    (∀ k ∈ ks, keyLex m ≤ keyLex k) := by
  induction ks generalizing r with
  | nil =>
      have hr : r = some m := h
      refine ⟨?_, fun k hk => absurd hk (List.not_mem_nil k)⟩
      intro x hx
      rw [hr] at hx
      injection hx with he
      rw [he]
  | cons k rest ih =>
      have h₂ : rankFold (rankStep r k) rest = some m := h
      obtain ⟨ihseed, ihrest⟩ := ih h₂
      constructor
      · intro x hx
        by_cases hlt : lexLtKey k x = true
        · have h1 := ihseed k (by rw [hx]; simp [rankStep, hlt])
          exact le_trans h1 (le_of_lt ((lexLtKey_iff k x).mp hlt))
        · exact ihseed x (by rw [hx]; simp [rankStep, hlt])
      · intro k₁ hk₁
        rcases List.mem_cons.mp hk₁ with rfl | hk₁
        · cases hr : r with
          | none => exact ihseed k₁ (by rw [hr]; rfl)
          | some cur =>
              by_cases hlt : lexLtKey k₁ cur = true
              · exact ihseed k₁ (by rw [hr]; simp [rankStep, hlt])
              · have h1 := ihseed cur (by rw [hr]; simp [rankStep, hlt])
                have h2 : keyLex cur ≤ keyLex k₁ :=
                  not_lt.mp (fun hc => hlt ((lexLtKey_iff _ _).mpr hc))
                exact le_trans h1 h2
        · exact ihrest k₁ hk₁

/-- C4 (amended: a candidate also needs a registered `ToolSpec` — the loop
skips a tool with a URL but no spec): with at least one candidate under
the capability, selection returns exactly the tool minimising the
lexicographic `(cost ?? 0, latency ?? 0, name)` key among candidates with
both a URL and a spec, and returns `None` iff no candidate qualifies;
budget headroom never excludes a candidate. -/
theorem c4_select_tool (c : ExecutionContext) (capability : String)
    (candidates : List String)
    (hidx : c.capability_index.find? capability = some candidates) :
    (selectToolForCapability c capability = none ↔
      candidates.filterMap (eligibleKey c) = []) ∧
    (∀ d, selectToolForCapability c capability = some d →
      ∃ k ∈ candidates.filterMap (eligibleKey c), k.2.2 = d.tool_name ∧
        ∀ k₁ ∈ candidates.filterMap (eligibleKey c), lexLtKey k₁ k = false) := by
  unfold selectToolForCapability
  rw [hidx]
  dsimp only
  by_cases hemp : candidates.isEmpty = true
  · have hnil : candidates = [] := by
      cases candidates with
      | nil => rfl
      | cons a l => cases hemp
    subst hnil
    simp
  · rw [if_neg (by simp [hemp])]
    rcases hrank : rankCandidates c
        ((c.signals.bind (fun sg => sg.cost_cap_usd)).map
          (fun cap => max (cap - c.total_cost_usd) 0))
        ((c.signals.bind (fun sg => sg.latency_budget_ms)).map
          (fun b => max ((b : ℚ) - c.total_latency_ms) 0))
        candidates none [] with ⟨rbest, dat⟩
    have hspec := rankCandidates_spec c
        ((c.signals.bind (fun sg => sg.cost_cap_usd)).map
          (fun cap => max (cap - c.total_cost_usd) 0))
        ((c.signals.bind (fun sg => sg.latency_budget_ms)).map
          (fun b => max ((b : ℚ) - c.total_latency_ms) 0))
        candidates none []
    rw [hrank] at hspec
    cases rbest with
    | none =>
        dsimp only
        refine ⟨⟨fun _ => ?_, fun _ => rfl⟩, fun d hd => by cases hd⟩
        cases hkeys : candidates.filterMap (eligibleKey c) with
        | nil => rfl
        | cons k ks =>
            rw [hkeys] at hspec
            have hs : (rankFold (none : Option (ℚ × ℚ × String)) (k :: ks)).isSome :=
              rankFold_isSome k ks
            rw [← hspec] at hs
            cases hs
    | some best =>
        dsimp only
        constructor
        · constructor
          · intro h; cases h
          · intro hkeys
            rw [hkeys] at hspec
            cases hspec
        · intro d hd
          injection hd with hd
          refine ⟨best, ?_, ?_, ?_⟩
          · rcases rankFold_mem hspec.symm with hseed | hmem
            · cases hseed
            · exact hmem
          · rw [← hd]
          · intro k₁ hk₁
            have hmin := (rankFold_min hspec.symm).2 k₁ hk₁
            rw [Bool.eq_false_iff]
            intro hlt
            exact absurd ((lexLtKey_iff _ _).mp hlt) (not_lt.mpr hmin)

/-- A spec for tool "b" costing 5 per call. -/
def spec4b : ToolSpec :=
  { spec0 with name := "b", constraints := some ⟨none, none, some 5, none, none⟩ }

/-- A context where "a" and "b" both have URLs under capability "cap" but
only "b" has a spec. -/
def ctx4 : ExecutionContext :=
  { ExecutionContext.new with
    capability_index := [("cap", ["a", "b"])],
    tool_urls := [("a", "ua"), ("b", "ub")],
    tool_specs := [("b", spec4b)] }

/-- Counterexample to C4 as stated: candidate "a" has a URL and the
strictly smaller claim key `(0, 0, "a")`, yet selection returns "b" — the
loop also requires a registered spec, which "a" lacks. -/
theorem c4_select_tool_counterexample :
    ctx4.capability_index.find? "cap" = some ["a", "b"] ∧
    ctx4.tool_urls.containsKey "a" = true ∧
    lexLtKey (0, 0, "a") (5, 0, "b") = true ∧
    (selectToolForCapability ctx4 "cap").map (fun d => d.tool_name) = some "b" := by
  exact ⟨by decide, by decide, by decide, by decide⟩

/-- A spec for tool "a" costing 2 per call. -/
def spec4a : ToolSpec :=
  { spec0 with name := "a", constraints := some ⟨none, none, some 2, none, none⟩ }

/-- A context where "a" (cost 2) and "b" (cost 5) both fully qualify. -/
def ctx4w : ExecutionContext :=
  { ctx4 with tool_specs := [("a", spec4a), ("b", spec4b)] }

/-- Witness for C4's amended theorem: both candidates qualify and the
cheaper "a" is chosen as the lexicographic minimum. -/
theorem c4_select_tool_witness :
    ctx4w.capability_index.find? "cap" = some ["a", "b"] ∧
    (selectToolForCapability ctx4w "cap").map (fun d => d.tool_name) = some "a" ∧
    ((selectToolForCapability ctx4w "cap" = none ↔
       ["a", "b"].filterMap (eligibleKey ctx4w) = []) ∧
     (∀ d, selectToolForCapability ctx4w "cap" = some d →
       ∃ k ∈ ["a", "b"].filterMap (eligibleKey ctx4w), k.2.2 = d.tool_name ∧
         ∀ k₁ ∈ ["a", "b"].filterMap (eligibleKey ctx4w), lexLtKey k₁ k = false)) :=
  ⟨by decide, by decide, c4_select_tool ctx4w "cap" ["a", "b"] (by decide)⟩


/-- `resolve_tool` never issues a memory write. -/
theorem resolveTool_issued (node : Node) (s : ExecState) :
    (resolveTool node s).2.issuedMemWrites = s.issuedMemWrites := by
  unfold resolveTool
  repeat' split
  all_goals rfl

/-- `enforce_tool_policy` never issues a memory write. -/
theorem enforceToolPolicy_issued (F : ExtFuns) (tool_name : String)
    (args : Option Json) (s : ExecState) :
    (enforceToolPolicy F tool_name args s).2.issuedMemWrites = s.issuedMemWrites := by
  unfold enforceToolPolicy
  repeat' split
  all_goals try (dsimp only; repeat' split)
  all_goals rfl

/-- Consuming a mem-write outcome leaves the issued log unchanged. -/
theorem popMemWrite_issued (s : ExecState) :
    (popMemWrite s).2.issuedMemWrites = s.issuedMemWrites := by
  unfold popMemWrite
  split
  all_goals rfl

/-- The issuing tail logs exactly its payload. -/
theorem memStoreWriteIssue_mem (payload : Json) (s : ExecState) :
    payload ∈ (memStoreWriteIssue payload s).2.issuedMemWrites := by
  unfold memStoreWriteIssue
  dsimp only
  split
  all_goals
    rw [popMemWrite_issued]
    simp

/-- Data-frame preservation keeps issued requests. -/
theorem ctxDataEq_issued_mono {s s₂ : ExecState} (h : ctxDataEq s s₂) {p : Json}
    (hp : p ∈ s.issuedMemWrites) : p ∈ s₂.issuedMemWrites := by
  obtain ⟨-, -, -, -, -, ⟨l, hl⟩⟩ := h
  rw [hl]
  exact List.mem_append_left _ hp

/-- `memWriteTail` after the provenance and confidence gates: the
validated TTL decides between a rejection and the issued request. -/
theorem memWriteTail_gates (F : ExtFuns) (node : Node) (res : ToolResolution)
    (key : String) (value : Json) (prov : List String) (conf : ℚ)
    (ttlv : Option String) (s₂ : ExecState)
    (hprovne : prov ≠ []) (hnlt : ¬ conf < (8 : ℚ)/10) :
    memWriteTail F node res key value (some prov) (some conf) ttlv none s₂ =
      (match validateTtl ttlv with
       | .error e =>
           (.error (.ToolExecutionError ("Memory write failed: "
             ++ memoryErrorMessage F e)), s₂)
       | .ok tv =>
           match memStoreWriteIssue (memWritePayload key value prov conf tv none) s₂ with
           | (.error e, s₃) =>
               (.error (.ToolExecutionError ("Memory write failed: "
                 ++ memoryErrorMessage F e)), s₃)
           | (.ok elapsed, s₃) =>
               match recordToolUsage F res.tool_name res.spec elapsed none s₃ with
               | (.error e, s₄) => (.error e, s₄)
               | (.ok _, s₄) => (.ok (), s₄)) := by
  unfold memWriteTail memStoreWrite
  dsimp only
  have hne : prov.isEmpty = false := by
    cases prov with
    | nil => exact absurd rfl hprovne
    | cons a l => rfl
  rw [hne]
  simp only [Bool.false_eq_true, if_false]
  rw [if_neg hnlt, if_neg hnlt]
  cases htl : validateTtl ttlv with
  | error e => rfl
  | ok tv => dsimp only

/-- C6: for a mem.write node with no evidence argument — resolved
confidence below 0.8 is rejected with the documented `ValidationError`
and no write request is issued; an absent TTL defaults to "P90D"; a TTL
whose canonical form fails the regex or equals `P0D`/`PT0S` is an
`InvalidTtl` failure issuing no request; and with confidence exactly 0.8
(and valid provenance and TTL) the write request is issued. -/
theorem c6_mem_write (F : ExtFuns) (node : Node) (s : ExecState)
    (res : ToolResolution) (s₁ s₂ : ExecState)
    (kv value : Json) (key : String) (conf : ℚ)
    (provv : Option (List String)) (ttlv : Option String)
    (hkey : (node.args.bind (·.find? "key")).map (resolveValue s.ctx) = some kv)
    (hks : kv.asStr = some key)
    (hval : (node.args.bind (·.find? "value")).map (resolveValue s.ctx) = some value)
    (hprov : ((node.args.bind (·.find? "provenance")).map (resolveValue s.ctx)).bind
        (fun v => (v.asArray).map (fun arr => arr.filterMap Json.asStr)) = provv)
    (hconf : ((node.args.bind (·.find? "confidence")).map (resolveValue s.ctx)).bind
        Json.asF64 = some conf)
    (httl : ((node.args.bind (·.find? "ttl")).map (resolveValue s.ctx)).bind
        Json.asStr = ttlv)
    (hev : node.args.bind (·.find? "evidence") = none)
    (hres : resolveTool node s = (.ok res, s₁))
    (hpol : enforceToolPolicy F res.tool_name (resolveArgs s₁.ctx node.args) s₁
      = (.ok (), s₂)) :
    (conf < (8 : ℚ)/10 →
      executeMemWrite F node s =
        (.error (.ValidationError (memWriteRejectMessage F conf)), s₂) ∧
      s₂.issuedMemWrites = s.issuedMemWrites) ∧
    validateTtl none = .ok "P90D" ∧
    (∀ tl, ttlRegexMatch (canonicalTtl tl) = false ∨ canonicalTtl tl = "P0D" ∨
        canonicalTtl tl = "PT0S" →
      validateTtl (some tl) = .error (.InvalidTtl (canonicalTtl tl))) ∧
    (¬ conf < (8 : ℚ)/10 → ∀ e, validateTtl ttlv = .error e →
      ∀ prov, provv = some prov → prov ≠ [] →
      executeMemWrite F node s =
        (.error (.ToolExecutionError ("Memory write failed: "
          ++ memoryErrorMessage F e)), s₂) ∧
      s₂.issuedMemWrites = s.issuedMemWrites) ∧
    (conf = (8 : ℚ)/10 → ∀ prov, provv = some prov → prov ≠ [] →
      ∀ tv, validateTtl ttlv = .ok tv →
      memWritePayload key value prov conf tv none ∈
        (executeMemWrite F node s).2.issuedMemWrites) := by
  have hs₁ : s₁.issuedMemWrites = s.issuedMemWrites := by
    have h := resolveTool_issued node s
    rw [hres] at h
    exact h
  have hs₂ : s₂.issuedMemWrites = s.issuedMemWrites := by
    have h := enforceToolPolicy_issued F res.tool_name (resolveArgs s₁.ctx node.args) s₁
    rw [hpol] at h
    exact h.trans hs₁
  have hstep : executeMemWrite F node s =
      (if conf < (8 : ℚ)/10 then
        (.error (.ValidationError (memWriteRejectMessage F conf)), s₂)
      else memWriteTail F node res key value provv (some conf) ttlv none s₂) := by
    unfold executeMemWrite
    rw [hkey]
    dsimp only
    rw [hks]
    dsimp only
    rw [hval]
    dsimp only
    rw [hres]
    dsimp only
    rw [hpol]
    dsimp only
    rw [hev]
    dsimp only
    rw [hprov, hconf, httl]
  refine ⟨?_, by decide, ?_, ?_, ?_⟩
  · intro hlt
    rw [hstep, if_pos hlt]
    exact ⟨rfl, hs₂⟩
  · intro tl h
    unfold validateTtl
    dsimp only
    rcases h with h | h | h
    · rw [h]
      simp
    · rw [h]
      decide
    · rw [h]
      decide
  · intro hnlt e hetl prov hprovsome hprovne
    rw [hstep, if_neg hnlt, hprovsome,
      memWriteTail_gates F node res key value prov conf ttlv s₂ hprovne hnlt, hetl]
    exact ⟨rfl, hs₂⟩
  · intro hc8 prov hprovsome hprovne tv htv
    have hnlt : ¬ conf < (8 : ℚ)/10 := by rw [hc8]; exact lt_irrefl _
    rw [hstep, if_neg hnlt, hprovsome,
      memWriteTail_gates F node res key value prov conf ttlv s₂ hprovne hnlt, htv]
    dsimp only
    rcases hiss : memStoreWriteIssue (memWritePayload key value prov conf tv none) s₂
      with ⟨ri, s₃⟩
    have hmem : memWritePayload key value prov conf tv none ∈ s₃.issuedMemWrites := by
      have h := memStoreWriteIssue_mem (memWritePayload key value prov conf tv none) s₂
      rw [hiss] at h
      exact h
    cases ri with
    | error e => exact hmem
    | ok elapsed =>
        dsimp only
        rcases hrec : recordToolUsage F res.tool_name res.spec elapsed none s₃
          with ⟨rr, s₄⟩
        have hmem₄ : memWritePayload key value prov conf tv none ∈ s₄.issuedMemWrites := by
          have h := recordToolUsage_frame F res.tool_name res.spec elapsed none s₃
          rw [hrec] at h
          exact ctxDataEq_issued_mono h hmem
        cases rr with
        | error e => exact hmem₄
        | ok u => exact hmem₄

/-- The tool resolution the witness context produces. -/
def res6 : ToolResolution :=
  { tool_name := "t", tool_url := "u", spec := none, capability := none }

/-- The witness scheduler state: one tool URL registered, no specs. -/
def st6 : ExecState :=
  { stInit with ctx := { stInit.ctx with tool_urls := [("t", "u")] } }

/-- A mem.write node with confidence 0.5 (below threshold). -/
def node6a : Node :=
  { id := "w", op := .MemWrite, tool := some "t", capability := none,
    args := some [("key", .str "k"), ("value", .num 1),
      ("provenance", .arr [.str "p"]), ("confidence", .num (1/2))],
    bind := none, out := none }

/-- The same node with confidence exactly 0.8. -/
def node6b : Node :=
  { node6a with
    args := some [("key", .str "k"), ("value", .num 1),
      ("provenance", .arr [.str "p"]), ("confidence", .num (8/10))] }

/-- Witness for C6: confidence 0.5 is rejected with the documented message
and no issued request; the TTL defaults to "P90D"; confidence exactly 0.8
issues the write request. -/
theorem c6_mem_write_witness :
    ((1 : ℚ)/2 < 8/10) ∧
    (executeMemWrite ExtFuns.triv node6a st6 =
      (.error (.ValidationError (memWriteRejectMessage ExtFuns.triv (1/2))), st6) ∧
     st6.issuedMemWrites = st6.issuedMemWrites) ∧
    validateTtl none = .ok "P90D" ∧
    memWritePayload "k" (Json.num 1) ["p"] (8/10) "P90D" none ∈
      (executeMemWrite ExtFuns.triv node6b st6).2.issuedMemWrites := by
  refine ⟨by decide, ?_, by decide, ?_⟩
  · exact (c6_mem_write ExtFuns.triv node6a st6 res6 st6 st6 (Json.str "k") (Json.num 1)
      "k" (1/2) (some ["p"]) none rfl rfl rfl rfl rfl rfl rfl rfl rfl).1 (by decide)
  · exact (c6_mem_write ExtFuns.triv node6b st6 res6 st6 st6 (Json.str "k") (Json.num 1)
      "k" (8/10) (some ["p"]) none rfl rfl rfl rfl rfl rfl rfl rfl rfl).2.2.2.2
      rfl ["p"] rfl (by decide) "P90D" (by decide)

end AgenticMesh
